import Mathlib

/-!
# Verification of the michi-c Go engine core against its specification

This file is a shallow embedding, in Lean 4, of the parts of the michi-c
program (michi.c / michi.h / patterns.c) that the specification claims talk
about: the `Position` data structure, the incremental board update routines
(`put_stone`, `remove_stone`, `swap_color`), move execution (`play_move`,
`pass_move`, `undo_move`, `empty_position`), block computation
(`compute_block`, `capture_block`), eye detection (`is_eyeish`), the small
integer list primitive `slist_insert`, coordinate I/O (`parse_coord`,
`str_coord`), the hash probe of `find_pat`, and the final move selection of
`tree_search`.

Modelling conventions:
* the board is the C array `char color[BOARDSIZE]` with `BOARDSIZE = 211`
  (board size `N = 13`, row stride `N+1 = 14`, `W = N+2 = 15`); points are
  `Int` indices into this array, and the arrays `color`, `env4`, `env4d`
  are total functions `Int → Char` / `Int → Nat` (the C program only ever
  touches indices `0..210` for the inputs considered here);
* machine bytes (`env4`, `env4d` entries) are `Nat` values; all the bit
  operations (`^^^`, `&&&`, `|||`, shifts) are the C ones on values `< 256`;
* the C `float komi` only ever holds `7.5`, modelled as the rational `15/2`;
  the single floating comparison `best->w/best->v < 0.2` in `tree_search`
  is modelled as the exact rational comparison `w / v < 1/5`;
* the capture counters `cap`, `capX` (C `char`) are modelled as unbounded
  `Int` counters;
* the C global `pos_capture` is threaded explicitly: `play_move` receives
  the current value and returns the new one, and `undo_move` receives the
  value the preceding `play_move` produced (matching every call site);
* loops become structural recursion; the block BFS of `compute_block`
  carries a fuel argument that is far larger than the 169 interior points,
  so it never runs out on any well-formed position.
-/

namespace Michi

/-- Board side `N` of michi.h (13). -/
def Nsz : Int := 13

/-- `W = N + 2` of michi.h. -/
def Wsz : Int := 15

/-- `BOARDSIZE = (N+1)*W + 1 = 211`. -/
def BOARDSIZE : Int := 211

/-- The neighbor displacement table `delta` of michi.c:
`{ -N-1, 1, N+1, -1, -N, W, N, -W }` for N = 13, W = 15. -/
def delta : Nat → Int
  | 0 => -14
  | 1 => 1
  | 2 => 14
  | 3 => -1
  | 4 => -13
  | 5 => 15
  | 6 => 13
  | 7 => -15
  | _ => 0

/-- The struct `Position` of michi.h.  `color`, `env4`, `env4d` are the three
board-sized arrays; the remaining fields are the scalar members.
The two capture counters `cap` and
`capX` are declared `char` in the C struct; they are carried here as
unbounded `Int`, and the 8-bit value the program actually stores is
recovered by applying `sbyte` at every assignment, which is what
`runSeqCapB` does (the counters feed back into nothing else). -/
@[ext] structure Position where
  color : Int → Char
  env4 : Int → Nat
  env4d : Int → Nat
  n : Int
  ko : Int
  ko_old : Int
  last : Int
  last2 : Int
  last3 : Int
  komi : ℚ
  cap : Int
  capX : Int

/-- `SWAP_CASE` of michi.h : `'X' ↔ 'x'`, other characters unchanged. -/
def swapCase (c : Char) : Char :=
  if c = 'X' then 'x' else if c = 'x' then 'X' else c

/-- The color code of `compute_env4` in michi.c: 0 WHITE, 1 BLACK, 2 EMPTY,
3 OUT.  `nn` is the move counter `pos->n` (parity decides who is `'X'`). -/
def colorCode (nn : Int) (c : Char) : Nat :=
  if c = '.' then 2
  else if c = ' ' then 3
  else if nn % 2 = 0 then (if c = 'X' then 1 else 0)
  else (if c = 'X' then 0 else 1)

/-- The byte built by `compute_env4` from the four neighbor color codes
`c0..c3` (in positions `k-offset = 0..3`): low nibble holds the low bits,
high nibble the high bits. -/
def mkEnv4 (c0 c1 c2 c3 : Nat) : Nat :=
  (c0 &&& 1) + 2 * (c1 &&& 1) + 4 * (c2 &&& 1) + 8 * (c3 &&& 1)
    + 16 * ((c0 >>> 1) + 2 * (c1 >>> 1) + 4 * (c2 >>> 1) + 8 * (c3 >>> 1))

/-- `compute_env4` of michi.c as a function of the color array and the move
counter: the loop `for k = offset .. offset+3` OR-ing the contribution
`((hi<<4)+lo) << (k-offset)` of neighbor `pt + delta[k]`. -/
def computeEnv4F (col : Int → Char) (nn : Int) (pt : Int) (off : Nat) : Nat :=
  (List.range 4).foldl
    (fun acc j =>
      let c := colorCode nn (col (pt + delta (off + j)))
      acc ||| ((((c >>> 1) <<< 4) + (c &&& 1)) <<< j))
    0

/-- `compute_env4(pos, pt, offset)` of michi.c. -/
def compute_env4 (pos : Position) (pt : Int) (off : Nat) : Nat :=
  computeEnv4F pos.color pos.n pt off

/-- `put_stone(pos, pt)` of michi.c: write `'X'` at `pt` and incrementally
update the cached `env4`/`env4d` bytes of the 8 neighbors (XOR masks when
BLACK is to play, AND masks when WHITE is to play). -/
def put_stone (pos : Position) (pt : Int) : Position :=
  if pos.n % 2 = 0 then
    { pos with
      env4 := fun q =>
        if q = pt + 14 then pos.env4 q ^^^ 0x11
        else if q = pt - 1 then pos.env4 q ^^^ 0x22
        else if q = pt - 14 then pos.env4 q ^^^ 0x44
        else if q = pt + 1 then pos.env4 q ^^^ 0x88
        else pos.env4 q
      env4d := fun q =>
        if q = pt + 13 then pos.env4d q ^^^ 0x11
        else if q = pt - 15 then pos.env4d q ^^^ 0x22
        else if q = pt - 13 then pos.env4d q ^^^ 0x44
        else if q = pt + 15 then pos.env4d q ^^^ 0x88
        else pos.env4d q
      color := Function.update pos.color pt 'X' }
  else
    { pos with
      env4 := fun q =>
        if q = pt + 14 then pos.env4 q &&& 0xEE
        else if q = pt - 1 then pos.env4 q &&& 0xDD
        else if q = pt - 14 then pos.env4 q &&& 0xBB
        else if q = pt + 1 then pos.env4 q &&& 0x77
        else pos.env4 q
      env4d := fun q =>
        if q = pt + 13 then pos.env4d q &&& 0xEE
        else if q = pt - 15 then pos.env4d q &&& 0xDD
        else if q = pt - 13 then pos.env4d q &&& 0xBB
        else if q = pt + 15 then pos.env4d q &&& 0x77
        else pos.env4d q
      color := Function.update pos.color pt 'X' }

/-- `remove_stone(pos, pt)` of michi.c: write `'.'` at `pt` and update the
neighbor caches (OR masks when BLACK is to play — the removed stone is the
WHITE `'x'` — and XOR masks when WHITE is to play). -/
def remove_stone (pos : Position) (pt : Int) : Position :=
  if pos.n % 2 = 0 then
    { pos with
      env4 := fun q =>
        if q = pt + 14 then pos.env4 q ||| 0x10
        else if q = pt - 1 then pos.env4 q ||| 0x20
        else if q = pt - 14 then pos.env4 q ||| 0x40
        else if q = pt + 1 then pos.env4 q ||| 0x80
        else pos.env4 q
      env4d := fun q =>
        if q = pt + 13 then pos.env4d q ||| 0x10
        else if q = pt - 15 then pos.env4d q ||| 0x20
        else if q = pt - 13 then pos.env4d q ||| 0x40
        else if q = pt + 15 then pos.env4d q ||| 0x80
        else pos.env4d q
      color := Function.update pos.color pt '.' }
  else
    { pos with
      env4 := fun q =>
        if q = pt + 14 then pos.env4 q ^^^ 0x11
        else if q = pt - 1 then pos.env4 q ^^^ 0x22
        else if q = pt - 14 then pos.env4 q ^^^ 0x44
        else if q = pt + 1 then pos.env4 q ^^^ 0x88
        else pos.env4 q
      env4d := fun q =>
        if q = pt + 13 then pos.env4d q ^^^ 0x11
        else if q = pt - 15 then pos.env4d q ^^^ 0x22
        else if q = pt - 13 then pos.env4d q ^^^ 0x44
        else if q = pt + 15 then pos.env4d q ^^^ 0x88
        else pos.env4d q
      color := Function.update pos.color pt '.' }

/-- `remove_X_stone` of michi.c: bump `n`, remove, restore `n` (the "cheat"
that makes `remove_stone` delete a stone of the to-play color). -/
def remove_X_stone (pos : Position) (pt : Int) : Position :=
  let p := remove_stone { pos with n := pos.n + 1 } pt
  { p with n := p.n - 1 }

/-- `swap_color` of michi.c: `SWAP_CASE` every point of `FORALL_POINTS`
(indices `BOARD_IMIN = 14` to `BOARD_IMAX - 1 = 196`). -/
def swap_color (pos : Position) : Position :=
  { pos with
    color := fun q => if 14 ≤ q ∧ q < 197 then swapCase (pos.color q) else pos.color q }

/-- The loop body of `is_eyeish`: iterate over the orthogonal neighbors,
carrying the current `eyecolor` (`Char.ofNat 0` plays the role of C's 0). -/
def eyeishLoop (pos : Position) (pt : Int) : List Nat → Char → Char
  | [], eyecolor => eyecolor
  | k :: ks, eyecolor =>
    let c := pos.color (pt + delta k)
    if c = ' ' then eyeishLoop pos pt ks eyecolor
    else if c = '.' then Char.ofNat 0
    else if eyecolor = Char.ofNat 0 then eyeishLoop pos pt ks c
    else if c = swapCase eyecolor then Char.ofNat 0
    else eyeishLoop pos pt ks eyecolor

/-- `is_eyeish(pos, pt)` of michi.c: the common color of all non-OUT
orthogonal neighbors, or 0 (`Char.ofNat 0`). -/
def is_eyeish (pos : Position) (pt : Int) : Char :=
  eyeishLoop pos pt [0, 1, 2, 3] (Char.ofNat 0)

/-- The inner neighbor loop of `compute_block`: examine the four orthogonal
neighbors of the current queue element, marking each unmarked one, queuing
same-color stones and recording liberties; the `Bool` is true when the
`nlibs` early exit (`goto finished`) fired. -/
def cbNbrs (pos : Position) (c0 : Char) (nlibs : Nat) (pt : Int) :
    List Nat → List Int → List Int → List Int →
      List Int × List Int × List Int × Bool
  | [], stones, marked, libs => (stones, marked, libs, false)
  | k :: ks, stones, marked, libs =>
    let nn := pt + delta k
    if nn ∈ marked then cbNbrs pos c0 nlibs pt ks stones marked libs
    else
      if pos.color nn = c0 then
        cbNbrs pos c0 nlibs pt ks (stones ++ [nn]) (nn :: marked) libs
      else if pos.color nn = '.' then
        if nlibs ≤ libs.length + 1 then (stones, nn :: marked, libs ++ [nn], true)
        else cbNbrs pos c0 nlibs pt ks stones (nn :: marked) (libs ++ [nn])
      else cbNbrs pos c0 nlibs pt ks stones (nn :: marked) libs

/-- The BFS loop of `compute_block` (`while (head > tail)`), with fuel. -/
def cbGo (pos : Position) (c0 : Char) (nlibs : Nat) :
    Nat → List Int → Nat → List Int → List Int → List Int × List Int
  | 0, stones, _, _, libs => (stones, libs)
  | fuel + 1, stones, t, marked, libs =>
    if t < stones.length then
      let pt := stones.getD t 0
      let r := cbNbrs pos c0 nlibs pt [0, 1, 2, 3] stones marked libs
      if r.2.2.2 then (r.1, r.2.2.1)
      else cbGo pos c0 nlibs fuel r.1 (t + 1) r.2.1 r.2.2.1
    else (stones, libs)

/-- `compute_block(pos, pt, stones, libs, nlibs)` of michi.c: the list of
stones of the block at `pt` (possibly truncated by the `nlibs` early exit,
exactly as in the C code) and the list of liberties found. -/
def compute_block (pos : Position) (pt0 : Int) (nlibs : Nat) : List Int × List Int :=
  cbGo pos (pos.color pt0) nlibs 500 [pt0] 0 [pt0] []

/-- `capture_block` of michi.c: remove every stone of the list (its return
value `slist_size(stones)` is read off as `stones.length` at call sites). -/
def capture_block (pos : Position) (stones : List Int) : Position :=
  stones.foldl remove_stone pos

/-- One iteration of the capture loop of `play_move`: neighbor `pt+delta k`
is examined; an `'x'` block with no liberty is captured, updating the
running capture count and the `pos_capture` global. -/
def captureStep (pt : Int) (acc : Position × Int × Int) (k : Nat) :
    Position × Int × Int :=
  if acc.1.color (pt + delta k) = 'x' then
    (if (compute_block acc.1 (pt + delta k) 1).2.length = 0 then
      (capture_block acc.1 (compute_block acc.1 (pt + delta k) 1).1,
        acc.2.1 + (((compute_block acc.1 (pt + delta k) 1).1.length : Int)),
        pt + delta k)
    else acc)
  else acc

/-- The `FORALL_NEIGHBORS` capture loop of `play_move`, starting from
`captured = 0`, `pos_capture = 0`. -/
def captureLoop (pos : Position) (pt : Int) : Position × Int × Int :=
  [0, 1, 2, 3].foldl (captureStep pt) (pos, 0, 0)

/-- Result of `play_move`: the returned string, the updated position, the
number of stones this move captured, and the value of the global
`pos_capture` after the call. -/
structure PlayRes where
  msg : String
  pos : Position
  captured : Int
  posCapture : Int

/-- The tail of a successful `play_move`: fold the capture count into the
swapped capture counters, `swap_color`, advance `n` and the last-move
history. -/
def playFinish (pos : Position) (pt : Int) (captured pcap : Int) : PlayRes :=
  let captured2 := captured + pos.capX
  let p1 := { pos with capX := pos.cap, cap := captured2 }
  let p2 := swap_color p1
  let p3 := { p2 with n := p2.n + 1 }
  let p4 := { p3 with last3 := p3.last2, last2 := p3.last, last := pt }
  { msg := "", pos := p4, captured := captured, posCapture := pcap }

/-- `play_move(pos, pt)` of michi.c.  `pc` is the value of the global
`pos_capture` on entry (returned unchanged on the ko error path, where the
C code does not write it). -/
def play_move (pos : Position) (pt : Int) (pc : Int) : PlayRes :=
  let pos0 := { pos with ko_old := pos.ko }
  if pt = pos0.ko then
    { msg := "Error Illegal move: retakes ko", pos := pos0, captured := 0, posCapture := pc }
  else
    let eye := is_eyeish pos0 pt
    let pos1 := put_stone pos0 pt
    let cl := captureLoop pos1 pt
    if 0 < cl.2.1 then
      playFinish
        { cl.1 with ko := if cl.2.1 = 1 ∧ eye ≠ Char.ofNat 0 then cl.2.2 else 0 }
        pt cl.2.1 cl.2.2
    else
      let pos3 := { cl.1 with ko := 0 }
      let cb := compute_block pos3 pt 1
      if cb.2.length = 0 then
        { msg := "Error Illegal move: suicide",
          pos := remove_X_stone { pos3 with ko := pos3.ko_old } pt,
          captured := 0, posCapture := cl.2.2 }
      else playFinish pos3 pt cl.2.1 cl.2.2

/-- `pass_move(pos)` of michi.c: swap the board, advance `n`, shift the
last-move history, clear `ko`, swap the capture counters. -/
def pass_move (pos : Position) : Position :=
  let p1 := swap_color pos
  let p2 := { p1 with n := p1.n + 1 }
  let p3 := { p2 with last2 := p2.last }
  let p4 := { p3 with last := 0, ko := 0 }
  { p4 with cap := p4.capX, capX := p4.cap }

/-- `undo_move(pos)` of michi.c; `pc` is the value of the global
`pos_capture` left by the preceding `play_move`. -/
def undo_move (pos : Position) (pc : Int) : Position :=
  let p1 := remove_stone pos pos.last
  let p2 := { p1 with last := p1.last2, last2 := p1.last3 }
  let p3 := { p2 with ko := p2.ko_old }
  let p4 := if pc ≠ 0 then
      let q := put_stone p3 pc
      { q with cap := q.cap - 1 }
    else p3
  let p5 := { p4 with n := p4.n - 1 }
  let p6 := { p5 with cap := p5.capX, capX := p5.cap }
  swap_color p6

/-- `empty_position(pos)` of michi.c: OUT border, EMPTY interior, rebuild
`env4`/`env4d` at every non-OUT point of `FORALL_POINTS` (the loop runs
before `n` is reset, so `compute_env4` sees the old `pos->n`), then clear
`ko`, `last`, `last2`, `capX`, `cap`, `n` and set `komi = 7.5`.
`last3` and `ko_old` are not touched. -/
def empty_position (pos : Position) : Position :=
  let col : Int → Char := fun q =>
    if 0 ≤ q ∧ q < 211 then
      (if 15 ≤ q ∧ q ≤ 195 ∧ q % 14 ≠ 0 then '.' else ' ')
    else pos.color q
  let e4 : Int → Nat := fun q =>
    if 14 ≤ q ∧ q < 197 ∧ col q ≠ ' ' then computeEnv4F col pos.n q 0 else pos.env4 q
  let e4d : Int → Nat := fun q =>
    if 14 ≤ q ∧ q < 197 ∧ col q ≠ ' ' then computeEnv4F col pos.n q 4 else pos.env4d q
  { pos with
    color := col, env4 := e4, env4d := e4d,
    ko := 0, last := 0, last2 := 0, capX := 0, cap := 0,
    n := 0, komi := 15 / 2 }

/-- The empty board color array (what `empty_position` writes on
`0..210`; indices outside the array are mapped to the OUT character). -/
def emptyColor : Int → Char := fun q =>
  if 0 ≤ q ∧ q < 211 then
    (if 15 ≤ q ∧ q ≤ 195 ∧ q % 14 ≠ 0 then '.' else ' ')
  else ' '

/-- A concrete freshly-allocated `Position` to feed to `empty_position`
(the C code `malloc`s the struct; the unspecified bytes are chosen so that
the two cache arrays are consistent with the empty board everywhere). -/
def initPos : Position :=
  { color := emptyColor
    env4 := fun q => computeEnv4F emptyColor 0 q 0
    env4d := fun q => computeEnv4F emptyColor 0 q 4
    n := 0, ko := 0, ko_old := 0, last := 0, last2 := 0, last3 := 0
    komi := 15 / 2, cap := 0, capX := 0 }

/-- The initial game position: `empty_position` applied to a fresh struct. -/
def emptyPos : Position := empty_position initPos

/-! ## Game sequences -/

/-- A requested engine action: a stone at a point, or a pass. -/
inductive Action where
  | play (pt : Int)
  | pass

/-- One legal step.  Per the specification, `play_move`'s pre-conditions are
`color[pt] == '.'` and success (empty return string); a step violating them
is not part of a legal sequence. -/
def stepPos (pos : Position) : Action → Option Position
  | .pass => some (pass_move pos)
  | .play pt =>
    let r := play_move pos pt 0
    if pos.color pt = '.' ∧ r.msg = "" then some r.pos else none

/-- Run a sequence of legal actions. -/
def runSeq : Position → List Action → Option Position
  | pos, [] => some pos
  | pos, a :: as =>
    match stepPos pos a with
    | some p => runSeq p as
    | none => none

/-- Run a sequence of legal actions, also accumulating the total number of
stones captured by the `play_move` calls of the sequence. -/
def runSeqCap : Position → Int → List Action → Option (Position × Int)
  | pos, tot, [] => some (pos, tot)
  | pos, tot, a :: as =>
    match a with
    | .pass => runSeqCap (pass_move pos) tot as
    | .play pt =>
      let r := play_move pos pt 0
      if pos.color pt = '.' ∧ r.msg = "" then runSeqCap r.pos (tot + r.captured) as
      else none

/-! ## Byte-accurate capture counters -/

/-- Truncation of an `int` value on assignment into a C `char` (8-bit,
signed two's complement, as on the reference platforms): `michi.h` declares
`char cap; char capX;`, so the statement `pos->cap = captured;` in
`play_move` stores only the low byte. -/
def sbyte (x : Int) : Int := (x + 128) % 256 - 128

/-- Run a sequence of legal actions, tracking the capture counters with
the width the program actually stores them at.  `play_move` executes
`captured += pos->capX; pos->capX = pos->cap; pos->cap = captured;` where
`captured` is an `int`: the sum is exact and only the final store into the
8-bit `cap` truncates.  `pass_move` swaps the two `char` fields (no value
change).  The legality test is the same as in `runSeq`/`runSeqCap`; the
last component accumulates the exact number of stones captured. -/
def runSeqCapB : Position → Int → Int → Int → List Action →
    Option (Position × Int × Int × Int)
  | pos, cap, capX, tot, [] => some (pos, cap, capX, tot)
  | pos, cap, capX, tot, a :: as =>
    match a with
    | .pass => runSeqCapB (pass_move pos) capX cap tot as
    | .play pt =>
      let r := play_move pos pt 0
      if pos.color pt = '.' ∧ r.msg = "" then
        runSeqCapB r.pos (sbyte (r.captured + capX)) cap (tot + r.captured) as
      else none

/-- First half (130 actions) of a game in which White fills a walled
region of the board: Black builds a wall on row 11 while White begins
filling rows 10 down to 6; Black then passes between the White moves. -/
def c7Acts1 : List Action :=
  [ Action.play 155, Action.play 153, Action.play 156, Action.play 152, Action.play 157,
   Action.play 151, Action.play 158, Action.play 150, Action.play 159, Action.play 149,
   Action.play 160, Action.play 148, Action.play 161, Action.play 147, Action.play 162,
   Action.play 146, Action.play 163, Action.play 145, Action.play 164, Action.play 144,
   Action.play 165, Action.play 143, Action.play 166, Action.play 142, Action.play 167,
   Action.play 141, Action.pass, Action.play 127, Action.pass, Action.play 128, Action.pass,
   Action.play 129, Action.pass, Action.play 130, Action.pass, Action.play 131, Action.pass,
   Action.play 132, Action.pass, Action.play 133, Action.pass, Action.play 134, Action.pass,
   Action.play 135, Action.pass, Action.play 136, Action.pass, Action.play 137, Action.pass,
   Action.play 138, Action.pass, Action.play 139, Action.pass, Action.play 125, Action.pass,
   Action.play 124, Action.pass, Action.play 123, Action.pass, Action.play 122, Action.pass,
   Action.play 121, Action.pass, Action.play 120, Action.pass, Action.play 119, Action.pass,
   Action.play 118, Action.pass, Action.play 117, Action.pass, Action.play 116, Action.pass,
   Action.play 115, Action.pass, Action.play 114, Action.pass, Action.play 113, Action.pass,
   Action.play 99, Action.pass, Action.play 100, Action.pass, Action.play 101, Action.pass,
   Action.play 102, Action.pass, Action.play 103, Action.pass, Action.play 104, Action.pass,
   Action.play 105, Action.pass, Action.play 106, Action.pass, Action.play 107, Action.pass,
   Action.play 108, Action.pass, Action.play 109, Action.pass, Action.play 110, Action.pass,
   Action.play 111, Action.pass, Action.play 97, Action.pass, Action.play 96, Action.pass,
   Action.play 95, Action.pass, Action.play 94, Action.pass, Action.play 93, Action.pass,
   Action.play 92, Action.pass, Action.play 91, Action.pass, Action.play 90, Action.pass,
   Action.play 89, Action.pass, Action.play 88, Action.pass, Action.play 87, Action.pass,
   Action.play 86, Action.pass, Action.play 85]

/-- Second half (129 actions): White finishes filling the region (129
stones, one shared liberty at A1 = point 15 left), Black passing in
between; the final Black move at 15 captures all 129 White stones at
once, so the `int` value 129 is truncated by the store into the 8-bit
`cap`. -/
def c7Acts2 : List Action :=
  [ Action.pass, Action.play 71, Action.pass, Action.play 72, Action.pass, Action.play 73,
   Action.pass, Action.play 74, Action.pass, Action.play 75, Action.pass, Action.play 76,
   Action.pass, Action.play 77, Action.pass, Action.play 78, Action.pass, Action.play 79,
   Action.pass, Action.play 80, Action.pass, Action.play 81, Action.pass, Action.play 82,
   Action.pass, Action.play 83, Action.pass, Action.play 69, Action.pass, Action.play 68,
   Action.pass, Action.play 67, Action.pass, Action.play 66, Action.pass, Action.play 65,
   Action.pass, Action.play 64, Action.pass, Action.play 63, Action.pass, Action.play 62,
   Action.pass, Action.play 61, Action.pass, Action.play 60, Action.pass, Action.play 59,
   Action.pass, Action.play 58, Action.pass, Action.play 57, Action.pass, Action.play 43,
   Action.pass, Action.play 44, Action.pass, Action.play 45, Action.pass, Action.play 46,
   Action.pass, Action.play 47, Action.pass, Action.play 48, Action.pass, Action.play 49,
   Action.pass, Action.play 50, Action.pass, Action.play 51, Action.pass, Action.play 52,
   Action.pass, Action.play 53, Action.pass, Action.play 54, Action.pass, Action.play 55,
   Action.pass, Action.play 41, Action.pass, Action.play 40, Action.pass, Action.play 39,
   Action.pass, Action.play 38, Action.pass, Action.play 37, Action.pass, Action.play 36,
   Action.pass, Action.play 35, Action.pass, Action.play 34, Action.pass, Action.play 33,
   Action.pass, Action.play 32, Action.pass, Action.play 31, Action.pass, Action.play 30,
   Action.pass, Action.play 29, Action.pass, Action.play 27, Action.pass, Action.play 26,
   Action.pass, Action.play 25, Action.pass, Action.play 24, Action.pass, Action.play 23,
   Action.pass, Action.play 22, Action.pass, Action.play 21, Action.pass, Action.play 20,
   Action.pass, Action.play 19, Action.pass, Action.play 18, Action.pass, Action.play 17,
   Action.pass, Action.play 16, Action.play 15]

/-- The complete 259-action game: a single legal sequence from the empty
position in which one side captures 129 stones. -/
def c7CexActs : List Action := c7Acts1 ++ c7Acts2

/-- The board after `c7Acts1` (211 characters, index = point, row stride
14): rows 6-10 hold the 65 White stones placed so far, row 11 the Black
wall. -/
def c7MidStr : String :=
  "               ............. ............. ............. ............. ............. xxxxxxxxxxxxx xxxxxxxxxxxxx xxxxxxxxxxxxx xxxxxxxxxxxxx xxxxxxxxxxxxx XXXXXXXXXXXXX ............. .............               "

/-- The color array after `c7Acts1`, as a direct table lookup. -/
def c7MidCol : Int → Char := fun q =>
  if 0 ≤ q ∧ q < 211 then c7MidStr.data.getD q.toNat ' ' else ' '

/-- The position reached by `c7Acts1`, written with shallow table lookups
(the caches are spelled as `compute_env4` rebuilt from the colors, which
is what the cache invariant guarantees; outside the board they hold the
untouched `empty_position` values). -/
def c7Mid : Position :=
  { color := c7MidCol
    env4 := fun q => if 0 ≤ q ∧ q < 211 then computeEnv4F c7MidCol 130 q 0
      else computeEnv4F emptyColor 0 q 0
    env4d := fun q => if 0 ≤ q ∧ q < 211 then computeEnv4F c7MidCol 130 q 4
      else computeEnv4F emptyColor 0 q 4
    n := 130, ko := 0, ko_old := 0, last := 85, last2 := 0, last3 := 86
    komi := 15 / 2, cap := 0, capX := 0 }

/-- The raw result of running the first half of the game. -/
def c7R1p : Position × Int × Int × Int :=
  (runSeqCapB emptyPos 0 0 0 c7Acts1).getD (emptyPos, 0, 0, 0)

/-! ## `slist_insert` (michi.h) -/

/-- The scan loop `for (k=1 ; k<=n ; k++) if (l[k]==item) break;` of
`slist_insert`: returns the final value of `k` (the first index holding
`item`, or `n+1`).  The fuel is exactly the number of iterations the C
loop can make. -/
def slistScan (l : Nat → Nat) (item : Nat) (n : Nat) : Nat → Nat → Nat
  | k, 0 => k
  | k, fuel + 1 =>
    if k ≤ n then (if l k = item then k else slistScan l item n (k + 1) fuel)
    else k

/-- `slist_insert(l, item)` of michi.h.  The Slist is the C integer array:
`l 0` is the size, elements live at indices `1..l 0`.  Returns the updated
array and the C return value (1 inserted / 0 already present). -/
def slist_insert (l : Nat → Nat) (item : Nat) : (Nat → Nat) × Nat :=
  let n := l 0 + 1
  let l1 := Function.update l n item
  let k := slistScan l1 item n 1 (n + 1)
  if k = n then (Function.update l1 0 n, 1) else (l1, 0)

/-! ## Coordinate I/O (michi.c) -/

/-- `parse_coord(s)` of michi.c: `"pass"` (case-insensitive; `strcasecmp`
is the lowercase-map comparison) maps to `PASS_MOVE = 0`; otherwise
`sscanf(s, "%c%d", &c, &y)` reads the column letter and the row number (the
`%d` is the decimal value of the trailing digits) and the point is
`(N-y+1)*(N+1) + x` with `x = c-'@'` below `'J'` and `c-'@'-1` from `'J'`
on (the `I` column is skipped). -/
def parse_coord (s : String) : Int :=
  if s.data.map Char.toLower = "pass".data then 0
  else
    let c := (s.data.headD 'A').toUpper
    let y : Int := (s.data.drop 1).foldl (fun acc ch => acc * 10 + ((ch.toNat : Int) - 48)) 0
    let x : Int := if c < 'J' then (c.toNat : Int) - 64 else (c.toNat : Int) - 64 - 1
    (13 - y + 1) * 14 + x

/-- `str_coord(pt, str)` of michi.c: `PASS_MOVE = 0` prints `"pass"`,
`RESIGN_MOVE = 1` prints `"resign"`, otherwise `sprintf(str, "%c%d",
'@'+col, N+1-row)` followed by the post-hoc `if (str[0] > 'H') str[0]++`
that skips the `I` column. -/
def str_coord (pt : Int) : String :=
  if pt = 0 then "pass"
  else if pt = 1 then "resign"
  else
    let row := pt / 14
    let col := pt % 14
    let c0 := Char.ofNat (64 + col).toNat
    let c := if 'H' < c0 then Char.ofNat (c0.toNat + 1) else c0
    String.mk [c] ++ toString (13 + 1 - row)

/-- The string of a legal board coordinate: column letter (skipping `I`)
followed by the 1-based row number counted from the bottom. -/
def coordStr (x y : Int) : String :=
  (if x ≤ 8 then String.mk [Char.ofNat (64 + x).toNat]
   else String.mk [Char.ofNat (65 + x).toNat]) ++ toString y

/-! ## The `find_pat` probe sequence (patterns.c) -/

/-- `KSIZE = 25`, table size `LENGTH = 1 << KSIZE`. -/
def LENGTH : Nat := 1 <<< 25

/-- The `primes` table of patterns.c used for double hashing. -/
def primes (i : Nat) : Nat :=
  [5, 11, 37, 103, 293, 991, 2903, 9931,
   7, 19, 73, 10009, 11149, 12553, 6229, 10181,
   1013, 1583, 2503, 3491, 4637, 5501, 6571, 7459,
   8513, 9433, 10433, 11447, 11887, 12409, 2221, 4073].getD i 0

/-- The probe loop of `find_pat`, returning the list of table indices the
loop reads (`patterns[h].key`), in order.  The wraparound is the one of the
C code: `h += h2; if (h > LENGTH) h -= LENGTH;`. -/
def findPatGo (table : Nat → Nat) (key h2 : Nat) : Nat → Nat → List Nat
  | 0, _ => []
  | fuel + 1, h =>
    if table h = key then [h]
    else if table h = 0 then [h]
    else
      let h1 := h + h2
      let h1 := if LENGTH < h1 then h1 - LENGTH else h1
      h :: findPatGo table key h2 fuel h1

/-- The table indices accessed by `find_pat(key)` of patterns.c:
`h = (key >> 20) & KMASK`, `h2 = primes[(key >> (20+KSIZE)) & 15]`, then
the probe sequence until an equal or zero key is found (bounded by fuel). -/
def find_pat_probes (table : Nat → Nat) (key : Nat) (fuel : Nat) : List Nat :=
  let h := (key >>> 20) &&& (LENGTH - 1)
  let h2 := primes ((key >>> 45) &&& 15)
  findPatGo table key h2 fuel h

/-! ## Final move selection of `tree_search` (michi.c) -/

/-- The fields of a MCTS `TreeNode` that the final selection of
`tree_search` reads: visits `v`, wins `w`, and the last two moves of the
node's position. -/
structure TNodeSel where
  v : Int
  w : Int
  last : Int
  last2 : Int
deriving DecidableEq

/-- A generated move: `PASS_MOVE`, `RESIGN_MOVE`, or a board point. -/
inductive GenMove where
  | pass
  | resign
  | point (pt : Int)
deriving DecidableEq

/-- `best_move(tree, NULL)` of michi.c: the first child whose visit count
strictly exceeds all earlier ones, starting from `vmax = -1`. -/
def best_move (children : List TNodeSel) : Option TNodeSel :=
  (children.foldl
    (fun acc c => if acc.1 < c.v then (c.v, some c) else acc)
    ((-1 : Int), none)).2

/-- The final dispatch of `tree_search` on the selected `best` child:
`if (best->pos.last == PASS_MOVE && best->pos.last2 == PASS_MOVE) return
PASS_MOVE; else if ((double)best->w / best->v < RESIGN_THRES) return
RESIGN_MOVE; else return best->pos.last;` (`PASS_MOVE = 0`,
`RESIGN_THRES = 0.2`). -/
def searchSelect (best : TNodeSel) : GenMove :=
  if best.last = 0 ∧ best.last2 = 0 then GenMove.pass
  else if (best.w : ℚ) / (best.v : ℚ) < 1 / 5 then GenMove.resign
  else GenMove.point best.last

/-- The move `tree_search` returns, as a function of the root's children. -/
def tree_search_result (children : List TNodeSel) : Option GenMove :=
  (best_move children).map searchSelect

/-- The selection order as claimed by the specification (resign test
first, then the two-passes test): this is the spec's reading, to be
compared against `searchSelect` from the code. -/
def searchSelectClaimed (best : TNodeSel) : GenMove :=
  if (best.w : ℚ) / (best.v : ℚ) < 1 / 5 then GenMove.resign
  else if best.last = 0 ∧ best.last2 = 0 then GenMove.pass
  else GenMove.point best.last

/-! ## Well-formedness predicates and derived notions -/

/-- The strictly interior points: the cells `empty_position` makes `'.'`
(row and column in `1..13` of the `(N+1)`-stride array). -/
def interiorP (q : Int) : Prop := 15 ≤ q ∧ q ≤ 195 ∧ q % 14 ≠ 0

instance : DecidablePred interiorP := fun q => by unfold interiorP; infer_instance

/-- A color array is well formed when every non-interior cell is OUT and
every interior cell holds one of the three legal characters. -/
def wfColor (c : Int → Char) : Prop :=
  (∀ q, ¬ interiorP q → c q = ' ') ∧
  (∀ q, interiorP q → c q = '.' ∨ c q = 'X' ∨ c q = 'x')

/-- Cache consistency: on every board cell (OUT border included) the two
`env4` caches agree with `compute_env4` recomputed from the color array. -/
def ExtInv (pos : Position) : Prop :=
  ∀ q : Int, 0 ≤ q → q < 211 →
    pos.env4 q = compute_env4 pos q 0 ∧ pos.env4d q = compute_env4 pos q 4

/-- The full position invariant maintained by legal play. -/
def Inv (pos : Position) : Prop := wfColor pos.color ∧ ExtInv pos

/-- The suicide condition of `play_move` at `pt`, read off the code path:
no neighbor block was captured and the block of the new stone has no
liberty. -/
def suicideAt (pos : Position) (pt : Int) : Prop :=
  let pos0 := { pos with ko_old := pos.ko }
  let pos1 := put_stone pos0 pt
  let cl := captureLoop pos1 pt
  ¬ 0 < cl.2.1 ∧ (compute_block { cl.1 with ko := 0 } pt 1).2.length = 0

/-- "`pt` sits in an eyeish shape of the opponent's color": every non-OUT
orthogonal neighbor of `pt` holds an `'x'` stone. -/
def eyeishAllX (pos : Position) (pt : Int) : Prop :=
  ∀ k, k < 4 → pos.color (pt + delta k) = ' ' ∨ pos.color (pt + delta k) = 'x'

/-- A hash table holding one foreign nonzero key on the probe path of the
`find_pat` counterexample. -/
def c3Table : Nat → Nat := fun i => if i = 33554427 then 1 else 0

/-- The position after the opening moves C11, E9, G7 of a game (points 45,
75, 105): its `last3` field is 45. -/
def cexPos3 : Position :=
  (runSeq emptyPos [Action.play 45, Action.play 75, Action.play 105]).getD emptyPos

end Michi

/-! # Theorems -/

namespace Michi

theorem colorCode_lt (nn : Int) (c : Char) : colorCode nn c < 4 := by
  unfold colorCode
  split_ifs <;> omega

theorem or_form_eq_mkEnv4 :
    ∀ c0 < 4, ∀ c1 < 4, ∀ c2 < 4, ∀ c3 < 4,
      ((((0 ||| ((((c0 >>> 1) <<< 4) + (c0 &&& 1)) <<< 0))
        ||| ((((c1 >>> 1) <<< 4) + (c1 &&& 1)) <<< 1))
        ||| ((((c2 >>> 1) <<< 4) + (c2 &&& 1)) <<< 2))
        ||| ((((c3 >>> 1) <<< 4) + (c3 &&& 1)) <<< 3))
      = mkEnv4 c0 c1 c2 c3 := by decide

/-- `compute_env4` in closed form: the byte determined by the four neighbor
color codes. -/
theorem computeEnv4F_eq_mk (col : Int → Char) (nn : Int) (pt : Int) (off : Nat) :
    computeEnv4F col nn pt off
      = mkEnv4 (colorCode nn (col (pt + delta off)))
          (colorCode nn (col (pt + delta (off + 1))))
          (colorCode nn (col (pt + delta (off + 2))))
          (colorCode nn (col (pt + delta (off + 3)))) := by
  have h := or_form_eq_mkEnv4
    (colorCode nn (col (pt + delta off))) (colorCode_lt _ _)
    (colorCode nn (col (pt + delta (off + 1)))) (colorCode_lt _ _)
    (colorCode nn (col (pt + delta (off + 2)))) (colorCode_lt _ _)
    (colorCode nn (col (pt + delta (off + 3)))) (colorCode_lt _ _)
  simpa [computeEnv4F, List.range_succ] using h

/-! ## C3: the `find_pat` probe sequence can index the table at `LENGTH` -/

/-- C3 (code_bug): for the 64-bit key `(2^25−5)·2^20` (nonzero, hashing to
slot `2^25−5` with double-hash step `primes[0] = 5`) and a table whose slot
`2^25−5` holds a non-matching nonzero key, the probe sequence of `find_pat`
reads table index `2^25 = LENGTH` — one cell past the table — because the
wraparound test is `h > LENGTH` instead of `h >= LENGTH`.  This refutes the
claim that every index accessed during the probe lies in `[0, LENGTH)`. -/
theorem find_pat_probes_out_of_range :
    find_pat_probes c3Table (33554427 <<< 20) 5 = [33554427, 33554432]
    ∧ (33554427 <<< 20 : Nat) ≠ 0
    ∧ ¬ (∀ i ∈ find_pat_probes c3Table (33554427 <<< 20) 5, i < LENGTH) := by
  refine ⟨by decide, by decide, fun h => ?_⟩
  have h2 := h 33554432 (by decide)
  have : LENGTH = 33554432 := by decide
  omega

/-! ## C4: final move selection order of `tree_search` -/

/-- C4 counterexample: a most-visited child with winrate `0 < 0.2` whose
last two moves are both PASS.  The code returns PASS, while the claim
(resign test first) would return RESIGN. -/
theorem tree_search_select_cex :
    tree_search_result [⟨10, 0, 0, 0⟩] = some GenMove.pass
    ∧ searchSelectClaimed ⟨10, 0, 0, 0⟩ = GenMove.resign
    ∧ GenMove.pass ≠ GenMove.resign := by
  refine ⟨?_, ?_, by decide⟩
  · show (best_move [⟨10, 0, 0, 0⟩]).map searchSelect = some GenMove.pass
    have hb : best_move [(⟨10, 0, 0, 0⟩ : TNodeSel)] = some ⟨10, 0, 0, 0⟩ := by
      unfold best_move
      decide
    rw [hb]
    unfold searchSelect
    norm_num
  · unfold searchSelectClaimed
    norm_num

theorem best_move_fold (children : List TNodeSel) :
    ∀ acc : Int × Option TNodeSel,
      (∀ b, acc.2 = some b → b.v = acc.1) →
      (∀ c ∈ children, c.v ≤ (children.foldl
          (fun a c => if a.1 < c.v then (c.v, some c) else a) acc).1)
      ∧ acc.1 ≤ (children.foldl
          (fun a c => if a.1 < c.v then (c.v, some c) else a) acc).1
      ∧ (∀ b, (children.foldl
          (fun a c => if a.1 < c.v then (c.v, some c) else a) acc).2 = some b →
          (b ∈ children ∨ acc.2 = some b)
          ∧ b.v = (children.foldl
            (fun a c => if a.1 < c.v then (c.v, some c) else a) acc).1) := by
  induction children with
  | nil => intro acc hacc; exact ⟨by simp, le_refl _, fun b hb => ⟨Or.inr hb, hacc b hb⟩⟩
  | cons c cs ih =>
    intro acc hacc
    simp only [List.foldl_cons]
    by_cases hlt : acc.1 < c.v
    · rw [if_pos hlt]
      obtain ⟨h1, h2, h3⟩ := ih (c.v, some c) (fun b hb => by
        simp only [Option.some.injEq] at hb; rw [← hb])
      refine ⟨?_, ?_, ?_⟩
      · intro d hd
        rcases List.mem_cons.mp hd with h | h
        · subst h; exact h2
        · exact h1 d h
      · exact le_trans (le_of_lt hlt) h2
      · intro b hb
        obtain ⟨hmem, hval⟩ := h3 b hb
        refine ⟨?_, hval⟩
        rcases hmem with h | h
        · exact Or.inl (List.mem_cons_of_mem _ h)
        · simp only [Option.some.injEq] at h
          exact Or.inl (by rw [← h]; exact List.mem_cons_self _ _)
    · rw [if_neg hlt]
      obtain ⟨h1, h2, h3⟩ := ih acc hacc
      refine ⟨?_, h2, ?_⟩
      · intro d hd
        rcases List.mem_cons.mp hd with h | h
        · subst h; omega
        · exact h1 d h
      · intro b hb
        obtain ⟨hmem, hval⟩ := h3 b hb
        exact ⟨hmem.imp (List.mem_cons_of_mem _) id, hval⟩

/-- C4 amended: `tree_search` takes `best` = a most-visited child of the
root, and then, in this order: if the last two moves of `best`'s position
are PASS it returns PASS (even when the winrate is below 0.2); otherwise if
`best.w / best.v < 0.2` it returns RESIGN; otherwise `best.pos.last`. -/
theorem tree_search_select_spec (children : List TNodeSel) (best : TNodeSel)
    (h : best_move children = some best) :
    (best ∈ children ∧ ∀ c ∈ children, c.v ≤ best.v)
    ∧ tree_search_result children = some (searchSelect best)
    ∧ (best.last = 0 ∧ best.last2 = 0 → searchSelect best = GenMove.pass)
    ∧ (¬ (best.last = 0 ∧ best.last2 = 0) → (best.w : ℚ) / (best.v : ℚ) < 1 / 5 →
        searchSelect best = GenMove.resign)
    ∧ (¬ (best.last = 0 ∧ best.last2 = 0) → ¬ ((best.w : ℚ) / (best.v : ℚ) < 1 / 5) →
        searchSelect best = GenMove.point best.last) := by
  obtain ⟨h1, _h2, h3⟩ := best_move_fold children ((-1 : Int), none) (by simp)
  have hb := h3 best h
  refine ⟨⟨?_, ?_⟩, ?_, ?_, ?_, ?_⟩
  · rcases hb.1 with hm | hm
    · exact hm
    · exact absurd hm (by simp)
  · intro c hc
    have hcv := h1 c hc
    omega
  · unfold tree_search_result
    rw [h]
    rfl
  · intro hp
    unfold searchSelect
    rw [if_pos hp]
  · intro hnp hlt
    unfold searchSelect
    rw [if_neg hnp, if_pos hlt]
  · intro hnp hge
    unfold searchSelect
    rw [if_neg hnp, if_neg hge]

/-- Witness for the C4 amended theorem at a concrete input. -/
theorem tree_search_select_spec_witness :
    ((⟨3, 1, 5, 0⟩ : TNodeSel) ∈ [(⟨3, 1, 5, 0⟩ : TNodeSel)]
      ∧ ∀ c ∈ [(⟨3, 1, 5, 0⟩ : TNodeSel)], c.v ≤ (⟨3, 1, 5, 0⟩ : TNodeSel).v)
    ∧ tree_search_result [(⟨3, 1, 5, 0⟩ : TNodeSel)]
        = some (searchSelect ⟨3, 1, 5, 0⟩)
    ∧ ((⟨3, 1, 5, 0⟩ : TNodeSel).last = 0 ∧ (⟨3, 1, 5, 0⟩ : TNodeSel).last2 = 0 →
        searchSelect ⟨3, 1, 5, 0⟩ = GenMove.pass)
    ∧ (¬ ((⟨3, 1, 5, 0⟩ : TNodeSel).last = 0 ∧ (⟨3, 1, 5, 0⟩ : TNodeSel).last2 = 0) →
        ((⟨3, 1, 5, 0⟩ : TNodeSel).w : ℚ) / ((⟨3, 1, 5, 0⟩ : TNodeSel).v : ℚ) < 1 / 5 →
        searchSelect ⟨3, 1, 5, 0⟩ = GenMove.resign)
    ∧ (¬ ((⟨3, 1, 5, 0⟩ : TNodeSel).last = 0 ∧ (⟨3, 1, 5, 0⟩ : TNodeSel).last2 = 0) →
        ¬ (((⟨3, 1, 5, 0⟩ : TNodeSel).w : ℚ) / ((⟨3, 1, 5, 0⟩ : TNodeSel).v : ℚ) < 1 / 5) →
        searchSelect ⟨3, 1, 5, 0⟩ = GenMove.point (⟨3, 1, 5, 0⟩ : TNodeSel).last) :=
  tree_search_select_spec [⟨3, 1, 5, 0⟩] ⟨3, 1, 5, 0⟩ (by decide)

/-! ## C9: `slist_insert` -/

theorem slistScan_hit (l1 : Nat → Nat) (item n : Nat) :
    ∀ fuel k j0, k ≤ j0 → j0 ≤ n → l1 j0 = item →
      (∀ j, k ≤ j → j < j0 → l1 j ≠ item) → n + 1 - k ≤ fuel →
      slistScan l1 item n k fuel = j0 := by
  intro fuel
  induction fuel with
  | zero => intro k j0 hk hj0 _ _ hfuel; omega
  | succ m ih =>
    intro k j0 hk hj0 hhit hmin hfuel
    unfold slistScan
    rw [if_pos (by omega)]
    by_cases hk0 : l1 k = item
    · rw [if_pos hk0]
      by_contra hne
      exact hmin k (le_refl _) (by omega) hk0
    · rw [if_neg hk0]
      have hklt : k < j0 := by
        rcases lt_or_eq_of_le hk with h | h
        · exact h
        · exact absurd (h ▸ hhit) hk0
      exact ih (k + 1) j0 (by omega) hj0 hhit
        (fun j h1 h2 => hmin j (by omega) h2) (by omega)

theorem slistScan_le (l1 : Nat → Nat) (item n : Nat) :
    ∀ fuel k j0, k ≤ j0 → j0 ≤ n → l1 j0 = item → n + 1 - k ≤ fuel →
      slistScan l1 item n k fuel ≤ j0 := by
  intro fuel
  induction fuel with
  | zero => intro k j0 hk hj0 _ hfuel; omega
  | succ m ih =>
    intro k j0 hk hj0 hhit hfuel
    unfold slistScan
    rw [if_pos (by omega)]
    by_cases hk0 : l1 k = item
    · rw [if_pos hk0]; exact hk
    · rw [if_neg hk0]
      have hklt : k < j0 := by
        rcases lt_or_eq_of_le hk with h | h
        · exact h
        · exact absurd (h ▸ hhit) hk0
      exact ih (k + 1) j0 (by omega) hj0 hhit (by omega)

/-- C9: if `item` does not occur among the first `l 0` elements of the
Slist, `slist_insert` appends it, increments the size and returns 1; if it
already occurs, it returns 0 and leaves the size and the first `l 0`
elements unchanged. -/
theorem slist_insert_spec (l : Nat → Nat) (item : Nat) :
    ((∀ j, 1 ≤ j → j ≤ l 0 → l j ≠ item) →
      (slist_insert l item).2 = 1
      ∧ (slist_insert l item).1 0 = l 0 + 1
      ∧ (slist_insert l item).1 (l 0 + 1) = item
      ∧ (∀ j, 1 ≤ j → j ≤ l 0 → (slist_insert l item).1 j = l j))
    ∧ ((∃ j, 1 ≤ j ∧ j ≤ l 0 ∧ l j = item) →
      (slist_insert l item).2 = 0
      ∧ (slist_insert l item).1 0 = l 0
      ∧ (∀ j, 1 ≤ j → j ≤ l 0 → (slist_insert l item).1 j = l j)) := by
  have hupd : ∀ j, j ≠ l 0 + 1 → Function.update l (l 0 + 1) item j = l j :=
    fun j hj => Function.update_noteq hj _ _
  have hupd_at : Function.update l (l 0 + 1) item (l 0 + 1) = item :=
    Function.update_same _ _ _
  constructor
  · intro habs
    have hscan : slistScan (Function.update l (l 0 + 1) item) item (l 0 + 1) 1
        ((l 0 + 1) + 1) = l 0 + 1 := by
      apply slistScan_hit
      · omega
      · omega
      · exact hupd_at
      · intro j h1 h2
        rw [hupd j (by omega)]
        exact habs j h1 (by omega)
      · omega
    simp only [slist_insert]
    rw [hscan, if_pos rfl]
    refine ⟨rfl, ?_, ?_, ?_⟩
    · show Function.update (Function.update l (l 0 + 1) item) 0 (l 0 + 1) 0 = l 0 + 1
      exact Function.update_same _ _ _
    · show Function.update (Function.update l (l 0 + 1) item) 0 (l 0 + 1) (l 0 + 1) = item
      rw [Function.update_noteq (by omega), hupd_at]
    · intro j h1 h2
      show Function.update (Function.update l (l 0 + 1) item) 0 (l 0 + 1) j = l j
      rw [Function.update_noteq (by omega), hupd j (by omega)]
  · rintro ⟨j0, hj1, hj2, hj3⟩
    have hle : slistScan (Function.update l (l 0 + 1) item) item (l 0 + 1) 1
        ((l 0 + 1) + 1) ≤ j0 := by
      apply slistScan_le
      · omega
      · omega
      · rw [hupd j0 (by omega)]; exact hj3
      · omega
    simp only [slist_insert]
    rw [if_neg (by omega)]
    refine ⟨rfl, ?_, ?_⟩
    · show Function.update l (l 0 + 1) item 0 = l 0
      exact hupd 0 (by omega)
    · intro j h1 h2
      show Function.update l (l 0 + 1) item j = l j
      exact hupd j (by omega)

/-! ## C8: coordinate round trip -/

/-- C8: for every legal board coordinate string (column letter skipping
`I`, row `1..N`) and for `"pass"`, `str_coord ∘ parse_coord` is the
identity. -/
theorem coord_round_trip (x y : Int) (hx1 : 1 ≤ x) (hx2 : x ≤ 13)
    (hy1 : 1 ≤ y) (hy2 : y ≤ 13) :
    str_coord (parse_coord (coordStr x y)) = coordStr x y
    ∧ str_coord (parse_coord "pass") = "pass" := by
  have hall : ∀ a : Nat, a < 14 → ∀ b : Nat, b < 14 → a = 0 ∨ b = 0 ∨
      str_coord (parse_coord (coordStr (a : Int) (b : Int))) = coordStr (a : Int) (b : Int) := by
    decide
  refine ⟨?_, by decide⟩
  obtain ⟨a, rfl⟩ : ∃ a : Nat, (a : Int) = x := ⟨x.toNat, Int.toNat_of_nonneg (by omega)⟩
  obtain ⟨b, rfl⟩ : ∃ b : Nat, (b : Int) = y := ⟨y.toNat, Int.toNat_of_nonneg (by omega)⟩
  have ha : a < 14 := by omega
  have hb : b < 14 := by omega
  rcases hall a ha b hb with h | h | h
  · omega
  · omega
  · exact h

/-- Witness for C8 at the coordinate G7. -/
theorem coord_round_trip_witness :
    str_coord (parse_coord (coordStr 7 7)) = coordStr 7 7
    ∧ str_coord (parse_coord "pass") = "pass" :=
  coord_round_trip 7 7 (by decide) (by decide) (by decide) (by decide)

/-- Witness for C9 at a concrete Slist. -/
theorem slist_insert_spec_witness :
    ((∀ j, 1 ≤ j → j ≤ 2 → [9, 4, 7].getD j 0 ≠ 5) →
      (slist_insert (fun j => [2, 4, 7].getD j 0) 5).2 = 1) ∧
    (slist_insert (fun j => [2, 4, 7].getD j 0) 5).2 = 1 := by
  have h := (slist_insert_spec (fun j => [2, 4, 7].getD j 0) 5).1
  have habs : ∀ j, 1 ≤ j → j ≤ (fun j => [2, 4, 7].getD j 0) 0 →
      (fun j => [2, 4, 7].getD j 0) j ≠ 5 := by decide
  exact ⟨fun _ => (h habs).1, (h habs).1⟩

/-! ## C10: `empty_position` -/

theorem colorCode_parity_free (m m' : Int) (c : Char) (h : c = '.' ∨ c = ' ') :
    colorCode m c = colorCode m' c := by
  rcases h with h | h <;> subst h <;> simp [colorCode]

theorem computeEnv4F_parity_free (col : Int → Char) (m m' q : Int) (off : Nat)
    (h : ∀ j, j < 4 → col (q + delta (off + j)) = '.' ∨ col (q + delta (off + j)) = ' ') :
    computeEnv4F col m q off = computeEnv4F col m' q off := by
  rw [computeEnv4F_eq_mk, computeEnv4F_eq_mk]
  rw [colorCode_parity_free m m' _ (by simpa using h 0 (by omega)),
    colorCode_parity_free m m' _ (h 1 (by omega)),
    colorCode_parity_free m m' _ (h 2 (by omega)),
    colorCode_parity_free m m' _ (h 3 (by omega))]

/-- C10: `empty_position` resets `color` (OUT border, EMPTY interior),
rebuilds `env4`/`env4d` at the non-OUT points, zeroes `ko`, `last`,
`last2`, `cap`, `capX`, `n` and sets `komi` to 7.5, while the `last3` and
`ko_old` fields (and the caches of OUT cells) keep their previous values. -/
theorem empty_position_spec (pos : Position) :
    (empty_position pos).last3 = pos.last3
    ∧ (empty_position pos).ko_old = pos.ko_old
    ∧ (empty_position pos).ko = 0
    ∧ (empty_position pos).last = 0
    ∧ (empty_position pos).last2 = 0
    ∧ (empty_position pos).cap = 0
    ∧ (empty_position pos).capX = 0
    ∧ (empty_position pos).n = 0
    ∧ (empty_position pos).komi = 15 / 2
    ∧ (∀ q : Int, 0 ≤ q → q < 211 →
        (empty_position pos).color q
          = (if 15 ≤ q ∧ q ≤ 195 ∧ q % 14 ≠ 0 then '.' else ' '))
    ∧ (∀ q : Int, 14 ≤ q → q < 197 → (empty_position pos).color q ≠ ' ' →
        (empty_position pos).env4 q = compute_env4 (empty_position pos) q 0
        ∧ (empty_position pos).env4d q = compute_env4 (empty_position pos) q 4)
    ∧ (∀ q : Int,
        ¬ (14 ≤ q ∧ q < 197 ∧ (empty_position pos).color q ≠ ' ') →
        (empty_position pos).env4 q = pos.env4 q
        ∧ (empty_position pos).env4d q = pos.env4d q) := by
  refine ⟨rfl, rfl, rfl, rfl, rfl, rfl, rfl, rfl, rfl, ?_, ?_, ?_⟩
  · intro q h0 h1
    show (if 0 ≤ q ∧ q < 211 then
        (if 15 ≤ q ∧ q ≤ 195 ∧ q % 14 ≠ 0 then '.' else ' ') else pos.color q)
      = (if 15 ≤ q ∧ q ≤ 195 ∧ q % 14 ≠ 0 then '.' else ' ')
    rw [if_pos ⟨h0, h1⟩]
  · intro q h14 h197 hcol
    have hint : 15 ≤ q ∧ q ≤ 195 ∧ q % 14 ≠ 0 := by
      by_contra hni
      apply hcol
      show (if 0 ≤ q ∧ q < 211 then
          (if 15 ≤ q ∧ q ≤ 195 ∧ q % 14 ≠ 0 then '.' else ' ') else pos.color q) = ' '
      rw [if_pos ⟨by omega, by omega⟩, if_neg hni]
    have hcond : 14 ≤ q ∧ q < 197 ∧ (empty_position pos).color q ≠ ' ' :=
      ⟨h14, h197, hcol⟩
    have hnbr : ∀ (off : Nat), off = 0 ∨ off = 4 → ∀ j, j < 4 →
        (empty_position pos).color (q + delta (off + j)) = '.'
        ∨ (empty_position pos).color (q + delta (off + j)) = ' ' := by
      intro off hoff j hj
      have hd : -15 ≤ delta (off + j) ∧ delta (off + j) ≤ 15 := by
        rcases hoff with h | h <;> subst h <;>
          (interval_cases j <;> simp [delta])
      show (if 0 ≤ q + delta (off + j) ∧ q + delta (off + j) < 211 then
          (if 15 ≤ q + delta (off + j) ∧ q + delta (off + j) ≤ 195
              ∧ (q + delta (off + j)) % 14 ≠ 0 then '.' else ' ')
          else pos.color (q + delta (off + j))) = '.'
        ∨ (if 0 ≤ q + delta (off + j) ∧ q + delta (off + j) < 211 then
          (if 15 ≤ q + delta (off + j) ∧ q + delta (off + j) ≤ 195
              ∧ (q + delta (off + j)) % 14 ≠ 0 then '.' else ' ')
          else pos.color (q + delta (off + j))) = ' '
      rw [if_pos ⟨by omega, by omega⟩]
      by_cases hi : 15 ≤ q + delta (off + j) ∧ q + delta (off + j) ≤ 195
          ∧ (q + delta (off + j)) % 14 ≠ 0
      · rw [if_pos hi]; exact Or.inl rfl
      · rw [if_neg hi]; exact Or.inr rfl
    constructor
    · show (if 14 ≤ q ∧ q < 197 ∧ (empty_position pos).color q ≠ ' ' then
          computeEnv4F (empty_position pos).color pos.n q 0 else pos.env4 q)
        = compute_env4 (empty_position pos) q 0
      rw [if_pos hcond]
      show computeEnv4F (empty_position pos).color pos.n q 0
        = computeEnv4F (empty_position pos).color (0 : Int) q 0
      exact computeEnv4F_parity_free _ _ _ _ _ (hnbr 0 (Or.inl rfl))
    · show (if 14 ≤ q ∧ q < 197 ∧ (empty_position pos).color q ≠ ' ' then
          computeEnv4F (empty_position pos).color pos.n q 4 else pos.env4d q)
        = compute_env4 (empty_position pos) q 4
      rw [if_pos hcond]
      show computeEnv4F (empty_position pos).color pos.n q 4
        = computeEnv4F (empty_position pos).color (0 : Int) q 4
      exact computeEnv4F_parity_free _ _ _ _ _ (hnbr 4 (Or.inr rfl))
  · intro q hq
    constructor
    · show (if 14 ≤ q ∧ q < 197 ∧ (empty_position pos).color q ≠ ' ' then
          computeEnv4F (empty_position pos).color pos.n q 0 else pos.env4 q)
        = pos.env4 q
      rw [if_neg hq]
    · show (if 14 ≤ q ∧ q < 197 ∧ (empty_position pos).color q ≠ ' ' then
          computeEnv4F (empty_position pos).color pos.n q 4 else pos.env4d q)
        = pos.env4d q
      rw [if_neg hq]

/-- Witness for C10 at a concrete `Position`. -/
theorem empty_position_spec_witness :
    (empty_position initPos).last3 = initPos.last3
    ∧ (empty_position initPos).ko = 0
    ∧ (empty_position initPos).color 105 = '.'
    ∧ (empty_position initPos).env4 105 = compute_env4 (empty_position initPos) 105 0 := by
  have h := empty_position_spec initPos
  refine ⟨h.1, h.2.2.1, ?_, ?_⟩
  · have := h.2.2.2.2.2.2.2.2.2.1 105 (by omega) (by omega)
    rw [this]
    decide
  · have hc : (empty_position initPos).color 105 ≠ ' ' := by
      have := h.2.2.2.2.2.2.2.2.2.1 105 (by omega) (by omega)
      rw [this]
      decide
    exact (h.2.2.2.2.2.2.2.2.2.2.1 105 (by omega) (by omega) hc).1

/-! ## C1 and C2: concrete counterexamples -/

/-- C1 counterexample: after a stone lands on G7 (point 105), the point is
occupied (`'x'`), it is not the ko point, yet `play_move` at 105 returns
the empty string, not an error: `play_move` never checks occupancy (the
`color[pt]=='.'` pre-condition belongs to its callers). -/
theorem play_move_occupied_no_error :
    (play_move emptyPos 105 0).pos.color 105 = 'x'
    ∧ (play_move emptyPos 105 0).pos.ko = 0
    ∧ (play_move (play_move emptyPos 105 0).pos 105 0).msg = ""
    ∧ ¬ ∃ t, (play_move (play_move emptyPos 105 0).pos 105 0).msg = "Error" ++ t := by
  refine ⟨by decide, by decide, by decide, ?_⟩
  rintro ⟨t, ht⟩
  have hmsg : (play_move (play_move emptyPos 105 0).pos 105 0).msg = "" := by decide
  rw [hmsg] at ht
  have hlen := congrArg String.length ht
  have h5 : ("Error").length = 5 := by decide
  have h0 : ("" : String).length = 0 := rfl
  rw [String.length_append, h5, h0] at hlen
  omega

/-- C2 counterexample: in the game C11, E9, G7 (no captures), `last3` of
the position is 45; playing J9 (point 135) and undoing it immediately
leaves `last3 = 75`, so `play(pt); undo()` does not restore the `last3`
field (nor, for the same reason, `ko_old`) byte-for-byte. -/
theorem play_undo_not_byte_for_byte :
    cexPos3.last3 = 45
    ∧ (play_move cexPos3 135 0).msg = ""
    ∧ (play_move cexPos3 135 0).captured = 0
    ∧ (undo_move (play_move cexPos3 135 0).pos
        (play_move cexPos3 135 0).posCapture).last3 = 75
    ∧ undo_move (play_move cexPos3 135 0).pos
        (play_move cexPos3 135 0).posCapture ≠ cexPos3 := by
  refine ⟨by decide, by decide, by decide, by decide, fun h => ?_⟩
  have h1 : (undo_move (play_move cexPos3 135 0).pos
      (play_move cexPos3 135 0).posCapture).last3 = 75 := by decide
  have h2 : cexPos3.last3 = 45 := by decide
  rw [h] at h1
  omega

/-! ## Groundwork for the cache invariant -/

theorem compute_env4_def (pos : Position) (pt : Int) (off : Nat) :
    compute_env4 pos pt off = computeEnv4F pos.color pos.n pt off := rfl

/-- The four update laws of direction slot 0 (masks `0x11`, `0xEE`,
`0x10`): placing BLACK (XOR), placing WHITE (AND), removing WHITE (OR),
removing BLACK (XOR), on a byte whose slot 0 holds the matching code. -/
theorem mk_slot0 : ∀ b1 < 4, ∀ b2 < 4, ∀ b3 < 4,
    (mkEnv4 2 b1 b2 b3 ^^^ 0x11 = mkEnv4 1 b1 b2 b3)
    ∧ (mkEnv4 2 b1 b2 b3 &&& 0xEE = mkEnv4 0 b1 b2 b3)
    ∧ (mkEnv4 0 b1 b2 b3 ||| 0x10 = mkEnv4 2 b1 b2 b3)
    ∧ (mkEnv4 1 b1 b2 b3 ^^^ 0x11 = mkEnv4 2 b1 b2 b3) := by decide

/-- Slot 1 update laws (masks `0x22`, `0xDD`, `0x20`). -/
theorem mk_slot1 : ∀ b0 < 4, ∀ b2 < 4, ∀ b3 < 4,
    (mkEnv4 b0 2 b2 b3 ^^^ 0x22 = mkEnv4 b0 1 b2 b3)
    ∧ (mkEnv4 b0 2 b2 b3 &&& 0xDD = mkEnv4 b0 0 b2 b3)
    ∧ (mkEnv4 b0 0 b2 b3 ||| 0x20 = mkEnv4 b0 2 b2 b3)
    ∧ (mkEnv4 b0 1 b2 b3 ^^^ 0x22 = mkEnv4 b0 2 b2 b3) := by decide

/-- Slot 2 update laws (masks `0x44`, `0xBB`, `0x40`). -/
theorem mk_slot2 : ∀ b0 < 4, ∀ b1 < 4, ∀ b3 < 4,
    (mkEnv4 b0 b1 2 b3 ^^^ 0x44 = mkEnv4 b0 b1 1 b3)
    ∧ (mkEnv4 b0 b1 2 b3 &&& 0xBB = mkEnv4 b0 b1 0 b3)
    ∧ (mkEnv4 b0 b1 0 b3 ||| 0x40 = mkEnv4 b0 b1 2 b3)
    ∧ (mkEnv4 b0 b1 1 b3 ^^^ 0x44 = mkEnv4 b0 b1 2 b3) := by decide

/-- Slot 3 update laws (masks `0x88`, `0x77`, `0x80`). -/
theorem mk_slot3 : ∀ b0 < 4, ∀ b1 < 4, ∀ b2 < 4,
    (mkEnv4 b0 b1 b2 2 ^^^ 0x88 = mkEnv4 b0 b1 b2 1)
    ∧ (mkEnv4 b0 b1 b2 2 &&& 0x77 = mkEnv4 b0 b1 b2 0)
    ∧ (mkEnv4 b0 b1 b2 0 ||| 0x80 = mkEnv4 b0 b1 b2 2)
    ∧ (mkEnv4 b0 b1 b2 1 ^^^ 0x88 = mkEnv4 b0 b1 b2 2) := by decide

/-- Uniform cache-update lemma for the two stone operations: if the color
array changes only at the interior point `pt` (from a cell whose color code
is `cOld` to the character `v` of code `cNew`), the byte transformers
`f0..f3` / `g0..g3` are applied exactly to the 4+4 neighbor cells, and each
transformer realizes the `cOld → cNew` slot update, then cache consistency
is preserved. -/
theorem stone_op_ExtInv
    (pos pos' : Position) (pt : Int) (v : Char) (cOld cNew : Nat)
    (f0 f1 f2 f3 g0 g1 g2 g3 : Nat → Nat)
    (hcol : pos'.color = Function.update pos.color pt v)
    (hn : pos'.n = pos.n)
    (he4 : ∀ q, pos'.env4 q =
      if q = pt + 14 then f0 (pos.env4 q)
      else if q = pt - 1 then f1 (pos.env4 q)
      else if q = pt - 14 then f2 (pos.env4 q)
      else if q = pt + 1 then f3 (pos.env4 q)
      else pos.env4 q)
    (he4d : ∀ q, pos'.env4d q =
      if q = pt + 13 then g0 (pos.env4d q)
      else if q = pt - 15 then g1 (pos.env4d q)
      else if q = pt - 13 then g2 (pos.env4d q)
      else if q = pt + 15 then g3 (pos.env4d q)
      else pos.env4d q)
    (hpt : interiorP pt)
    (hold : colorCode pos.n (pos.color pt) = cOld)
    (hnew : colorCode pos.n v = cNew)
    (hf0 : ∀ b1 b2 b3, b1 < 4 → b2 < 4 → b3 < 4 →
      f0 (mkEnv4 cOld b1 b2 b3) = mkEnv4 cNew b1 b2 b3)
    (hf1 : ∀ b0 b2 b3, b0 < 4 → b2 < 4 → b3 < 4 →
      f1 (mkEnv4 b0 cOld b2 b3) = mkEnv4 b0 cNew b2 b3)
    (hf2 : ∀ b0 b1 b3, b0 < 4 → b1 < 4 → b3 < 4 →
      f2 (mkEnv4 b0 b1 cOld b3) = mkEnv4 b0 b1 cNew b3)
    (hf3 : ∀ b0 b1 b2, b0 < 4 → b1 < 4 → b2 < 4 →
      f3 (mkEnv4 b0 b1 b2 cOld) = mkEnv4 b0 b1 b2 cNew)
    (hg0 : ∀ b1 b2 b3, b1 < 4 → b2 < 4 → b3 < 4 →
      g0 (mkEnv4 cOld b1 b2 b3) = mkEnv4 cNew b1 b2 b3)
    (hg1 : ∀ b0 b2 b3, b0 < 4 → b2 < 4 → b3 < 4 →
      g1 (mkEnv4 b0 cOld b2 b3) = mkEnv4 b0 cNew b2 b3)
    (hg2 : ∀ b0 b1 b3, b0 < 4 → b1 < 4 → b3 < 4 →
      g2 (mkEnv4 b0 b1 cOld b3) = mkEnv4 b0 b1 cNew b3)
    (hg3 : ∀ b0 b1 b2, b0 < 4 → b1 < 4 → b2 < 4 →
      g3 (mkEnv4 b0 b1 b2 cOld) = mkEnv4 b0 b1 b2 cNew)
    (hExt : ExtInv pos) : ExtInv pos' := by
  have d0 : delta 0 = -14 := rfl
  have d1 : delta (0 + 1) = 1 := rfl
  have d2 : delta (0 + 2) = 14 := rfl
  have d3 : delta (0 + 3) = -1 := rfl
  have d4 : delta 4 = -13 := rfl
  have d5 : delta (4 + 1) = 15 := rfl
  have d6 : delta (4 + 2) = 13 := rfl
  have d7 : delta (4 + 3) = -15 := rfl
  have hpt1 : 15 ≤ pt := hpt.1
  have hpt2 : pt ≤ 195 := hpt.2.1
  intro q hq0 hq1
  have hIH4 := (hExt q hq0 hq1).1
  have hIH4d := (hExt q hq0 hq1).2
  constructor
  · rw [he4 q, compute_env4_def, hcol, hn, computeEnv4F_eq_mk]
    by_cases h1 : q = pt + 14
    · rw [if_pos h1]
      have e0 : q + delta 0 = pt := by omega
      have e1 : q + delta (0 + 1) ≠ pt := by omega
      have e2 : q + delta (0 + 2) ≠ pt := by omega
      have e3 : q + delta (0 + 3) ≠ pt := by omega
      rw [e0, Function.update_same, Function.update_noteq e1,
        Function.update_noteq e2, Function.update_noteq e3, hnew,
        hIH4, compute_env4_def, computeEnv4F_eq_mk, e0, hold]
      exact hf0 _ _ _ (colorCode_lt _ _) (colorCode_lt _ _) (colorCode_lt _ _)
    · rw [if_neg h1]
      by_cases h2 : q = pt - 1
      · rw [if_pos h2]
        have e0 : q + delta 0 ≠ pt := by omega
        have e1 : q + delta (0 + 1) = pt := by omega
        have e2 : q + delta (0 + 2) ≠ pt := by omega
        have e3 : q + delta (0 + 3) ≠ pt := by omega
        rw [e1, Function.update_same, Function.update_noteq e0,
          Function.update_noteq e2, Function.update_noteq e3, hnew,
          hIH4, compute_env4_def, computeEnv4F_eq_mk, e1, hold]
        exact hf1 _ _ _ (colorCode_lt _ _) (colorCode_lt _ _) (colorCode_lt _ _)
      · rw [if_neg h2]
        by_cases h3 : q = pt - 14
        · rw [if_pos h3]
          have e0 : q + delta 0 ≠ pt := by omega
          have e1 : q + delta (0 + 1) ≠ pt := by omega
          have e2 : q + delta (0 + 2) = pt := by omega
          have e3 : q + delta (0 + 3) ≠ pt := by omega
          rw [e2, Function.update_same, Function.update_noteq e0,
            Function.update_noteq e1, Function.update_noteq e3, hnew,
            hIH4, compute_env4_def, computeEnv4F_eq_mk, e2, hold]
          exact hf2 _ _ _ (colorCode_lt _ _) (colorCode_lt _ _) (colorCode_lt _ _)
        · rw [if_neg h3]
          by_cases h4 : q = pt + 1
          · rw [if_pos h4]
            have e0 : q + delta 0 ≠ pt := by omega
            have e1 : q + delta (0 + 1) ≠ pt := by omega
            have e2 : q + delta (0 + 2) ≠ pt := by omega
            have e3 : q + delta (0 + 3) = pt := by omega
            rw [e3, Function.update_same, Function.update_noteq e0,
              Function.update_noteq e1, Function.update_noteq e2, hnew,
              hIH4, compute_env4_def, computeEnv4F_eq_mk, e3, hold]
            exact hf3 _ _ _ (colorCode_lt _ _) (colorCode_lt _ _) (colorCode_lt _ _)
          · rw [if_neg h4]
            have e0 : q + delta 0 ≠ pt := by omega
            have e1 : q + delta (0 + 1) ≠ pt := by omega
            have e2 : q + delta (0 + 2) ≠ pt := by omega
            have e3 : q + delta (0 + 3) ≠ pt := by omega
            rw [Function.update_noteq e0, Function.update_noteq e1,
              Function.update_noteq e2, Function.update_noteq e3,
              hIH4, compute_env4_def, computeEnv4F_eq_mk]
  · rw [he4d q, compute_env4_def, hcol, hn, computeEnv4F_eq_mk]
    by_cases h1 : q = pt + 13
    · rw [if_pos h1]
      have e0 : q + delta 4 = pt := by omega
      have e1 : q + delta (4 + 1) ≠ pt := by omega
      have e2 : q + delta (4 + 2) ≠ pt := by omega
      have e3 : q + delta (4 + 3) ≠ pt := by omega
      rw [e0, Function.update_same, Function.update_noteq e1,
        Function.update_noteq e2, Function.update_noteq e3, hnew,
        hIH4d, compute_env4_def, computeEnv4F_eq_mk, e0, hold]
      exact hg0 _ _ _ (colorCode_lt _ _) (colorCode_lt _ _) (colorCode_lt _ _)
    · rw [if_neg h1]
      by_cases h2 : q = pt - 15
      · rw [if_pos h2]
        have e0 : q + delta 4 ≠ pt := by omega
        have e1 : q + delta (4 + 1) = pt := by omega
        have e2 : q + delta (4 + 2) ≠ pt := by omega
        have e3 : q + delta (4 + 3) ≠ pt := by omega
        rw [e1, Function.update_same, Function.update_noteq e0,
          Function.update_noteq e2, Function.update_noteq e3, hnew,
          hIH4d, compute_env4_def, computeEnv4F_eq_mk, e1, hold]
        exact hg1 _ _ _ (colorCode_lt _ _) (colorCode_lt _ _) (colorCode_lt _ _)
      · rw [if_neg h2]
        by_cases h3 : q = pt - 13
        · rw [if_pos h3]
          have e0 : q + delta 4 ≠ pt := by omega
          have e1 : q + delta (4 + 1) ≠ pt := by omega
          have e2 : q + delta (4 + 2) = pt := by omega
          have e3 : q + delta (4 + 3) ≠ pt := by omega
          rw [e2, Function.update_same, Function.update_noteq e0,
            Function.update_noteq e1, Function.update_noteq e3, hnew,
            hIH4d, compute_env4_def, computeEnv4F_eq_mk, e2, hold]
          exact hg2 _ _ _ (colorCode_lt _ _) (colorCode_lt _ _) (colorCode_lt _ _)
        · rw [if_neg h3]
          by_cases h4 : q = pt + 15
          · rw [if_pos h4]
            have e0 : q + delta 4 ≠ pt := by omega
            have e1 : q + delta (4 + 1) ≠ pt := by omega
            have e2 : q + delta (4 + 2) ≠ pt := by omega
            have e3 : q + delta (4 + 3) = pt := by omega
            rw [e3, Function.update_same, Function.update_noteq e0,
              Function.update_noteq e1, Function.update_noteq e2, hnew,
              hIH4d, compute_env4_def, computeEnv4F_eq_mk, e3, hold]
            exact hg3 _ _ _ (colorCode_lt _ _) (colorCode_lt _ _) (colorCode_lt _ _)
          · rw [if_neg h4]
            have e0 : q + delta 4 ≠ pt := by omega
            have e1 : q + delta (4 + 1) ≠ pt := by omega
            have e2 : q + delta (4 + 2) ≠ pt := by omega
            have e3 : q + delta (4 + 3) ≠ pt := by omega
            rw [Function.update_noteq e0, Function.update_noteq e1,
              Function.update_noteq e2, Function.update_noteq e3,
              hIH4d, compute_env4_def, computeEnv4F_eq_mk]

theorem put_stone_color (pos : Position) (pt : Int) :
    (put_stone pos pt).color = Function.update pos.color pt 'X' := by
  unfold put_stone; split_ifs <;> rfl

theorem put_stone_n (pos : Position) (pt : Int) : (put_stone pos pt).n = pos.n := by
  unfold put_stone; split_ifs <;> rfl

theorem put_stone_ko (pos : Position) (pt : Int) : (put_stone pos pt).ko = pos.ko := by
  unfold put_stone; split_ifs <;> rfl

theorem put_stone_ko_old (pos : Position) (pt : Int) :
    (put_stone pos pt).ko_old = pos.ko_old := by
  unfold put_stone; split_ifs <;> rfl

theorem put_stone_last (pos : Position) (pt : Int) :
    (put_stone pos pt).last = pos.last ∧ (put_stone pos pt).last2 = pos.last2
    ∧ (put_stone pos pt).last3 = pos.last3 := by
  unfold put_stone; split_ifs <;> exact ⟨rfl, rfl, rfl⟩

theorem put_stone_caps (pos : Position) (pt : Int) :
    (put_stone pos pt).cap = pos.cap ∧ (put_stone pos pt).capX = pos.capX
    ∧ (put_stone pos pt).komi = pos.komi := by
  unfold put_stone; split_ifs <;> exact ⟨rfl, rfl, rfl⟩

theorem remove_stone_color (pos : Position) (pt : Int) :
    (remove_stone pos pt).color = Function.update pos.color pt '.' := by
  unfold remove_stone; split_ifs <;> rfl

theorem remove_stone_n (pos : Position) (pt : Int) : (remove_stone pos pt).n = pos.n := by
  unfold remove_stone; split_ifs <;> rfl

theorem remove_stone_ko (pos : Position) (pt : Int) :
    (remove_stone pos pt).ko = pos.ko ∧ (remove_stone pos pt).ko_old = pos.ko_old := by
  unfold remove_stone; split_ifs <;> exact ⟨rfl, rfl⟩

theorem remove_stone_last (pos : Position) (pt : Int) :
    (remove_stone pos pt).last = pos.last ∧ (remove_stone pos pt).last2 = pos.last2
    ∧ (remove_stone pos pt).last3 = pos.last3 := by
  unfold remove_stone; split_ifs <;> exact ⟨rfl, rfl, rfl⟩

theorem remove_stone_caps (pos : Position) (pt : Int) :
    (remove_stone pos pt).cap = pos.cap ∧ (remove_stone pos pt).capX = pos.capX
    ∧ (remove_stone pos pt).komi = pos.komi := by
  unfold remove_stone; split_ifs <;> exact ⟨rfl, rfl, rfl⟩

theorem wfColor_update (c : Int → Char) (pt : Int) (v : Char)
    (hw : wfColor c) (hpt : interiorP pt)
    (hv : v = '.' ∨ v = 'X' ∨ v = 'x') : wfColor (Function.update c pt v) := by
  constructor
  · intro q hq
    rw [Function.update_noteq (fun he => hq (by rw [he]; exact hpt))]
    exact hw.1 q hq
  · intro q hq
    by_cases he : q = pt
    · subst he; rw [Function.update_same]; exact hv
    · rw [Function.update_noteq he]; exact hw.2 q hq

theorem colorCode_dot (nn : Int) : colorCode nn '.' = 2 := rfl

theorem colorCode_X_even (nn : Int) (h : nn % 2 = 0) : colorCode nn 'X' = 1 := by
  unfold colorCode
  rw [if_neg (by decide), if_neg (by decide), if_pos h, if_pos rfl]

theorem colorCode_X_odd (nn : Int) (h : ¬ nn % 2 = 0) : colorCode nn 'X' = 0 := by
  unfold colorCode
  rw [if_neg (by decide), if_neg (by decide), if_neg h, if_pos rfl]

theorem colorCode_x_even (nn : Int) (h : nn % 2 = 0) : colorCode nn 'x' = 0 := by
  unfold colorCode
  rw [if_neg (by decide), if_neg (by decide), if_pos h, if_neg (by decide)]

theorem colorCode_x_odd (nn : Int) (h : ¬ nn % 2 = 0) : colorCode nn 'x' = 1 := by
  unfold colorCode
  rw [if_neg (by decide), if_neg (by decide), if_neg h, if_neg (by decide)]

theorem put_stone_ExtInv (pos : Position) (pt : Int)
    (hpt : interiorP pt) (hc : pos.color pt = '.')
    (hE : ExtInv pos) : ExtInv (put_stone pos pt) := by
  by_cases hpar : pos.n % 2 = 0
  · refine stone_op_ExtInv pos (put_stone pos pt) pt 'X' 2 1
      (· ^^^ 0x11) (· ^^^ 0x22) (· ^^^ 0x44) (· ^^^ 0x88)
      (· ^^^ 0x11) (· ^^^ 0x22) (· ^^^ 0x44) (· ^^^ 0x88)
      (put_stone_color pos pt) (put_stone_n pos pt) ?_ ?_ hpt
      (by rw [hc]; rfl) (colorCode_X_even _ hpar)
      (fun b1 b2 b3 h1 h2 h3 => (mk_slot0 b1 h1 b2 h2 b3 h3).1)
      (fun b0 b2 b3 h0 h2 h3 => (mk_slot1 b0 h0 b2 h2 b3 h3).1)
      (fun b0 b1 b3 h0 h1 h3 => (mk_slot2 b0 h0 b1 h1 b3 h3).1)
      (fun b0 b1 b2 h0 h1 h2 => (mk_slot3 b0 h0 b1 h1 b2 h2).1)
      (fun b1 b2 b3 h1 h2 h3 => (mk_slot0 b1 h1 b2 h2 b3 h3).1)
      (fun b0 b2 b3 h0 h2 h3 => (mk_slot1 b0 h0 b2 h2 b3 h3).1)
      (fun b0 b1 b3 h0 h1 h3 => (mk_slot2 b0 h0 b1 h1 b3 h3).1)
      (fun b0 b1 b2 h0 h1 h2 => (mk_slot3 b0 h0 b1 h1 b2 h2).1)
      hE
    · intro q
      unfold put_stone
      rw [if_pos hpar]
    · intro q
      unfold put_stone
      rw [if_pos hpar]
  · refine stone_op_ExtInv pos (put_stone pos pt) pt 'X' 2 0
      (· &&& 0xEE) (· &&& 0xDD) (· &&& 0xBB) (· &&& 0x77)
      (· &&& 0xEE) (· &&& 0xDD) (· &&& 0xBB) (· &&& 0x77)
      (put_stone_color pos pt) (put_stone_n pos pt) ?_ ?_ hpt
      (by rw [hc]; rfl) (colorCode_X_odd _ hpar)
      (fun b1 b2 b3 h1 h2 h3 => (mk_slot0 b1 h1 b2 h2 b3 h3).2.1)
      (fun b0 b2 b3 h0 h2 h3 => (mk_slot1 b0 h0 b2 h2 b3 h3).2.1)
      (fun b0 b1 b3 h0 h1 h3 => (mk_slot2 b0 h0 b1 h1 b3 h3).2.1)
      (fun b0 b1 b2 h0 h1 h2 => (mk_slot3 b0 h0 b1 h1 b2 h2).2.1)
      (fun b1 b2 b3 h1 h2 h3 => (mk_slot0 b1 h1 b2 h2 b3 h3).2.1)
      (fun b0 b2 b3 h0 h2 h3 => (mk_slot1 b0 h0 b2 h2 b3 h3).2.1)
      (fun b0 b1 b3 h0 h1 h3 => (mk_slot2 b0 h0 b1 h1 b3 h3).2.1)
      (fun b0 b1 b2 h0 h1 h2 => (mk_slot3 b0 h0 b1 h1 b2 h2).2.1)
      hE
    · intro q
      unfold put_stone
      rw [if_neg hpar]
    · intro q
      unfold put_stone
      rw [if_neg hpar]

theorem remove_stone_ExtInv (pos : Position) (pt : Int)
    (hpt : interiorP pt) (hc : pos.color pt = 'x')
    (hE : ExtInv pos) : ExtInv (remove_stone pos pt) := by
  by_cases hpar : pos.n % 2 = 0
  · refine stone_op_ExtInv pos (remove_stone pos pt) pt '.' 0 2
      (· ||| 0x10) (· ||| 0x20) (· ||| 0x40) (· ||| 0x80)
      (· ||| 0x10) (· ||| 0x20) (· ||| 0x40) (· ||| 0x80)
      (remove_stone_color pos pt) (remove_stone_n pos pt) ?_ ?_ hpt
      (by rw [hc]; exact colorCode_x_even _ hpar) (colorCode_dot _)
      (fun b1 b2 b3 h1 h2 h3 => (mk_slot0 b1 h1 b2 h2 b3 h3).2.2.1)
      (fun b0 b2 b3 h0 h2 h3 => (mk_slot1 b0 h0 b2 h2 b3 h3).2.2.1)
      (fun b0 b1 b3 h0 h1 h3 => (mk_slot2 b0 h0 b1 h1 b3 h3).2.2.1)
      (fun b0 b1 b2 h0 h1 h2 => (mk_slot3 b0 h0 b1 h1 b2 h2).2.2.1)
      (fun b1 b2 b3 h1 h2 h3 => (mk_slot0 b1 h1 b2 h2 b3 h3).2.2.1)
      (fun b0 b2 b3 h0 h2 h3 => (mk_slot1 b0 h0 b2 h2 b3 h3).2.2.1)
      (fun b0 b1 b3 h0 h1 h3 => (mk_slot2 b0 h0 b1 h1 b3 h3).2.2.1)
      (fun b0 b1 b2 h0 h1 h2 => (mk_slot3 b0 h0 b1 h1 b2 h2).2.2.1)
      hE
    · intro q
      unfold remove_stone
      rw [if_pos hpar]
    · intro q
      unfold remove_stone
      rw [if_pos hpar]
  · refine stone_op_ExtInv pos (remove_stone pos pt) pt '.' 1 2
      (· ^^^ 0x11) (· ^^^ 0x22) (· ^^^ 0x44) (· ^^^ 0x88)
      (· ^^^ 0x11) (· ^^^ 0x22) (· ^^^ 0x44) (· ^^^ 0x88)
      (remove_stone_color pos pt) (remove_stone_n pos pt) ?_ ?_ hpt
      (by rw [hc]; exact colorCode_x_odd _ hpar) (colorCode_dot _)
      (fun b1 b2 b3 h1 h2 h3 => (mk_slot0 b1 h1 b2 h2 b3 h3).2.2.2)
      (fun b0 b2 b3 h0 h2 h3 => (mk_slot1 b0 h0 b2 h2 b3 h3).2.2.2)
      (fun b0 b1 b3 h0 h1 h3 => (mk_slot2 b0 h0 b1 h1 b3 h3).2.2.2)
      (fun b0 b1 b2 h0 h1 h2 => (mk_slot3 b0 h0 b1 h1 b2 h2).2.2.2)
      (fun b1 b2 b3 h1 h2 h3 => (mk_slot0 b1 h1 b2 h2 b3 h3).2.2.2)
      (fun b0 b2 b3 h0 h2 h3 => (mk_slot1 b0 h0 b2 h2 b3 h3).2.2.2)
      (fun b0 b1 b3 h0 h1 h3 => (mk_slot2 b0 h0 b1 h1 b3 h3).2.2.2)
      (fun b0 b1 b2 h0 h1 h2 => (mk_slot3 b0 h0 b1 h1 b2 h2).2.2.2)
      hE
    · intro q
      unfold remove_stone
      rw [if_neg hpar]
    · intro q
      unfold remove_stone
      rw [if_neg hpar]

theorem put_stone_Inv (pos : Position) (pt : Int)
    (hI : Inv pos) (hpt : interiorP pt) (hc : pos.color pt = '.') :
    Inv (put_stone pos pt) := by
  refine ⟨?_, put_stone_ExtInv pos pt hpt hc hI.2⟩
  rw [put_stone_color]
  exact wfColor_update _ _ _ hI.1 hpt (Or.inr (Or.inl rfl))

theorem remove_stone_Inv (pos : Position) (pt : Int)
    (hI : Inv pos) (hpt : interiorP pt) (hc : pos.color pt = 'x') :
    Inv (remove_stone pos pt) := by
  refine ⟨?_, remove_stone_ExtInv pos pt hpt hc hI.2⟩
  rw [remove_stone_color]
  exact wfColor_update _ _ _ hI.1 hpt (Or.inl rfl)

theorem colorCode_swap_parity (m m' : Int) (c : Char)
    (hpar : (m' % 2 = 0) ↔ ¬ (m % 2 = 0))
    (hc : c = ' ' ∨ c = '.' ∨ c = 'X' ∨ c = 'x') :
    colorCode m' (swapCase c) = colorCode m c := by
  by_cases hm : m % 2 = 0
  · have hm' : ¬ m' % 2 = 0 := by
      intro h
      exact (hpar.mp h) hm
    rcases hc with h | h | h | h <;> subst h
    · rfl
    · rfl
    · show colorCode m' 'x' = colorCode m 'X'
      rw [colorCode_x_odd _ hm', colorCode_X_even _ hm]
    · show colorCode m' 'X' = colorCode m 'x'
      rw [colorCode_X_odd _ hm', colorCode_x_even _ hm]
  · have hm' : m' % 2 = 0 := hpar.mpr hm
    rcases hc with h | h | h | h <;> subst h
    · rfl
    · rfl
    · show colorCode m' 'x' = colorCode m 'X'
      rw [colorCode_x_even _ hm', colorCode_X_odd _ hm]
    · show colorCode m' 'X' = colorCode m 'x'
      rw [colorCode_X_even _ hm', colorCode_x_odd _ hm]

theorem wfColor_swap (col : Int → Char) (hw : wfColor col) :
    wfColor (fun q => if 14 ≤ q ∧ q < 197 then swapCase (col q) else col q) := by
  constructor
  · intro q hq
    have h := hw.1 q hq
    by_cases hin : 14 ≤ q ∧ q < 197
    · show (if 14 ≤ q ∧ q < 197 then swapCase (col q) else col q) = ' '
      rw [if_pos hin, h]
      rfl
    · show (if 14 ≤ q ∧ q < 197 then swapCase (col q) else col q) = ' '
      rw [if_neg hin, h]
  · intro q hq
    have hin : 14 ≤ q ∧ q < 197 := by
      obtain ⟨h1, h2, h3⟩ := hq
      constructor <;> omega
    show (if 14 ≤ q ∧ q < 197 then swapCase (col q) else col q) = '.'
        ∨ (if 14 ≤ q ∧ q < 197 then swapCase (col q) else col q) = 'X'
        ∨ (if 14 ≤ q ∧ q < 197 then swapCase (col q) else col q) = 'x'
    rw [if_pos hin]
    rcases hw.2 q hq with h | h | h <;> rw [h]
    · exact Or.inl rfl
    · exact Or.inr (Or.inr rfl)
    · exact Or.inr (Or.inl rfl)

theorem swap_color_parity_ExtInv (pos pos' : Position)
    (hc : pos'.color = fun q =>
      if 14 ≤ q ∧ q < 197 then swapCase (pos.color q) else pos.color q)
    (he4 : pos'.env4 = pos.env4) (he4d : pos'.env4d = pos.env4d)
    (hpar : (pos'.n % 2 = 0) ↔ ¬ (pos.n % 2 = 0))
    (hw : wfColor pos.color) (hE : ExtInv pos) : ExtInv pos' := by
  have hpoint : ∀ r : Int,
      colorCode pos'.n (pos'.color r) = colorCode pos.n (pos.color r) := by
    intro r
    have hr' : pos'.color r
        = if 14 ≤ r ∧ r < 197 then swapCase (pos.color r) else pos.color r := by
      rw [hc]
    rw [hr']
    by_cases hr : interiorP r
    · have hin : 14 ≤ r ∧ r < 197 := by
        obtain ⟨h1, h2, h3⟩ := hr
        constructor <;> omega
      rw [if_pos hin]
      refine colorCode_swap_parity _ _ _ hpar ?_
      rcases hw.2 r hr with h | h | h
      · exact Or.inr (Or.inl h)
      · exact Or.inr (Or.inr (Or.inl h))
      · exact Or.inr (Or.inr (Or.inr h))
    · have h := hw.1 r hr
      by_cases hin : 14 ≤ r ∧ r < 197
      · rw [if_pos hin, h]
        rfl
      · rw [if_neg hin, h]
        rfl
  intro q hq0 hq1
  have h := hE q hq0 hq1
  constructor
  · rw [he4, h.1, compute_env4_def, compute_env4_def, computeEnv4F_eq_mk,
      computeEnv4F_eq_mk, hpoint, hpoint, hpoint, hpoint]
  · rw [he4d, h.2, compute_env4_def, compute_env4_def, computeEnv4F_eq_mk,
      computeEnv4F_eq_mk, hpoint, hpoint, hpoint, hpoint]

theorem cancel_byte_xor (b m : Nat) : b ^^^ m ^^^ m = b := by
  rw [Nat.xor_assoc, Nat.xor_self, Nat.xor_zero]

/-- The and-then-or composition cancels on a byte whose slot holds the
EMPTY code: the four slot instances. -/
theorem mk_and_or_cancel_0 : ∀ b1 < 4, ∀ b2 < 4, ∀ b3 < 4,
    (mkEnv4 2 b1 b2 b3 &&& 0xEE) ||| 0x10 = mkEnv4 2 b1 b2 b3 := by decide

theorem mk_and_or_cancel_1 : ∀ b0 < 4, ∀ b2 < 4, ∀ b3 < 4,
    (mkEnv4 b0 2 b2 b3 &&& 0xDD) ||| 0x20 = mkEnv4 b0 2 b2 b3 := by decide

theorem mk_and_or_cancel_2 : ∀ b0 < 4, ∀ b1 < 4, ∀ b3 < 4,
    (mkEnv4 b0 b1 2 b3 &&& 0xBB) ||| 0x40 = mkEnv4 b0 b1 2 b3 := by decide

theorem mk_and_or_cancel_3 : ∀ b0 < 4, ∀ b1 < 4, ∀ b2 < 4,
    (mkEnv4 b0 b1 b2 2 &&& 0x77) ||| 0x80 = mkEnv4 b0 b1 b2 2 := by decide

theorem remove_X_stone_fields (pos : Position) (pt : Int) :
    (remove_X_stone pos pt).n = pos.n
    ∧ (remove_X_stone pos pt).color
        = Function.update pos.color pt '.'
    ∧ (remove_X_stone pos pt).env4
        = (remove_stone { pos with n := pos.n + 1 } pt).env4
    ∧ (remove_X_stone pos pt).env4d
        = (remove_stone { pos with n := pos.n + 1 } pt).env4d
    ∧ (remove_X_stone pos pt).ko = pos.ko
    ∧ (remove_X_stone pos pt).ko_old = pos.ko_old
    ∧ (remove_X_stone pos pt).last = pos.last
    ∧ (remove_X_stone pos pt).last2 = pos.last2
    ∧ (remove_X_stone pos pt).last3 = pos.last3
    ∧ (remove_X_stone pos pt).komi = pos.komi
    ∧ (remove_X_stone pos pt).cap = pos.cap
    ∧ (remove_X_stone pos pt).capX = pos.capX := by
  refine ⟨?_, ?_, rfl, rfl, ?_, ?_, ?_, ?_, ?_, ?_, ?_, ?_⟩
  · show (remove_stone { pos with n := pos.n + 1 } pt).n - 1 = pos.n
    rw [remove_stone_n]
    show pos.n + 1 - 1 = pos.n
    omega
  · show (remove_stone { pos with n := pos.n + 1 } pt).color = _
    rw [remove_stone_color]
  · show (remove_stone { pos with n := pos.n + 1 } pt).ko = pos.ko
    rw [(remove_stone_ko _ _).1]
  · show (remove_stone { pos with n := pos.n + 1 } pt).ko_old = pos.ko_old
    rw [(remove_stone_ko _ _).2]
  · show (remove_stone { pos with n := pos.n + 1 } pt).last = pos.last
    rw [(remove_stone_last _ _).1]
  · show (remove_stone { pos with n := pos.n + 1 } pt).last2 = pos.last2
    rw [(remove_stone_last _ _).2.1]
  · show (remove_stone { pos with n := pos.n + 1 } pt).last3 = pos.last3
    rw [(remove_stone_last _ _).2.2]
  · show (remove_stone { pos with n := pos.n + 1 } pt).komi = pos.komi
    rw [(remove_stone_caps _ _).2.2]
  · show (remove_stone { pos with n := pos.n + 1 } pt).cap = pos.cap
    rw [(remove_stone_caps _ _).1]
  · show (remove_stone { pos with n := pos.n + 1 } pt).capX = pos.capX
    rw [(remove_stone_caps _ _).2.1]

/-- Undoing a fresh placement: `remove_X_stone` after `put_stone` on an
empty interior point of a cache-consistent position restores the position
byte for byte.  (This is the suicide error path of `play_move`.) -/
theorem put_remove_X_cancel (pos : Position) (pt : Int)
    (hI : Inv pos) (hpt : interiorP pt) (hc : pos.color pt = '.') :
    remove_X_stone (put_stone pos pt) pt = pos := by
  obtain ⟨hw, hE⟩ := hI
  obtain ⟨hF1, hF2, hF3, hF4, hF5, hF6, hF7, hF8, hF9, hF10, hF11, hF12⟩ :=
    remove_X_stone_fields (put_stone pos pt) pt
  have hpn := put_stone_n pos pt
  have hpt1 : 15 ≤ pt := hpt.1
  have hpt2 : pt ≤ 195 := hpt.2.1
  have d0 : delta 0 = -14 := rfl
  have d1 : delta (0 + 1) = 1 := rfl
  have d2 : delta (0 + 2) = 14 := rfl
  have d3 : delta (0 + 3) = -1 := rfl
  have d4 : delta 4 = -13 := rfl
  have d5 : delta (4 + 1) = 15 := rfl
  have d6 : delta (4 + 2) = 13 := rfl
  have d7 : delta (4 + 3) = -15 := rfl
  have henv4 : ∀ q : Int, (remove_X_stone (put_stone pos pt) pt).env4 q = pos.env4 q := by
    intro q
    rw [hF3]
    by_cases hpar : pos.n % 2 = 0
    · have hodd : ¬ ({ put_stone pos pt with n := (put_stone pos pt).n + 1 }.n % 2 = 0) := by
        show ¬ ((put_stone pos pt).n + 1) % 2 = 0
        rw [hpn]
        omega
      have hput : ∀ r : Int, (put_stone pos pt).env4 r =
          if r = pt + 14 then pos.env4 r ^^^ 0x11
          else if r = pt - 1 then pos.env4 r ^^^ 0x22
          else if r = pt - 14 then pos.env4 r ^^^ 0x44
          else if r = pt + 1 then pos.env4 r ^^^ 0x88
          else pos.env4 r := by
        intro r
        unfold put_stone
        rw [if_pos hpar]
      show (remove_stone _ pt).env4 q = pos.env4 q
      unfold remove_stone
      rw [if_neg hodd]
      show (if q = pt + 14 then (put_stone pos pt).env4 q ^^^ 0x11
        else if q = pt - 1 then (put_stone pos pt).env4 q ^^^ 0x22
        else if q = pt - 14 then (put_stone pos pt).env4 q ^^^ 0x44
        else if q = pt + 1 then (put_stone pos pt).env4 q ^^^ 0x88
        else (put_stone pos pt).env4 q) = pos.env4 q
      by_cases h1 : q = pt + 14
      · rw [if_pos h1, hput q, if_pos h1]
        exact cancel_byte_xor _ _
      · rw [if_neg h1]
        by_cases h2 : q = pt - 1
        · rw [if_pos h2, hput q, if_neg h1, if_pos h2]
          exact cancel_byte_xor _ _
        · rw [if_neg h2]
          by_cases h3 : q = pt - 14
          · rw [if_pos h3, hput q, if_neg h1, if_neg h2, if_pos h3]
            exact cancel_byte_xor _ _
          · rw [if_neg h3]
            by_cases h4 : q = pt + 1
            · rw [if_pos h4, hput q, if_neg h1, if_neg h2, if_neg h3, if_pos h4]
              exact cancel_byte_xor _ _
            · rw [if_neg h4, hput q, if_neg h1, if_neg h2, if_neg h3, if_neg h4]
    · have heven : { put_stone pos pt with n := (put_stone pos pt).n + 1 }.n % 2 = 0 := by
        show ((put_stone pos pt).n + 1) % 2 = 0
        rw [hpn]
        omega
      have hput : ∀ r : Int, (put_stone pos pt).env4 r =
          if r = pt + 14 then pos.env4 r &&& 0xEE
          else if r = pt - 1 then pos.env4 r &&& 0xDD
          else if r = pt - 14 then pos.env4 r &&& 0xBB
          else if r = pt + 1 then pos.env4 r &&& 0x77
          else pos.env4 r := by
        intro r
        unfold put_stone
        rw [if_neg hpar]
      show (remove_stone _ pt).env4 q = pos.env4 q
      unfold remove_stone
      rw [if_pos heven]
      show (if q = pt + 14 then (put_stone pos pt).env4 q ||| 0x10
        else if q = pt - 1 then (put_stone pos pt).env4 q ||| 0x20
        else if q = pt - 14 then (put_stone pos pt).env4 q ||| 0x40
        else if q = pt + 1 then (put_stone pos pt).env4 q ||| 0x80
        else (put_stone pos pt).env4 q) = pos.env4 q
      by_cases h1 : q = pt + 14
      · rw [if_pos h1, hput q, if_pos h1]
        have hIH := (hE q (by omega) (by omega)).1
        have e : q + delta 0 = pt := by omega
        rw [compute_env4_def, computeEnv4F_eq_mk, e, hc, colorCode_dot] at hIH
        rw [hIH]
        exact mk_and_or_cancel_0 _ (colorCode_lt _ _) _ (colorCode_lt _ _)
          _ (colorCode_lt _ _)
      · rw [if_neg h1]
        by_cases h2 : q = pt - 1
        · rw [if_pos h2, hput q, if_neg h1, if_pos h2]
          have hIH := (hE q (by omega) (by omega)).1
          have e : q + delta (0 + 1) = pt := by omega
          rw [compute_env4_def, computeEnv4F_eq_mk, e, hc, colorCode_dot] at hIH
          rw [hIH]
          exact mk_and_or_cancel_1 _ (colorCode_lt _ _) _ (colorCode_lt _ _)
            _ (colorCode_lt _ _)
        · rw [if_neg h2]
          by_cases h3 : q = pt - 14
          · rw [if_pos h3, hput q, if_neg h1, if_neg h2, if_pos h3]
            have hIH := (hE q (by omega) (by omega)).1
            have e : q + delta (0 + 2) = pt := by omega
            rw [compute_env4_def, computeEnv4F_eq_mk, e, hc, colorCode_dot] at hIH
            rw [hIH]
            exact mk_and_or_cancel_2 _ (colorCode_lt _ _) _ (colorCode_lt _ _)
              _ (colorCode_lt _ _)
          · rw [if_neg h3]
            by_cases h4 : q = pt + 1
            · rw [if_pos h4, hput q, if_neg h1, if_neg h2, if_neg h3, if_pos h4]
              have hIH := (hE q (by omega) (by omega)).1
              have e : q + delta (0 + 3) = pt := by omega
              rw [compute_env4_def, computeEnv4F_eq_mk, e, hc, colorCode_dot] at hIH
              rw [hIH]
              exact mk_and_or_cancel_3 _ (colorCode_lt _ _) _ (colorCode_lt _ _)
                _ (colorCode_lt _ _)
            · rw [if_neg h4, hput q, if_neg h1, if_neg h2, if_neg h3, if_neg h4]
  have henv4d : ∀ q : Int, (remove_X_stone (put_stone pos pt) pt).env4d q = pos.env4d q := by
    intro q
    rw [hF4]
    by_cases hpar : pos.n % 2 = 0
    · have hodd : ¬ ({ put_stone pos pt with n := (put_stone pos pt).n + 1 }.n % 2 = 0) := by
        show ¬ ((put_stone pos pt).n + 1) % 2 = 0
        rw [hpn]
        omega
      have hput : ∀ r : Int, (put_stone pos pt).env4d r =
          if r = pt + 13 then pos.env4d r ^^^ 0x11
          else if r = pt - 15 then pos.env4d r ^^^ 0x22
          else if r = pt - 13 then pos.env4d r ^^^ 0x44
          else if r = pt + 15 then pos.env4d r ^^^ 0x88
          else pos.env4d r := by
        intro r
        unfold put_stone
        rw [if_pos hpar]
      show (remove_stone _ pt).env4d q = pos.env4d q
      unfold remove_stone
      rw [if_neg hodd]
      show (if q = pt + 13 then (put_stone pos pt).env4d q ^^^ 0x11
        else if q = pt - 15 then (put_stone pos pt).env4d q ^^^ 0x22
        else if q = pt - 13 then (put_stone pos pt).env4d q ^^^ 0x44
        else if q = pt + 15 then (put_stone pos pt).env4d q ^^^ 0x88
        else (put_stone pos pt).env4d q) = pos.env4d q
      by_cases h1 : q = pt + 13
      · rw [if_pos h1, hput q, if_pos h1]
        exact cancel_byte_xor _ _
      · rw [if_neg h1]
        by_cases h2 : q = pt - 15
        · rw [if_pos h2, hput q, if_neg h1, if_pos h2]
          exact cancel_byte_xor _ _
        · rw [if_neg h2]
          by_cases h3 : q = pt - 13
          · rw [if_pos h3, hput q, if_neg h1, if_neg h2, if_pos h3]
            exact cancel_byte_xor _ _
          · rw [if_neg h3]
            by_cases h4 : q = pt + 15
            · rw [if_pos h4, hput q, if_neg h1, if_neg h2, if_neg h3, if_pos h4]
              exact cancel_byte_xor _ _
            · rw [if_neg h4, hput q, if_neg h1, if_neg h2, if_neg h3, if_neg h4]
    · have heven : { put_stone pos pt with n := (put_stone pos pt).n + 1 }.n % 2 = 0 := by
        show ((put_stone pos pt).n + 1) % 2 = 0
        rw [hpn]
        omega
      have hput : ∀ r : Int, (put_stone pos pt).env4d r =
          if r = pt + 13 then pos.env4d r &&& 0xEE
          else if r = pt - 15 then pos.env4d r &&& 0xDD
          else if r = pt - 13 then pos.env4d r &&& 0xBB
          else if r = pt + 15 then pos.env4d r &&& 0x77
          else pos.env4d r := by
        intro r
        unfold put_stone
        rw [if_neg hpar]
      show (remove_stone _ pt).env4d q = pos.env4d q
      unfold remove_stone
      rw [if_pos heven]
      show (if q = pt + 13 then (put_stone pos pt).env4d q ||| 0x10
        else if q = pt - 15 then (put_stone pos pt).env4d q ||| 0x20
        else if q = pt - 13 then (put_stone pos pt).env4d q ||| 0x40
        else if q = pt + 15 then (put_stone pos pt).env4d q ||| 0x80
        else (put_stone pos pt).env4d q) = pos.env4d q
      by_cases h1 : q = pt + 13
      · rw [if_pos h1, hput q, if_pos h1]
        have hIH := (hE q (by omega) (by omega)).2
        have e : q + delta 4 = pt := by omega
        rw [compute_env4_def, computeEnv4F_eq_mk, e, hc, colorCode_dot] at hIH
        rw [hIH]
        exact mk_and_or_cancel_0 _ (colorCode_lt _ _) _ (colorCode_lt _ _)
          _ (colorCode_lt _ _)
      · rw [if_neg h1]
        by_cases h2 : q = pt - 15
        · rw [if_pos h2, hput q, if_neg h1, if_pos h2]
          have hIH := (hE q (by omega) (by omega)).2
          have e : q + delta (4 + 1) = pt := by omega
          rw [compute_env4_def, computeEnv4F_eq_mk, e, hc, colorCode_dot] at hIH
          rw [hIH]
          exact mk_and_or_cancel_1 _ (colorCode_lt _ _) _ (colorCode_lt _ _)
            _ (colorCode_lt _ _)
        · rw [if_neg h2]
          by_cases h3 : q = pt - 13
          · rw [if_pos h3, hput q, if_neg h1, if_neg h2, if_pos h3]
            have hIH := (hE q (by omega) (by omega)).2
            have e : q + delta (4 + 2) = pt := by omega
            rw [compute_env4_def, computeEnv4F_eq_mk, e, hc, colorCode_dot] at hIH
            rw [hIH]
            exact mk_and_or_cancel_2 _ (colorCode_lt _ _) _ (colorCode_lt _ _)
              _ (colorCode_lt _ _)
          · rw [if_neg h3]
            by_cases h4 : q = pt + 15
            · rw [if_pos h4, hput q, if_neg h1, if_neg h2, if_neg h3, if_pos h4]
              have hIH := (hE q (by omega) (by omega)).2
              have e : q + delta (4 + 3) = pt := by omega
              rw [compute_env4_def, computeEnv4F_eq_mk, e, hc, colorCode_dot] at hIH
              rw [hIH]
              exact mk_and_or_cancel_3 _ (colorCode_lt _ _) _ (colorCode_lt _ _)
                _ (colorCode_lt _ _)
            · rw [if_neg h4, hput q, if_neg h1, if_neg h2, if_neg h3, if_neg h4]
  apply Position.ext
  · funext r
    rw [hF2, put_stone_color]
    by_cases hr : r = pt
    · subst hr
      rw [Function.update_same]
      exact hc.symm
    · rw [Function.update_noteq hr, Function.update_noteq hr]
  · funext q
    exact henv4 q
  · funext q
    exact henv4d q
  · rw [hF1, hpn]
  · rw [hF5, put_stone_ko]
  · rw [hF6, put_stone_ko_old]
  · rw [hF7, (put_stone_last pos pt).1]
  · rw [hF8, (put_stone_last pos pt).2.1]
  · rw [hF9, (put_stone_last pos pt).2.2]
  · rw [hF10, (put_stone_caps pos pt).2.2]
  · rw [hF11, (put_stone_caps pos pt).1]
  · rw [hF12, (put_stone_caps pos pt).2.1]

/-! ## Facts about `compute_block` and the capture loop -/

/-- State invariant of the block BFS: the stones list has no duplicates,
every stone is marked, and every stone has the block color. -/
def CBGood (pos : Position) (c0 : Char) (stones marked : List Int) : Prop :=
  stones.Nodup ∧ (∀ s ∈ stones, s ∈ marked) ∧ (∀ s ∈ stones, pos.color s = c0)

theorem cbNbrs_spec (pos : Position) (c0 : Char) (nlibs : Nat) (pt : Int) :
    ∀ (ks : List Nat) (stones marked libs : List Int),
      CBGood pos c0 stones marked →
      CBGood pos c0 (cbNbrs pos c0 nlibs pt ks stones marked libs).1
        (cbNbrs pos c0 nlibs pt ks stones marked libs).2.1
      ∧ ∃ t, (cbNbrs pos c0 nlibs pt ks stones marked libs).1 = stones ++ t := by
  intro ks
  induction ks with
  | nil =>
    intro stones marked libs hP
    exact ⟨hP, [], by simp [cbNbrs]⟩
  | cons k ks ih =>
    intro stones marked libs hP
    show CBGood pos c0 (cbNbrs pos c0 nlibs pt (k :: ks) stones marked libs).1 _ ∧ _
    unfold cbNbrs
    by_cases hmem : pt + delta k ∈ marked
    · rw [if_pos hmem]
      exact ih stones marked libs hP
    · rw [if_neg hmem]
      by_cases hc0 : pos.color (pt + delta k) = c0
      · rw [if_pos hc0]
        have hP' : CBGood pos c0 (stones ++ [pt + delta k]) ((pt + delta k) :: marked) := by
          refine ⟨?_, ?_, ?_⟩
          · refine List.Nodup.append hP.1 (List.nodup_singleton _) ?_
            intro a ha hb
            rw [List.mem_singleton] at hb
            exact hmem (hb ▸ hP.2.1 a ha)
          · intro s hs
            rcases List.mem_append.mp hs with h | h
            · exact List.mem_cons_of_mem _ (hP.2.1 s h)
            · rw [List.mem_singleton] at h
              subst h
              exact List.mem_cons_self _ _
          · intro s hs
            rcases List.mem_append.mp hs with h | h
            · exact hP.2.2 s h
            · rw [List.mem_singleton] at h
              subst h
              exact hc0
        obtain ⟨hQ, t, ht⟩ := ih (stones ++ [pt + delta k]) ((pt + delta k) :: marked) libs hP'
        exact ⟨hQ, [pt + delta k] ++ t, by rw [ht, List.append_assoc]⟩
      · rw [if_neg hc0]
        have hP' : CBGood pos c0 stones ((pt + delta k) :: marked) :=
          ⟨hP.1, fun s hs => List.mem_cons_of_mem _ (hP.2.1 s hs), hP.2.2⟩
        by_cases hdot : pos.color (pt + delta k) = '.'
        · rw [if_pos hdot]
          by_cases hfull : nlibs ≤ libs.length + 1
          · rw [if_pos hfull]
            exact ⟨hP', [], by simp⟩
          · rw [if_neg hfull]
            exact ih stones ((pt + delta k) :: marked) (libs ++ [pt + delta k]) hP'
        · rw [if_neg hdot]
          exact ih stones ((pt + delta k) :: marked) libs hP'

theorem cbGo_spec (pos : Position) (c0 : Char) (nlibs : Nat) :
    ∀ (fuel : Nat) (t : Nat) (stones marked libs : List Int),
      CBGood pos c0 stones marked →
      ((cbGo pos c0 nlibs fuel stones t marked libs).1.Nodup
      ∧ (∀ s ∈ (cbGo pos c0 nlibs fuel stones t marked libs).1, pos.color s = c0)
      ∧ ∃ tl, (cbGo pos c0 nlibs fuel stones t marked libs).1 = stones ++ tl) := by
  intro fuel
  induction fuel with
  | zero =>
    intro t stones marked libs hP
    exact ⟨hP.1, hP.2.2, [], by simp [cbGo]⟩
  | succ m ih =>
    intro t stones marked libs hP
    show ((cbGo pos c0 nlibs (m + 1) stones t marked libs).1.Nodup ∧ _)
    unfold cbGo
    by_cases ht : t < stones.length
    · rw [if_pos ht]
      obtain ⟨hQ, t1, ht1⟩ :=
        cbNbrs_spec pos c0 nlibs (stones.getD t 0) [0, 1, 2, 3] stones marked libs hP
      by_cases hdone : (cbNbrs pos c0 nlibs (stones.getD t 0) [0, 1, 2, 3]
          stones marked libs).2.2.2
      · rw [if_pos hdone]
        exact ⟨hQ.1, hQ.2.2, t1, ht1⟩
      · rw [if_neg hdone]
        obtain ⟨hN, hCol, t2, ht2⟩ := ih (t + 1) _ _ _ hQ
        exact ⟨hN, hCol, t1 ++ t2, by rw [ht2, ht1, List.append_assoc]⟩
    · rw [if_neg ht]
      exact ⟨hP.1, hP.2.2, [], by simp⟩


/-- The stones list returned by `compute_block` starts with the seed point,
has no duplicates, and every stone has the color of the seed. -/
theorem compute_block_stones (pos : Position) (pt0 : Int) (nlibs : Nat) :
    (compute_block pos pt0 nlibs).1.Nodup
    ∧ (∀ s ∈ (compute_block pos pt0 nlibs).1, pos.color s = pos.color pt0)
    ∧ ∃ t, (compute_block pos pt0 nlibs).1 = pt0 :: t := by
  have h := cbGo_spec pos (pos.color pt0) nlibs 500 0 [pt0] [pt0] []
    ⟨List.nodup_singleton _, by simp, by simp⟩
  exact ⟨h.1, h.2.1, h.2.2⟩

theorem capture_block_cons (p : Position) (s : Int) (ss : List Int) :
    capture_block p (s :: ss) = capture_block (remove_stone p s) ss := rfl

/-- `capture_block` (a fold of `remove_stone`) preserves the scalar fields
of the position. -/
theorem capture_block_frame (stones : List Int) : ∀ (p : Position),
    (capture_block p stones).n = p.n
    ∧ (capture_block p stones).ko = p.ko
    ∧ (capture_block p stones).ko_old = p.ko_old
    ∧ (capture_block p stones).last = p.last
    ∧ (capture_block p stones).last2 = p.last2
    ∧ (capture_block p stones).last3 = p.last3
    ∧ (capture_block p stones).komi = p.komi
    ∧ (capture_block p stones).cap = p.cap
    ∧ (capture_block p stones).capX = p.capX := by
  induction stones with
  | nil => intro p; exact ⟨rfl, rfl, rfl, rfl, rfl, rfl, rfl, rfl, rfl⟩
  | cons s ss ih =>
    intro p
    rw [capture_block_cons]
    obtain ⟨h1, h2, h3, h4, h5, h6, h7, h8, h9⟩ := ih (remove_stone p s)
    refine ⟨?_, ?_, ?_, ?_, ?_, ?_, ?_, ?_, ?_⟩
    · rw [h1, remove_stone_n]
    · rw [h2, (remove_stone_ko _ _).1]
    · rw [h3, (remove_stone_ko _ _).2]
    · rw [h4, (remove_stone_last _ _).1]
    · rw [h5, (remove_stone_last _ _).2.1]
    · rw [h6, (remove_stone_last _ _).2.2]
    · rw [h7, (remove_stone_caps _ _).2.2]
    · rw [h8, (remove_stone_caps _ _).1]
    · rw [h9, (remove_stone_caps _ _).2.1]

/-- `capture_block` preserves the invariant when it removes a duplicate-free
list of `'x'` stones. -/
theorem capture_block_Inv (stones : List Int) : ∀ (p : Position),
    Inv p → stones.Nodup → (∀ s ∈ stones, p.color s = 'x') →
    Inv (capture_block p stones) := by
  induction stones with
  | nil => intro p hI _ _; exact hI
  | cons s ss ih =>
    intro p hI hnd hx
    rw [capture_block_cons]
    have hsx : p.color s = 'x' := hx s (List.mem_cons_self _ _)
    have hsint : interiorP s := by
      by_contra hni
      have := hI.1.1 s hni
      rw [this] at hsx
      exact absurd hsx (by decide)
    refine ih (remove_stone p s) (remove_stone_Inv p s hI hsint hsx)
      (List.Nodup.of_cons hnd) ?_
    intro u hu
    rw [remove_stone_color]
    have hne : u ≠ s := by
      intro he
      subst he
      exact (List.nodup_cons.mp hnd).1 hu
    rw [Function.update_noteq hne]
    exact hx u (List.mem_cons_of_mem _ hu)

/-- Full characterization of the capture loop fold: the invariant is
preserved, the capture count only grows, a vacuous loop leaves everything
unchanged, a single captured stone means exactly one singleton `'x'` block
adjacent to `pt` was removed (and recorded in `pos_capture`), any positive
count leaves an interior point in `pos_capture`, and all scalar fields are
untouched. -/
theorem capFold_spec (pt : Int) :
    ∀ (ks : List Nat) (p : Position) (c pc : Int) (p' : Position) (c' pc' : Int),
      List.foldl (captureStep pt) (p, c, pc) ks = (p', c', pc') →
      Inv p →
      Inv p'
      ∧ c ≤ c'
      ∧ (c' = c → p' = p ∧ pc' = pc)
      ∧ (c' = c + 1 → ∃ nn, (∃ k ∈ ks, nn = pt + delta k) ∧ interiorP nn
          ∧ p.color nn = 'x' ∧ p' = remove_stone p nn ∧ pc' = nn)
      ∧ (c < c' → interiorP pc')
      ∧ p'.n = p.n ∧ p'.ko = p.ko ∧ p'.ko_old = p.ko_old
      ∧ p'.last = p.last ∧ p'.last2 = p.last2 ∧ p'.last3 = p.last3
      ∧ p'.komi = p.komi ∧ p'.cap = p.cap ∧ p'.capX = p.capX := by
  intro ks
  induction ks with
  | nil =>
    intro p c pc p' c' pc' hr hI
    rw [List.foldl_nil] at hr
    obtain ⟨h1, h2, h3⟩ : p = p' ∧ c = c' ∧ pc = pc' := by
      refine ⟨congrArg Prod.fst hr, ?_, ?_⟩
      · exact congrArg (fun x => x.2.1) hr
      · exact congrArg (fun x => x.2.2) hr
    subst h1
    subst h2
    subst h3
    exact ⟨hI, le_refl _, fun _ => ⟨rfl, rfl⟩, fun hc => by omega,
      fun hc => by omega, rfl, rfl, rfl, rfl, rfl, rfl, rfl, rfl, rfl⟩
  | cons k ks ih =>
    intro p c pc p' c' pc' hr hI
    rw [List.foldl_cons] at hr
    by_cases hx : p.color (pt + delta k) = 'x'
    · by_cases hlib : (compute_block p (pt + delta k) 1).2.length = 0
      · -- a capture happened at this neighbor
        have hstep : captureStep pt (p, c, pc) k
            = (capture_block p (compute_block p (pt + delta k) 1).1,
               c + (((compute_block p (pt + delta k) 1).1.length : Int)),
               pt + delta k) := by
          unfold captureStep
          rw [if_pos hx, if_pos hlib]
        rw [hstep] at hr
        obtain ⟨hnd, hcols, t, hshape⟩ := compute_block_stones p (pt + delta k) 1
        have hlen1 : 1 ≤ (compute_block p (pt + delta k) 1).1.length := by
          rw [hshape]
          simp
        have hxall : ∀ s ∈ (compute_block p (pt + delta k) 1).1, p.color s = 'x' := by
          intro s hs
          rw [hcols s hs, hx]
        have hint : interiorP (pt + delta k) := by
          by_contra hni
          have := hI.1.1 _ hni
          rw [this] at hx
          exact absurd hx (by decide)
        have hICB : Inv (capture_block p (compute_block p (pt + delta k) 1).1) :=
          capture_block_Inv _ p hI hnd hxall
        obtain ⟨hI', hmono, hsame, hone, hpos, hfn, hfko, hfko2, hfl1, hfl2, hfl3,
            hfkomi, hfcap, hfcapX⟩ := ih _ _ _ _ _ _ hr hICB
        obtain ⟨hbn, hbko, hbko2, hbl1, hbl2, hbl3, hbkomi, hbcap, hbcapX⟩ :=
          capture_block_frame (compute_block p (pt + delta k) 1).1 p
        have hlen1' : (1 : Int) ≤ ((compute_block p (pt + delta k) 1).1.length : Int) := by
          exact_mod_cast hlen1
        refine ⟨hI', by omega, fun hc => by omega, ?_, ?_, ?_, ?_, ?_, ?_, ?_, ?_, ?_, ?_, ?_⟩
        · intro hc1
          have hlenle : ((compute_block p (pt + delta k) 1).1.length : Int) = 1 := by omega
          have hlen_nat : (compute_block p (pt + delta k) 1).1.length = 1 := by
            exact_mod_cast hlenle
          have ht0 : t = [] := by
            rw [hshape] at hlen_nat
            simpa using hlen_nat
          have hsingle : (compute_block p (pt + delta k) 1).1 = [pt + delta k] := by
            rw [hshape, ht0]
          have hcsum : c' = c + ((compute_block p (pt + delta k) 1).1.length : Int) := by
            omega
          obtain ⟨hp'eq, hpc'eq⟩ := hsame hcsum
          refine ⟨pt + delta k, ⟨k, List.mem_cons_self _ _, rfl⟩, hint, hx, ?_, hpc'eq⟩
          rw [hp'eq, hsingle]
          rfl
        · intro _
          by_cases hc : c' = c + ((compute_block p (pt + delta k) 1).1.length : Int)
          · obtain ⟨_, hpc'eq⟩ := hsame hc
            rw [hpc'eq]
            exact hint
          · exact hpos (by omega)
        · rw [hfn, hbn]
        · rw [hfko, hbko]
        · rw [hfko2, hbko2]
        · rw [hfl1, hbl1]
        · rw [hfl2, hbl2]
        · rw [hfl3, hbl3]
        · rw [hfkomi, hbkomi]
        · rw [hfcap, hbcap]
        · rw [hfcapX, hbcapX]
      · have hstep : captureStep pt (p, c, pc) k = (p, c, pc) := by
          unfold captureStep
          rw [if_pos hx, if_neg hlib]
        rw [hstep] at hr
        obtain ⟨hI', hmono, hsame, hone, hpos, hf⟩ := ih _ _ _ _ _ _ hr hI
        refine ⟨hI', hmono, hsame, ?_, hpos, hf⟩
        intro hc1
        obtain ⟨nn, ⟨k0, hk0, hnn⟩, rest⟩ := hone hc1
        exact ⟨nn, ⟨k0, List.mem_cons_of_mem _ hk0, hnn⟩, rest⟩
    · have hstep : captureStep pt (p, c, pc) k = (p, c, pc) := by
        unfold captureStep
        rw [if_neg hx]
      rw [hstep] at hr
      obtain ⟨hI', hmono, hsame, hone, hpos, hf⟩ := ih _ _ _ _ _ _ hr hI
      refine ⟨hI', hmono, hsame, ?_, hpos, hf⟩
      intro hc1
      obtain ⟨nn, ⟨k0, hk0, hnn⟩, rest⟩ := hone hc1
      exact ⟨nn, ⟨k0, List.mem_cons_of_mem _ hk0, hnn⟩, rest⟩

/-- The capture loop of `play_move`, packaged from `capFold_spec`. -/
theorem captureLoop_spec (pos : Position) (pt : Int)
    (hI : Inv pos) :
    Inv (captureLoop pos pt).1
    ∧ 0 ≤ (captureLoop pos pt).2.1
    ∧ ((captureLoop pos pt).2.1 = 0 →
        (captureLoop pos pt).1 = pos ∧ (captureLoop pos pt).2.2 = 0)
    ∧ ((captureLoop pos pt).2.1 = 1 → ∃ nn, (∃ k ∈ [0, 1, 2, 3], nn = pt + delta k)
        ∧ interiorP nn ∧ pos.color nn = 'x'
        ∧ (captureLoop pos pt).1 = remove_stone pos nn
        ∧ (captureLoop pos pt).2.2 = nn)
    ∧ (0 < (captureLoop pos pt).2.1 → interiorP (captureLoop pos pt).2.2)
    ∧ (captureLoop pos pt).1.n = pos.n
    ∧ (captureLoop pos pt).1.ko = pos.ko
    ∧ (captureLoop pos pt).1.ko_old = pos.ko_old
    ∧ (captureLoop pos pt).1.last = pos.last
    ∧ (captureLoop pos pt).1.last2 = pos.last2
    ∧ (captureLoop pos pt).1.last3 = pos.last3
    ∧ (captureLoop pos pt).1.komi = pos.komi
    ∧ (captureLoop pos pt).1.cap = pos.cap
    ∧ (captureLoop pos pt).1.capX = pos.capX := by
  have hr : List.foldl (captureStep pt) (pos, 0, 0) [0, 1, 2, 3]
      = ((captureLoop pos pt).1, (captureLoop pos pt).2.1, (captureLoop pos pt).2.2) := by
    rw [Prod.mk.eta]
    rfl
  exact capFold_spec pt [0, 1, 2, 3] pos 0 0 _ _ _ hr hI

/-! ## `playFinish`, `pass_move` and eye-shape analysis -/

theorem playFinish_fields (p : Position) (pt : Int) (c pcap : Int) :
    (playFinish p pt c pcap).msg = ""
    ∧ (playFinish p pt c pcap).captured = c
    ∧ (playFinish p pt c pcap).posCapture = pcap
    ∧ (playFinish p pt c pcap).pos.n = p.n + 1
    ∧ (playFinish p pt c pcap).pos.ko = p.ko
    ∧ (playFinish p pt c pcap).pos.ko_old = p.ko_old
    ∧ (playFinish p pt c pcap).pos.last = pt
    ∧ (playFinish p pt c pcap).pos.last2 = p.last
    ∧ (playFinish p pt c pcap).pos.last3 = p.last2
    ∧ (playFinish p pt c pcap).pos.cap = c + p.capX
    ∧ (playFinish p pt c pcap).pos.capX = p.cap
    ∧ (playFinish p pt c pcap).pos.komi = p.komi
    ∧ (playFinish p pt c pcap).pos.env4 = p.env4
    ∧ (playFinish p pt c pcap).pos.env4d = p.env4d
    ∧ (playFinish p pt c pcap).pos.color = (fun q =>
        if 14 ≤ q ∧ q < 197 then swapCase (p.color q) else p.color q) :=
  ⟨rfl, rfl, rfl, rfl, rfl, rfl, rfl, rfl, rfl, rfl, rfl, rfl, rfl, rfl, rfl⟩

theorem playFinish_Inv (p : Position) (pt : Int) (c pcap : Int)
    (hI : Inv p) : Inv (playFinish p pt c pcap).pos := by
  constructor
  · exact wfColor_swap p.color hI.1
  · refine swap_color_parity_ExtInv p (playFinish p pt c pcap).pos rfl rfl rfl ?_ hI.1 hI.2
    show (p.n + 1) % 2 = 0 ↔ ¬ p.n % 2 = 0
    constructor <;> intro h <;> omega

theorem pass_move_fields (p : Position) :
    (pass_move p).n = p.n + 1
    ∧ (pass_move p).ko = 0
    ∧ (pass_move p).ko_old = p.ko_old
    ∧ (pass_move p).last = 0
    ∧ (pass_move p).last2 = p.last
    ∧ (pass_move p).last3 = p.last3
    ∧ (pass_move p).cap = p.capX
    ∧ (pass_move p).capX = p.cap
    ∧ (pass_move p).komi = p.komi
    ∧ (pass_move p).env4 = p.env4
    ∧ (pass_move p).env4d = p.env4d
    ∧ (pass_move p).color = (fun q =>
        if 14 ≤ q ∧ q < 197 then swapCase (p.color q) else p.color q) :=
  ⟨rfl, rfl, rfl, rfl, rfl, rfl, rfl, rfl, rfl, rfl, rfl, rfl⟩

theorem pass_move_Inv (p : Position) (hI : Inv p) : Inv (pass_move p) := by
  constructor
  · exact wfColor_swap p.color hI.1
  · refine swap_color_parity_ExtInv p (pass_move p) rfl rfl rfl ?_ hI.1 hI.2
    show (p.n + 1) % 2 = 0 ↔ ¬ p.n % 2 = 0
    constructor <;> intro h <;> omega

/-- A point holding `'.'` is interior when the colors are well formed. -/
theorem interior_of_dot (pos : Position) (pt : Int)
    (hw : wfColor pos.color) (hc : pos.color pt = '.') : interiorP pt := by
  by_contra hni
  have := hw.1 pt hni
  rw [this] at hc
  exact absurd hc (by decide)

theorem eyeishLoop_ne (pos : Position) (pt : Int) (hw : wfColor pos.color) :
    ∀ (ks : List Nat) (e : Char),
      (e = Char.ofNat 0 ∨ e = 'X' ∨ e = 'x') →
      eyeishLoop pos pt ks e ≠ Char.ofNat 0 →
      (∀ k ∈ ks, pos.color (pt + delta k) = ' '
        ∨ pos.color (pt + delta k) = eyeishLoop pos pt ks e)
      ∧ (e = Char.ofNat 0 ∨ e = eyeishLoop pos pt ks e) := by
  intro ks
  induction ks with
  | nil =>
    intro e he hne
    exact ⟨by simp, Or.inr rfl⟩
  | cons k ks ih =>
    intro e he hne
    have hXx : pos.color (pt + delta k) ≠ ' ' → pos.color (pt + delta k) ≠ '.' →
        pos.color (pt + delta k) = 'X' ∨ pos.color (pt + delta k) = 'x' := by
      intro hs hd
      by_cases hint : interiorP (pt + delta k)
      · rcases hw.2 _ hint with h | h | h
        · exact absurd h hd
        · exact Or.inl h
        · exact Or.inr h
      · exact absurd (hw.1 _ hint) hs
    by_cases hsp : pos.color (pt + delta k) = ' '
    · have hstep : eyeishLoop pos pt (k :: ks) e = eyeishLoop pos pt ks e := by
        simp only [eyeishLoop]
        rw [if_pos hsp]
      rw [hstep] at hne ⊢
      obtain ⟨h1, h2⟩ := ih e he hne
      exact ⟨fun j hj => by
        rcases List.mem_cons.mp hj with h | h
        · exact Or.inl (h ▸ hsp)
        · exact h1 j h, h2⟩
    · by_cases hdot : pos.color (pt + delta k) = '.'
      · have hstep : eyeishLoop pos pt (k :: ks) e = Char.ofNat 0 := by
          simp only [eyeishLoop]
          rw [if_neg hsp, if_pos hdot]
        exact absurd hstep hne
      · have hcXx := hXx hsp hdot
        rcases he with he0 | heX
        · -- eyecolor was still 0: it becomes the neighbor color
          have hstep : eyeishLoop pos pt (k :: ks) e
              = eyeishLoop pos pt ks (pos.color (pt + delta k)) := by
            simp only [eyeishLoop]
            rw [if_neg hsp, if_neg hdot, if_pos he0]
          rw [hstep] at hne ⊢
          obtain ⟨h1, h2⟩ := ih (pos.color (pt + delta k)) (Or.inr hcXx) hne
          have hc0 : pos.color (pt + delta k) ≠ Char.ofNat 0 := by
            rcases hcXx with h | h <;> rw [h] <;> decide
          have hres : pos.color (pt + delta k) = eyeishLoop pos pt ks
              (pos.color (pt + delta k)) := h2.resolve_left hc0
          refine ⟨?_, Or.inl he0⟩
          intro j hj
          rcases List.mem_cons.mp hj with h | h
          · subst h
            exact Or.inr hres
          · exact h1 j h
        · have he0' : ¬ (e = Char.ofNat 0) := by
            rcases heX with h | h <;> subst h <;> decide
          by_cases hsw : pos.color (pt + delta k) = swapCase e
          · have hstep : eyeishLoop pos pt (k :: ks) e = Char.ofNat 0 := by
              simp only [eyeishLoop]
              rw [if_neg hsp, if_neg hdot, if_neg he0', if_pos hsw]
            exact absurd hstep hne
          · have hstep : eyeishLoop pos pt (k :: ks) e = eyeishLoop pos pt ks e := by
              simp only [eyeishLoop]
              rw [if_neg hsp, if_neg hdot, if_neg he0', if_neg hsw]
            rw [hstep] at hne ⊢
            have hce : pos.color (pt + delta k) = e := by
              rcases heX with h | h <;> subst h
              · rcases hcXx with hcc | hcc
                · exact hcc
                · exact absurd (by rw [hcc]; rfl) hsw
              · rcases hcXx with hcc | hcc
                · exact absurd (by rw [hcc]; rfl) hsw
                · exact hcc
            obtain ⟨h1, h2⟩ := ih e (Or.inr heX) hne
            have hres : e = eyeishLoop pos pt ks e := h2.resolve_left he0'
            refine ⟨?_, Or.inr hres⟩
            intro j hj
            rcases List.mem_cons.mp hj with h | h
            · subst h
              exact Or.inr (hce.trans hres)
            · exact h1 j h

/-- When every neighbor is OUT or `'x'` and at least one `'x'` neighbor
exists, the `is_eyeish` loop returns `'x'`. -/
theorem eyeishLoop_allx (pos : Position) (pt : Int) :
    ∀ (ks : List Nat) (e : Char),
      (∀ k ∈ ks, pos.color (pt + delta k) = ' ' ∨ pos.color (pt + delta k) = 'x') →
      (e = Char.ofNat 0 ∨ e = 'x') →
      ((eyeishLoop pos pt ks e = e ∨ eyeishLoop pos pt ks e = 'x')
      ∧ ((∃ k ∈ ks, pos.color (pt + delta k) = 'x') → eyeishLoop pos pt ks e = 'x')) := by
  intro ks
  induction ks with
  | nil =>
    intro e hall he
    refine ⟨Or.inl rfl, ?_⟩
    rintro ⟨k, hk, _⟩
    exact absurd hk (List.not_mem_nil k)
  | cons k ks ih =>
    intro e hall he
    rcases hall k (List.mem_cons_self _ _) with hsp | hx
    · have hstep : eyeishLoop pos pt (k :: ks) e = eyeishLoop pos pt ks e := by
        simp only [eyeishLoop]
        rw [if_pos hsp]
      rw [hstep]
      obtain ⟨h1, h2⟩ := ih e (fun j hj => hall j (List.mem_cons_of_mem _ hj)) he
      refine ⟨h1, ?_⟩
      rintro ⟨j, hj, hjx⟩
      rcases List.mem_cons.mp hj with h | h
      · subst h
        rw [hsp] at hjx
        exact absurd hjx (by decide)
      · exact h2 ⟨j, h, hjx⟩
    · have hsp : ¬ pos.color (pt + delta k) = ' ' := by rw [hx]; decide
      have hdot : ¬ pos.color (pt + delta k) = '.' := by rw [hx]; decide
      rcases he with he0 | hex
      · have hstep : eyeishLoop pos pt (k :: ks) e
            = eyeishLoop pos pt ks (pos.color (pt + delta k)) := by
          simp only [eyeishLoop]
          rw [if_neg hsp, if_neg hdot, if_pos he0]
        rw [hstep, hx]
        obtain ⟨h1, _⟩ := ih 'x' (fun j hj => hall j (List.mem_cons_of_mem _ hj))
          (Or.inr rfl)
        have hres : eyeishLoop pos pt ks 'x' = 'x' := by
          rcases h1 with h | h
          · exact h
          · exact h
        exact ⟨Or.inr hres, fun _ => hres⟩
      · have he0' : ¬ (e = Char.ofNat 0) := by rw [hex]; decide
        have hsw : ¬ pos.color (pt + delta k) = swapCase e := by
          rw [hx, hex]
          decide
        have hstep : eyeishLoop pos pt (k :: ks) e = eyeishLoop pos pt ks e := by
          simp only [eyeishLoop]
          rw [if_neg hsp, if_neg hdot, if_neg he0', if_neg hsw]
        rw [hstep]
        obtain ⟨h1, _⟩ := ih e (fun j hj => hall j (List.mem_cons_of_mem _ hj))
          (Or.inr hex)
        have hres : eyeishLoop pos pt ks e = 'x' := by
          rcases h1 with h | h
          · rw [h, hex]
          · exact h
        exact ⟨Or.inr hres, fun _ => hres⟩

/-! ## The success path of `play_move` -/

theorem play_move_eq_ko (pos : Position) (pt : Int) (pc : Int) (hko : pt = pos.ko) :
    play_move pos pt pc
      = ⟨"Error Illegal move: retakes ko", { pos with ko_old := pos.ko }, 0, pc⟩ := by
  rw [play_move]
  rw [if_pos hko]

theorem play_move_eq_else (pos : Position) (pt : Int) (pc : Int) (hko : ¬ pt = pos.ko) :
    play_move pos pt pc =
      (if 0 < (captureLoop (put_stone { pos with ko_old := pos.ko } pt) pt).2.1 then
        playFinish
          { (captureLoop (put_stone { pos with ko_old := pos.ko } pt) pt).1 with
              ko := if (captureLoop (put_stone { pos with ko_old := pos.ko } pt) pt).2.1 = 1
                  ∧ is_eyeish { pos with ko_old := pos.ko } pt ≠ Char.ofNat 0
                then (captureLoop (put_stone { pos with ko_old := pos.ko } pt) pt).2.2
                else 0 }
          pt (captureLoop (put_stone { pos with ko_old := pos.ko } pt) pt).2.1
          (captureLoop (put_stone { pos with ko_old := pos.ko } pt) pt).2.2
      else if (compute_block
          { (captureLoop (put_stone { pos with ko_old := pos.ko } pt) pt).1 with ko := 0 }
          pt 1).2.length = 0 then
        ⟨"Error Illegal move: suicide",
          remove_X_stone
            { (captureLoop (put_stone { pos with ko_old := pos.ko } pt) pt).1 with
                ko := (captureLoop (put_stone { pos with ko_old := pos.ko } pt) pt).1.ko_old }
            pt,
          0, (captureLoop (put_stone { pos with ko_old := pos.ko } pt) pt).2.2⟩
      else
        playFinish
          { (captureLoop (put_stone { pos with ko_old := pos.ko } pt) pt).1 with ko := 0 }
          pt (captureLoop (put_stone { pos with ko_old := pos.ko } pt) pt).2.1
          (captureLoop (put_stone { pos with ko_old := pos.ko } pt) pt).2.2) := by
  rw [play_move]
  rw [if_neg hko]

theorem Inv_ko_set (p : Position) (k : Int) (h : Inv p) : Inv { p with ko := k } := h

/-- Characterization of a successful `play_move`: the invariant is
preserved and all scalar fields evolve as the code writes them; the
resulting `ko` is nonzero exactly when the move captured one stone out of
an eyeish shape. -/
theorem play_move_success_spec (pos : Position) (pt : Int) (pc : Int)
    (hI : Inv pos) (hdot : pos.color pt = '.')
    (hok : (play_move pos pt pc).msg = "") :
    Inv (play_move pos pt pc).pos
    ∧ (play_move pos pt pc).pos.n = pos.n + 1
    ∧ (play_move pos pt pc).pos.last = pt
    ∧ (play_move pos pt pc).pos.last2 = pos.last
    ∧ (play_move pos pt pc).pos.last3 = pos.last2
    ∧ (play_move pos pt pc).pos.ko_old = pos.ko
    ∧ (play_move pos pt pc).pos.komi = pos.komi
    ∧ (play_move pos pt pc).pos.cap = (play_move pos pt pc).captured + pos.capX
    ∧ (play_move pos pt pc).pos.capX = pos.cap
    ∧ 0 ≤ (play_move pos pt pc).captured
    ∧ ((play_move pos pt pc).pos.ko ≠ 0 ↔
        ((play_move pos pt pc).captured = 1
          ∧ is_eyeish { pos with ko_old := pos.ko } pt ≠ Char.ofNat 0))
    ∧ ((play_move pos pt pc).captured = 1 →
        ∃ k, k < 4 ∧ pos.color (pt + delta k) = 'x') := by
  have hpt : interiorP pt := interior_of_dot pos pt hI.1 hdot
  have hI0 : Inv { pos with ko_old := pos.ko } := hI
  have hdot0 : ({ pos with ko_old := pos.ko } : Position).color pt = '.' := hdot
  have hI1 : Inv (put_stone { pos with ko_old := pos.ko } pt) :=
    put_stone_Inv _ pt hI0 hpt hdot0
  obtain ⟨hclI, hclpos, hcl0, hcl1, hclint, hcln, hclko, hclko2, hcll1, hcll2,
      hcll3, hclkomi, hclcap, hclcapX⟩ :=
    captureLoop_spec (put_stone { pos with ko_old := pos.ko } pt) pt hI1
  have hput_n := put_stone_n { pos with ko_old := pos.ko } pt
  have hput_last := put_stone_last { pos with ko_old := pos.ko } pt
  have hput_caps := put_stone_caps { pos with ko_old := pos.ko } pt
  have hput_ko2 := put_stone_ko_old { pos with ko_old := pos.ko } pt
  by_cases hko : pt = pos.ko
  · rw [play_move_eq_ko pos pt pc hko] at hok
    dsimp only at hok
    exact absurd hok (by decide)
  · have hEQ2 := play_move_eq_else pos pt pc hko
    obtain ⟨PS, hPSe⟩ : ∃ x, put_stone { pos with ko_old := pos.ko } pt = x := ⟨_, rfl⟩
    rw [hPSe] at hI1 hput_n hput_last hput_caps hput_ko2 hEQ2
    rw [hPSe] at hclI hclpos hcl0 hcl1 hclint hcln hclko hclko2
    rw [hPSe] at hcll1 hcll2 hcll3 hclkomi hclcap hclcapX
    obtain ⟨CL, hCLe⟩ : ∃ x, captureLoop PS pt = x := ⟨_, rfl⟩
    rw [hCLe] at hEQ2 hclI hclpos hcl0 hcl1 hclint hcln hclko
    rw [hCLe] at hclko2 hcll1 hcll2 hcll3 hclkomi hclcap hclcapX
    by_cases hcap : 0 < CL.2.1
    · have hEQ3 : play_move pos pt pc = playFinish
          { CL.1 with
              ko := if CL.2.1 = 1 ∧ is_eyeish { pos with ko_old := pos.ko } pt ≠ Char.ofNat 0
                then CL.2.2 else 0 }
          pt CL.2.1 CL.2.2 := by
        rw [hEQ2, if_pos hcap]
      obtain ⟨hm, hc, hpc, hn, hkoF, hko2F, hl1, hl2, hl3, hcapF, hcapXF, hkomiF,
          he4F, he4dF, hcolF⟩ := playFinish_fields
        { CL.1 with
            ko := if CL.2.1 = 1 ∧ is_eyeish { pos with ko_old := pos.ko } pt ≠ Char.ofNat 0
              then CL.2.2 else 0 }
        pt CL.2.1 CL.2.2
      refine ⟨?_, ?_, ?_, ?_, ?_, ?_, ?_, ?_, ?_, ?_, ?_, ?_⟩
      · rw [hEQ3]
        exact playFinish_Inv _ _ _ _ (Inv_ko_set CL.1 _ hclI)
      · rw [hEQ3, hn]
        show CL.1.n + 1 = pos.n + 1
        rw [hcln, hput_n]
      · rw [hEQ3, hl1]
      · rw [hEQ3, hl2]
        show CL.1.last = pos.last
        rw [hcll1, hput_last.1]
      · rw [hEQ3, hl3]
        show CL.1.last2 = pos.last2
        rw [hcll2, hput_last.2.1]
      · rw [hEQ3, hko2F]
        show CL.1.ko_old = pos.ko
        rw [hclko2, hput_ko2]
      · rw [hEQ3, hkomiF]
        show CL.1.komi = pos.komi
        rw [hclkomi, hput_caps.2.2]
      · rw [hEQ3, hcapF, hc]
        show _ + CL.1.capX = _ + pos.capX
        rw [hclcapX, hput_caps.2.1]
      · rw [hEQ3, hcapXF]
        show CL.1.cap = pos.cap
        rw [hclcap, hput_caps.1]
      · rw [hEQ3, hc]
        exact hclpos
      · rw [hEQ3, hkoF, hc]
        show (if CL.2.1 = 1 ∧ is_eyeish { pos with ko_old := pos.ko } pt ≠ Char.ofNat 0
          then CL.2.2 else 0) ≠ 0 ↔ _
        constructor
        · intro hne
          by_cases hcond :
              CL.2.1 = 1 ∧ is_eyeish { pos with ko_old := pos.ko } pt ≠ Char.ofNat 0
          · exact hcond
          · rw [if_neg hcond] at hne
            exact absurd rfl hne
        · intro hcond
          rw [if_pos hcond]
          have hint := hclint hcap
          obtain ⟨h15, _, _⟩ := hint
          omega
      · rw [hEQ3, hc]
        intro h1
        obtain ⟨nn, ⟨k, hk, hnnk⟩, hnni, hnnx, _, _⟩ := hcl1 h1
        refine ⟨k, ?_, ?_⟩
        · have hk4 : k = 0 ∨ k = 1 ∨ k = 2 ∨ k = 3 := by
            simpa using hk
          omega
        · rw [← hnnk]
          have hne : nn ≠ pt := by
            intro he
            rw [he] at hnnx
            rw [← hPSe, put_stone_color, Function.update_same] at hnnx
            exact absurd hnnx (by decide)
          rw [← hPSe, put_stone_color, Function.update_noteq hne] at hnnx
          exact hnnx
    · have hc0 : CL.2.1 = 0 := by
        have := hclpos
        omega
      obtain ⟨hcleq, hclpc⟩ := hcl0 hc0
      by_cases hsui : (compute_block { CL.1 with ko := 0 } pt 1).2.length = 0
      · have hEQ3 : (play_move pos pt pc).msg = "Error Illegal move: suicide" := by
          rw [hEQ2, if_neg hcap, if_pos hsui]
        rw [hEQ3] at hok
        exact absurd hok (by decide)
      · have hEQ3 : play_move pos pt pc
            = playFinish { CL.1 with ko := 0 } pt CL.2.1 CL.2.2 := by
          rw [hEQ2, if_neg hcap, if_neg hsui]
        obtain ⟨hm, hc, hpc, hn, hkoF, hko2F, hl1, hl2, hl3, hcapF, hcapXF, hkomiF,
            he4F, he4dF, hcolF⟩ := playFinish_fields
          { CL.1 with ko := 0 } pt CL.2.1 CL.2.2
        have hI3 : Inv { CL.1 with ko := 0 } := hclI
        refine ⟨?_, ?_, ?_, ?_, ?_, ?_, ?_, ?_, ?_, ?_, ?_, ?_⟩
        · rw [hEQ3]
          exact playFinish_Inv _ _ _ _ hI3
        · rw [hEQ3, hn]
          show CL.1.n + 1 = pos.n + 1
          rw [hcln, hput_n]
        · rw [hEQ3, hl1]
        · rw [hEQ3, hl2]
          show CL.1.last = pos.last
          rw [hcll1, hput_last.1]
        · rw [hEQ3, hl3]
          show CL.1.last2 = pos.last2
          rw [hcll2, hput_last.2.1]
        · rw [hEQ3, hko2F]
          show CL.1.ko_old = pos.ko
          rw [hclko2, hput_ko2]
        · rw [hEQ3, hkomiF]
          show CL.1.komi = pos.komi
          rw [hclkomi, hput_caps.2.2]
        · rw [hEQ3, hcapF, hc]
          show _ + CL.1.capX = _ + pos.capX
          rw [hclcapX, hput_caps.2.1]
        · rw [hEQ3, hcapXF]
          show CL.1.cap = pos.cap
          rw [hclcap, hput_caps.1]
        · rw [hEQ3, hc]
          exact hclpos
        · rw [hEQ3, hkoF, hc, hc0]
          constructor
          · intro h
            exact absurd rfl h
          · rintro ⟨h1, _⟩
            exact absurd h1 (by omega)
        · rw [hEQ3, hc, hc0]
          intro h
          exact absurd h (by omega)

/-! ## The empty position satisfies the invariant -/

theorem computeEnv4F_congr (c1 c2 : Int → Char) (nn : Int) (q : Int) (off : Nat)
    (h : ∀ r, c1 r = c2 r) :
    computeEnv4F c1 nn q off = computeEnv4F c2 nn q off := by
  rw [computeEnv4F_eq_mk, computeEnv4F_eq_mk, h, h, h, h]

theorem emptyPos_color (q : Int) : emptyPos.color q = emptyColor q := by
  show (if 0 ≤ q ∧ q < 211 then
      (if 15 ≤ q ∧ q ≤ 195 ∧ q % 14 ≠ 0 then '.' else ' ')
    else initPos.color q) = emptyColor q
  unfold emptyColor
  split_ifs with h1 h2
  · rfl
  · rfl
  · show emptyColor q = ' '
    unfold emptyColor
    rw [if_neg h1]

theorem emptyPos_env4 (q : Int) :
    emptyPos.env4 q = computeEnv4F emptyColor 0 q 0 := by
  show (if 14 ≤ q ∧ q < 197 ∧ emptyPos.color q ≠ ' '
      then computeEnv4F emptyPos.color 0 q 0
      else computeEnv4F emptyColor 0 q 0)
    = computeEnv4F emptyColor 0 q 0
  split_ifs with h
  · exact computeEnv4F_congr _ _ _ _ _ emptyPos_color
  · rfl

theorem emptyPos_env4d (q : Int) :
    emptyPos.env4d q = computeEnv4F emptyColor 0 q 4 := by
  show (if 14 ≤ q ∧ q < 197 ∧ emptyPos.color q ≠ ' '
      then computeEnv4F emptyPos.color 0 q 4
      else computeEnv4F emptyColor 0 q 4)
    = computeEnv4F emptyColor 0 q 4
  split_ifs with h
  · exact computeEnv4F_congr _ _ _ _ _ emptyPos_color
  · rfl

/-- The initial position of a game is well formed and cache-consistent. -/
theorem Inv_emptyPos : Inv emptyPos := by
  constructor
  · constructor
    · intro q hni
      rw [emptyPos_color]
      unfold interiorP at hni
      unfold emptyColor
      by_cases h1 : (0:Int) ≤ q ∧ q < 211
      · rw [if_pos h1, if_neg hni]
      · rw [if_neg h1]
    · intro q hin
      rw [emptyPos_color]
      obtain ⟨h1, h2, h3⟩ := hin
      unfold emptyColor
      rw [if_pos (show (0:Int) ≤ q ∧ q < 211 by omega), if_pos ⟨h1, h2, h3⟩]
      exact Or.inl rfl
  · intro q h0 h1
    have hn : emptyPos.n = 0 := rfl
    refine ⟨?_, ?_⟩
    · rw [emptyPos_env4, compute_env4_def, hn]
      exact computeEnv4F_congr emptyColor emptyPos.color 0 q 0
        (fun r => (emptyPos_color r).symm)
    · rw [emptyPos_env4d, compute_env4_def, hn]
      exact computeEnv4F_congr emptyColor emptyPos.color 0 q 4
        (fun r => (emptyPos_color r).symm)

/-! ## Frame facts for the caches and cache determinacy -/

theorem put_stone_env4_frame (pos : Position) (pt q : Int)
    (h1 : q ≠ pt + 14) (h2 : q ≠ pt - 1) (h3 : q ≠ pt - 14) (h4 : q ≠ pt + 1)
    (h5 : q ≠ pt + 13) (h6 : q ≠ pt - 15) (h7 : q ≠ pt - 13) (h8 : q ≠ pt + 15) :
    (put_stone pos pt).env4 q = pos.env4 q
    ∧ (put_stone pos pt).env4d q = pos.env4d q := by
  unfold put_stone
  split_ifs with hpar
  · constructor
    · show (if q = pt + 14 then pos.env4 q ^^^ 0x11
        else if q = pt - 1 then pos.env4 q ^^^ 0x22
        else if q = pt - 14 then pos.env4 q ^^^ 0x44
        else if q = pt + 1 then pos.env4 q ^^^ 0x88
        else pos.env4 q) = pos.env4 q
      rw [if_neg h1, if_neg h2, if_neg h3, if_neg h4]
    · show (if q = pt + 13 then pos.env4d q ^^^ 0x11
        else if q = pt - 15 then pos.env4d q ^^^ 0x22
        else if q = pt - 13 then pos.env4d q ^^^ 0x44
        else if q = pt + 15 then pos.env4d q ^^^ 0x88
        else pos.env4d q) = pos.env4d q
      rw [if_neg h5, if_neg h6, if_neg h7, if_neg h8]
  · constructor
    · show (if q = pt + 14 then pos.env4 q &&& 0xEE
        else if q = pt - 1 then pos.env4 q &&& 0xDD
        else if q = pt - 14 then pos.env4 q &&& 0xBB
        else if q = pt + 1 then pos.env4 q &&& 0x77
        else pos.env4 q) = pos.env4 q
      rw [if_neg h1, if_neg h2, if_neg h3, if_neg h4]
    · show (if q = pt + 13 then pos.env4d q &&& 0xEE
        else if q = pt - 15 then pos.env4d q &&& 0xDD
        else if q = pt - 13 then pos.env4d q &&& 0xBB
        else if q = pt + 15 then pos.env4d q &&& 0x77
        else pos.env4d q) = pos.env4d q
      rw [if_neg h5, if_neg h6, if_neg h7, if_neg h8]

theorem remove_stone_env4_frame (pos : Position) (pt q : Int)
    (h1 : q ≠ pt + 14) (h2 : q ≠ pt - 1) (h3 : q ≠ pt - 14) (h4 : q ≠ pt + 1)
    (h5 : q ≠ pt + 13) (h6 : q ≠ pt - 15) (h7 : q ≠ pt - 13) (h8 : q ≠ pt + 15) :
    (remove_stone pos pt).env4 q = pos.env4 q
    ∧ (remove_stone pos pt).env4d q = pos.env4d q := by
  unfold remove_stone
  split_ifs with hpar
  · constructor
    · show (if q = pt + 14 then pos.env4 q ||| 0x10
        else if q = pt - 1 then pos.env4 q ||| 0x20
        else if q = pt - 14 then pos.env4 q ||| 0x40
        else if q = pt + 1 then pos.env4 q ||| 0x80
        else pos.env4 q) = pos.env4 q
      rw [if_neg h1, if_neg h2, if_neg h3, if_neg h4]
    · show (if q = pt + 13 then pos.env4d q ||| 0x10
        else if q = pt - 15 then pos.env4d q ||| 0x20
        else if q = pt - 13 then pos.env4d q ||| 0x40
        else if q = pt + 15 then pos.env4d q ||| 0x80
        else pos.env4d q) = pos.env4d q
      rw [if_neg h5, if_neg h6, if_neg h7, if_neg h8]
  · constructor
    · show (if q = pt + 14 then pos.env4 q ^^^ 0x11
        else if q = pt - 1 then pos.env4 q ^^^ 0x22
        else if q = pt - 14 then pos.env4 q ^^^ 0x44
        else if q = pt + 1 then pos.env4 q ^^^ 0x88
        else pos.env4 q) = pos.env4 q
      rw [if_neg h1, if_neg h2, if_neg h3, if_neg h4]
    · show (if q = pt + 13 then pos.env4d q ^^^ 0x11
        else if q = pt - 15 then pos.env4d q ^^^ 0x22
        else if q = pt - 13 then pos.env4d q ^^^ 0x44
        else if q = pt + 15 then pos.env4d q ^^^ 0x88
        else pos.env4d q) = pos.env4d q
      rw [if_neg h5, if_neg h6, if_neg h7, if_neg h8]

/-- Two cache-consistent positions with the same colors and move counter
hold the same cache bytes on every board cell. -/
theorem ExtInv_determines (p1 p2 : Position)
    (h1 : ExtInv p1) (h2 : ExtInv p2)
    (hc : ∀ q, p1.color q = p2.color q) (hn : p1.n = p2.n) :
    ∀ q : Int, 0 ≤ q → q < 211 →
      p1.env4 q = p2.env4 q ∧ p1.env4d q = p2.env4d q := by
  intro q h0 h211
  obtain ⟨a1, b1⟩ := h1 q h0 h211
  obtain ⟨a2, b2⟩ := h2 q h0 h211
  rw [a1, a2, b1, b2, compute_env4_def, compute_env4_def,
    compute_env4_def, compute_env4_def, hn]
  exact ⟨computeEnv4F_congr _ _ _ _ _ hc, computeEnv4F_congr _ _ _ _ _ hc⟩

theorem swapCase_invol (c : Char) (h : c = ' ' ∨ c = '.' ∨ c = 'X' ∨ c = 'x') :
    swapCase (swapCase c) = c := by
  rcases h with h | h | h | h <;> subst h <;> decide

/-! ## Legal sequences preserve the invariant -/

theorem stepPos_Inv (p p' : Position) (a : Action)
    (h : Inv p) (hs : stepPos p a = some p') : Inv p' := by
  cases a with
  | pass =>
    simp only [stepPos] at hs
    rw [← Option.some.inj hs]
    exact pass_move_Inv p h
  | play pt =>
    simp only [stepPos] at hs
    by_cases hcond : p.color pt = '.' ∧ (play_move p pt 0).msg = ""
    · rw [if_pos hcond] at hs
      rw [← Option.some.inj hs]
      exact (play_move_success_spec p pt 0 h hcond.1 hcond.2).1
    · rw [if_neg hcond] at hs
      exact absurd hs (by simp)

theorem runSeq_Inv : ∀ (acts : List Action) (p pos : Position),
    Inv p → runSeq p acts = some pos → Inv pos := by
  intro acts
  induction acts with
  | nil =>
    intro p pos h hr
    simp only [runSeq] at hr
    rw [← Option.some.inj hr]
    exact h
  | cons a as ih =>
    intro p pos h hr
    simp only [runSeq] at hr
    cases hstep : stepPos p a with
    | none => rw [hstep] at hr; exact absurd hr (by simp)
    | some p1 =>
      rw [hstep] at hr
      exact ih p1 pos (stepPos_Inv p p1 a h hstep) hr

theorem runSeq_append (l1 l2 : List Action) : ∀ p : Position,
    runSeq p (l1 ++ l2) = (runSeq p l1).bind (fun q => runSeq q l2) := by
  induction l1 with
  | nil => intro p; rfl
  | cons a as ih =>
    intro p
    simp only [List.cons_append, runSeq]
    cases stepPos p a with
    | none => rfl
    | some q => exact ih q

/-- C5 (confirmed): after any legal sequence of `play_move`/`pass_move`
calls from `empty_position`, the cached `env4`/`env4d` bytes agree with
`compute_env4` recomputed from scratch at every non-OUT point. -/
theorem env4_cache_invariant (acts : List Action) (pos : Position)
    (h : runSeq emptyPos acts = some pos) :
    ∀ q : Int, 0 ≤ q → q < 211 → pos.color q ≠ ' ' →
      pos.env4 q = compute_env4 pos q 0 ∧ pos.env4d q = compute_env4 pos q 4 := by
  intro q h0 h1 _
  exact (runSeq_Inv acts emptyPos pos Inv_emptyPos h).2 q h0 h1

/-- The position after the single opening move C11 (point 45). -/
def c5Pos : Position :=
  (runSeq emptyPos [Action.play 45]).getD emptyPos

theorem env4_cache_invariant_witness :
    (runSeq emptyPos [Action.play 45] = some c5Pos)
    ∧ (0:Int) ≤ 59 ∧ (59:Int) < 211 ∧ c5Pos.color 59 ≠ ' '
    ∧ (c5Pos.env4 59 = compute_env4 c5Pos 59 0
        ∧ c5Pos.env4d 59 = compute_env4 c5Pos 59 4) :=
  ⟨rfl, by decide, by decide, by decide,
    env4_cache_invariant [Action.play 45] c5Pos rfl 59 (by decide) (by decide)
      (by decide)⟩

/-! ## C7: the capture counters total the stones ever captured -/

theorem runSeqCap_sum : ∀ (acts : List Action) (p : Position) (t : Int)
    (res : Position × Int),
    Inv p → runSeqCap p t acts = some res →
    Inv res.1 ∧ res.1.cap + res.1.capX + t = p.cap + p.capX + res.2 := by
  intro acts
  induction acts with
  | nil =>
    intro p t res h hr
    simp only [runSeqCap] at hr
    rw [← Option.some.inj hr]
    exact ⟨h, rfl⟩
  | cons a as ih =>
    intro p t res h hr
    cases a with
    | pass =>
      simp only [runSeqCap] at hr
      have hrec := ih (pass_move p) t res (pass_move_Inv p h) hr
      refine ⟨hrec.1, ?_⟩
      have h1 : (pass_move p).cap = p.capX := (pass_move_fields p).2.2.2.2.2.2.1
      have h2 : (pass_move p).capX = p.cap := (pass_move_fields p).2.2.2.2.2.2.2.1
      have h3 := hrec.2
      rw [h1, h2] at h3
      omega
    | play pt =>
      simp only [runSeqCap] at hr
      by_cases hcond : p.color pt = '.' ∧ (play_move p pt 0).msg = ""
      · rw [if_pos hcond] at hr
        have spec := play_move_success_spec p pt 0 h hcond.1 hcond.2
        have hrec := ih (play_move p pt 0).pos (t + (play_move p pt 0).captured) res
          spec.1 hr
        refine ⟨hrec.1, ?_⟩
        have hcap : (play_move p pt 0).pos.cap
            = (play_move p pt 0).captured + p.capX := spec.2.2.2.2.2.2.2.1
        have hcapX : (play_move p pt 0).pos.capX = p.cap := spec.2.2.2.2.2.2.2.2.1
        have h3 := hrec.2
        rw [hcap, hcapX] at h3
        omega
      · rw [if_neg hcond] at hr
        exact absurd hr (by simp)

/-- With the capture counters widened to unbounded integers, `cap + capX`
equals the total number of stones ever captured.  This is the idealized
statement only: the program stores the counters in 8-bit `char` fields,
whose faithful behaviour is `cap_counters_total_byte` and
`cap_counters_wrap_cex`. -/
theorem cap_counters_total (acts : List Action) (pos : Position) (tot : Int)
    (h : runSeqCap emptyPos 0 acts = some (pos, tot)) :
    pos.cap + pos.capX = tot := by
  have hs := (runSeqCap_sum acts emptyPos 0 (pos, tot) Inv_emptyPos h).2
  dsimp only at hs
  have h1 : emptyPos.cap = 0 := rfl
  have h2 : emptyPos.capX = 0 := rfl
  rw [h1, h2] at hs
  omega

/-- A short game in which Black surrounds and captures the White stone
played at E11 (point 45). -/
def c7Acts : List Action :=
  [Action.play 31, Action.play 45, Action.play 44, Action.play 100,
   Action.play 46, Action.play 101, Action.play 59]

def c7Res : Position × Int := (runSeqCap emptyPos 0 c7Acts).getD (emptyPos, 0)

theorem cap_counters_total_witness :
    (runSeqCap emptyPos 0 c7Acts = some (c7Res.1, c7Res.2))
    ∧ c7Res.1.cap + c7Res.1.capX = c7Res.2 :=
  ⟨rfl, cap_counters_total c7Acts c7Res.1 c7Res.2 rfl⟩

/-! ## C6: the ko point -/

theorem mem0123_of_lt (k : Nat) (hk : k < 4) : k ∈ [0, 1, 2, 3] := by
  have h : k = 0 ∨ k = 1 ∨ k = 2 ∨ k = 3 := by omega
  rcases h with h | h | h | h <;> subst h <;> decide

theorem lt_of_mem0123 (k : Nat) (hk : k ∈ [0, 1, 2, 3]) : k < 4 := by
  have h : k = 0 ∨ k = 1 ∨ k = 2 ∨ k = 3 := by simpa using hk
  omega

theorem eyeishLoop_congr (p1 p2 : Position) (pt : Int) (hc : p1.color = p2.color) :
    ∀ (ks : List Nat) (e : Char), eyeishLoop p1 pt ks e = eyeishLoop p2 pt ks e := by
  intro ks
  induction ks with
  | nil => intro e; rfl
  | cons k ks ih =>
    intro e
    simp only [eyeishLoop, hc, ih]

theorem is_eyeish_ko_old (p : Position) (k : Int) (pt : Int) :
    is_eyeish { p with ko_old := k } pt = is_eyeish p pt :=
  eyeishLoop_congr _ _ pt rfl [0, 1, 2, 3] (Char.ofNat 0)

/-- With at least one `'x'` orthogonal neighbor, `is_eyeish` is nonzero
exactly when every non-OUT orthogonal neighbor holds `'x'`. -/
theorem is_eyeish_iff_allx (p : Position) (pt : Int) (hw : wfColor p.color)
    (hx : ∃ k, k < 4 ∧ p.color (pt + delta k) = 'x') :
    (is_eyeish p pt ≠ Char.ofNat 0 ↔ eyeishAllX p pt) := by
  obtain ⟨k0, hk0, hk0x⟩ := hx
  have hk0mem : k0 ∈ [0, 1, 2, 3] := mem0123_of_lt k0 hk0
  constructor
  · intro hne
    have h := eyeishLoop_ne p pt hw [0, 1, 2, 3] (Char.ofNat 0) (Or.inl rfl) hne
    have hres : eyeishLoop p pt [0, 1, 2, 3] (Char.ofNat 0) = 'x' := by
      rcases h.1 k0 hk0mem with hsp | heq
      · exact absurd (hsp.symm.trans hk0x) (by decide)
      · exact heq.symm.trans hk0x
    intro k hk
    rcases h.1 k (mem0123_of_lt k hk) with hsp | heq
    · exact Or.inl hsp
    · exact Or.inr (heq.trans hres)
  · intro hall
    have h2 := eyeishLoop_allx p pt [0, 1, 2, 3] (Char.ofNat 0)
      (fun k hk => hall k (lt_of_mem0123 k hk)) (Or.inl rfl)
    have hres := h2.2 ⟨k0, hk0mem, hk0x⟩
    show eyeishLoop p pt [0, 1, 2, 3] (Char.ofNat 0) ≠ Char.ofNat 0
    rw [hres]
    decide

/-- C6 (confirmed): after a legal sequence from `empty_position`, `ko` is
nonzero exactly when the last action was a successful `play_move` that
captured exactly one stone out of an eyeish shape (every non-OUT neighbor
of the played point `'x'`); a `play_move` at the `ko` point is rejected. -/
theorem ko_nonzero_iff (acts : List Action) (pos : Position)
    (h : runSeq emptyPos acts = some pos) :
    (pos.ko ≠ 0 ↔
      ∃ pre pt p, acts = pre ++ [Action.play pt]
        ∧ runSeq emptyPos pre = some p
        ∧ p.color pt = '.'
        ∧ (play_move p pt 0).msg = ""
        ∧ (play_move p pt 0).captured = 1
        ∧ eyeishAllX p pt
        ∧ pos = (play_move p pt 0).pos)
    ∧ (pos.ko ≠ 0 → (play_move pos pos.ko 0).msg ≠ "") := by
  refine ⟨?_, fun _ => ?_⟩
  · rcases List.eq_nil_or_concat acts with hnil | ⟨pre, a, hcat⟩
    · subst hnil
      simp only [runSeq] at h
      have hpe : pos = emptyPos := (Option.some.inj h).symm
      constructor
      · intro hko
        exact absurd (show pos.ko = 0 by rw [hpe]; rfl) hko
      · rintro ⟨pre, pt, p, heq, -⟩
        exact absurd heq (by simp)
    · rw [List.concat_eq_append] at hcat
      rw [hcat, runSeq_append] at h
      cases hpre : runSeq emptyPos pre with
      | none => rw [hpre] at h; exact absurd h (by simp)
      | some p =>
        rw [hpre] at h
        cases a with
        | pass =>
          replace h : some (pass_move p) = some pos := h
          have hpos : pos = pass_move p := (Option.some.inj h).symm
          have hko0 : pos.ko = 0 := by rw [hpos]; exact (pass_move_fields p).2.1
          constructor
          · intro hko
            exact absurd hko0 hko
          · rintro ⟨pre1, pt1, p1, heq, -⟩
            rw [hcat] at heq
            obtain ⟨-, htail⟩ := List.append_inj' heq rfl
            simp at htail
        | play pt =>
          by_cases hcond : p.color pt = '.' ∧ (play_move p pt 0).msg = ""
          · have hstep : stepPos p (Action.play pt) = some (play_move p pt 0).pos := by
              simp only [stepPos]
              rw [if_pos hcond]
            replace h : runSeq p [Action.play pt] = some pos := h
            simp only [runSeq] at h
            rw [hstep] at h
            replace h : some (play_move p pt 0).pos = some pos := h
            have hpos : pos = (play_move p pt 0).pos := (Option.some.inj h).symm
            have hIp : Inv p := runSeq_Inv pre emptyPos p Inv_emptyPos hpre
            have spec := play_move_success_spec p pt 0 hIp hcond.1 hcond.2
            have hko_iff := spec.2.2.2.2.2.2.2.2.2.2.1
            have hcx := spec.2.2.2.2.2.2.2.2.2.2.2
            constructor
            · intro hko
              rw [hpos] at hko
              obtain ⟨hone, heye⟩ := hko_iff.mp hko
              have hxnb : ∃ k, k < 4 ∧ p.color (pt + delta k) = 'x' := hcx hone
              have heye' : is_eyeish p pt ≠ Char.ofNat 0 := by
                rw [← is_eyeish_ko_old p p.ko pt]
                exact heye
              have hall := (is_eyeish_iff_allx p pt hIp.1 hxnb).mp heye'
              exact ⟨pre, pt, p, hcat, hpre, hcond.1, hcond.2, hone, hall, hpos⟩
            · rintro ⟨pre1, pt1, p1, heq, hpre1, hdot1, hok1, hone1, hall1, hpos1⟩
              rw [hcat] at heq
              obtain ⟨hpp, htail⟩ := List.append_inj' heq rfl
              have hptpt : pt = pt1 := by
                simpa using htail
              subst hpp
              subst hptpt
              have hp1 : p = p1 := Option.some.inj (hpre.symm.trans hpre1)
              subst hp1
              rw [hpos]
              apply hko_iff.mpr
              refine ⟨hone1, ?_⟩
              rw [is_eyeish_ko_old]
              exact (is_eyeish_iff_allx p pt hIp.1 (hcx hone1)).mpr hall1
          · have hstep : stepPos p (Action.play pt) = none := by
              simp only [stepPos]
              rw [if_neg hcond]
            replace h : runSeq p [Action.play pt] = some pos := h
            simp only [runSeq] at h
            rw [hstep] at h
            exact absurd h (by simp)
  · rw [play_move_eq_ko pos pos.ko 0 rfl]
    show ("Error Illegal move: retakes ko" : String) ≠ ""
    decide

/-- A game that creates a ko: Black recaptures at G6 (point 106) taking
the White stone at G7 (point 105), so `ko` becomes 105. -/
def c6Acts : List Action :=
  [Action.play 91, Action.play 105, Action.play 104, Action.play 92,
   Action.play 119, Action.play 107, Action.play 45, Action.play 120,
   Action.play 106]

def c6Pos : Position := (runSeq emptyPos c6Acts).getD emptyPos

theorem ko_nonzero_iff_witness :
    (runSeq emptyPos c6Acts = some c6Pos)
    ∧ (play_move c6Pos c6Pos.ko 0).msg ≠ "" :=
  ⟨rfl, (ko_nonzero_iff c6Acts c6Pos rfl).2 (by decide)⟩

/-! ## C1: the error behaviour of `play_move` -/

/-- C1 (amended): under the spec's own pre-condition `color[pt] == '.'`,
`play_move` fails exactly on a ko retake or a suicide; the error string
starts with `"Error"` and the position is left unchanged except for
`ko_old`, which always receives the entry value of `ko`.  (There is no
occupied-point check: see `play_move_occupied_no_error`.) -/
theorem play_move_error_spec (pos : Position) (pt : Int) (pc : Int)
    (hI : Inv pos) (hdot : pos.color pt = '.') :
    ((play_move pos pt pc).msg ≠ "" ↔ (pt = pos.ko ∨ suicideAt pos pt))
    ∧ ((play_move pos pt pc).msg ≠ "" →
        (∃ t, (play_move pos pt pc).msg = "Error" ++ t)
        ∧ (play_move pos pt pc).pos = { pos with ko_old := pos.ko }) := by
  by_cases hko : pt = pos.ko
  · rw [play_move_eq_ko pos pt pc hko]
    have hmsg : ("Error Illegal move: retakes ko" : String) ≠ "" := by decide
    exact ⟨⟨fun _ => Or.inl hko, fun _ => hmsg⟩,
      fun _ => ⟨⟨" Illegal move: retakes ko", rfl⟩, rfl⟩⟩
  · have hpt : interiorP pt := interior_of_dot pos pt hI.1 hdot
    have hI0 : Inv { pos with ko_old := pos.ko } := hI
    have hdot0 : ({ pos with ko_old := pos.ko } : Position).color pt = '.' := hdot
    have hI1 : Inv (put_stone { pos with ko_old := pos.ko } pt) :=
      put_stone_Inv _ pt hI0 hpt hdot0
    obtain ⟨hclI, hclpos, hcl0, hcl1, hclint, hcln, hclko, hclko2, hcll1, hcll2,
        hcll3, hclkomi, hclcap, hclcapX⟩ :=
      captureLoop_spec (put_stone { pos with ko_old := pos.ko } pt) pt hI1
    have hEQ2 := play_move_eq_else pos pt pc hko
    have hsuiEq : suicideAt pos pt ↔
        (¬ 0 < (captureLoop (put_stone { pos with ko_old := pos.ko } pt) pt).2.1
          ∧ (compute_block
              { (captureLoop (put_stone { pos with ko_old := pos.ko } pt) pt).1
                with ko := 0 } pt 1).2.length = 0) := by
      simp only [suicideAt]
    obtain ⟨PS, hPSe⟩ : ∃ x, put_stone { pos with ko_old := pos.ko } pt = x := ⟨_, rfl⟩
    rw [hPSe] at hI1 hEQ2 hsuiEq
    rw [hPSe] at hclI hclpos hcl0 hcl1 hclint hcln hclko hclko2
    rw [hPSe] at hcll1 hcll2 hcll3 hclkomi hclcap hclcapX
    obtain ⟨CL, hCLe⟩ : ∃ x, captureLoop PS pt = x := ⟨_, rfl⟩
    rw [hCLe] at hEQ2 hsuiEq hclI hclpos hcl0 hcl1 hclint hcln hclko
    rw [hCLe] at hclko2 hcll1 hcll2 hcll3 hclkomi hclcap hclcapX
    by_cases hcap : 0 < CL.2.1
    · have hEQ3 : play_move pos pt pc = playFinish
          { CL.1 with
              ko := if CL.2.1 = 1 ∧ is_eyeish { pos with ko_old := pos.ko } pt ≠ Char.ofNat 0
                then CL.2.2 else 0 }
          pt CL.2.1 CL.2.2 := by
        rw [hEQ2, if_pos hcap]
      have hmsg0 : (play_move pos pt pc).msg = "" := by
        rw [hEQ3]
        exact (playFinish_fields _ _ _ _).1
      refine ⟨⟨fun hne => absurd hmsg0 hne, fun hor => ?_⟩,
        fun hne => absurd hmsg0 hne⟩
      rcases hor with h | hs
      · exact absurd h hko
      · rw [hsuiEq] at hs
        exact absurd hcap hs.1
    · by_cases hsui : (compute_block { CL.1 with ko := 0 } pt 1).2.length = 0
      · have hEQ3 : play_move pos pt pc
            = ⟨"Error Illegal move: suicide",
               remove_X_stone { CL.1 with ko := CL.1.ko_old } pt, 0, CL.2.2⟩ := by
          rw [hEQ2, if_neg hcap, if_pos hsui]
        have hc0 : CL.2.1 = 0 := by
          have := hclpos
          omega
        obtain ⟨hcleq, hclpc⟩ := hcl0 hc0
        have hk1 : PS.ko = pos.ko := by
          rw [← hPSe]
          exact put_stone_ko _ pt
        have hk2 : PS.ko_old = pos.ko := by
          rw [← hPSe]
          exact put_stone_ko_old _ pt
        have hrec : ({ CL.1 with ko := CL.1.ko_old } : Position) = PS := by
          rw [hcleq, hk2, ← hk1]
        have hposEq : (play_move pos pt pc).pos = { pos with ko_old := pos.ko } := by
          rw [hEQ3]
          show remove_X_stone { CL.1 with ko := CL.1.ko_old } pt = _
          rw [hrec, ← hPSe]
          exact put_remove_X_cancel { pos with ko_old := pos.ko } pt hI0 hpt hdot0
        have hmsgE : (play_move pos pt pc).msg = "Error Illegal move: suicide" := by
          rw [hEQ3]
        have hne : (play_move pos pt pc).msg ≠ "" := by
          rw [hmsgE]
          decide
        refine ⟨⟨fun _ => Or.inr ?_, fun _ => hne⟩,
          fun _ => ⟨⟨" Illegal move: suicide", ?_⟩, hposEq⟩⟩
        · rw [hsuiEq]
          exact ⟨hcap, hsui⟩
        · rw [hmsgE]
          decide
      · have hEQ3 : play_move pos pt pc
            = playFinish { CL.1 with ko := 0 } pt CL.2.1 CL.2.2 := by
          rw [hEQ2, if_neg hcap, if_neg hsui]
        have hmsg0 : (play_move pos pt pc).msg = "" := by
          rw [hEQ3]
          exact (playFinish_fields _ _ _ _).1
        refine ⟨⟨fun hne => absurd hmsg0 hne, fun hor => ?_⟩,
          fun hne => absurd hmsg0 hne⟩
        rcases hor with h | hs
        · exact absurd h hko
        · rw [hsuiEq] at hs
          exact absurd hs.2 hsui

theorem play_move_error_spec_witness :
    Inv emptyPos ∧ emptyPos.color 105 = '.'
    ∧ ((play_move emptyPos 105 0).msg ≠ "" ↔ (105 = emptyPos.ko ∨ suicideAt emptyPos 105)) :=
  ⟨Inv_emptyPos, by decide,
    (play_move_error_spec emptyPos 105 0 Inv_emptyPos (by decide)).1⟩

/-! ## C2: play followed by undo -/

theorem undo_move_eq_nocap (pos : Position) :
    undo_move pos 0 =
      swap_color
        { remove_stone pos pos.last with
            last := (remove_stone pos pos.last).last2,
            last2 := (remove_stone pos pos.last).last3,
            ko := (remove_stone pos pos.last).ko_old,
            n := (remove_stone pos pos.last).n - 1,
            cap := (remove_stone pos pos.last).capX,
            capX := (remove_stone pos pos.last).cap } := by
  rw [undo_move]
  rw [if_neg (show ¬ (0 : Int) ≠ 0 from fun hh => hh rfl)]

theorem undo_move_eq_cap (pos : Position) (pc : Int) (h : pc ≠ 0) :
    undo_move pos pc =
      swap_color
        { put_stone
            { remove_stone pos pos.last with
                last := (remove_stone pos pos.last).last2,
                last2 := (remove_stone pos pos.last).last3,
                ko := (remove_stone pos pos.last).ko_old } pc with
            n := (put_stone
              { remove_stone pos pos.last with
                  last := (remove_stone pos pos.last).last2,
                  last2 := (remove_stone pos pos.last).last3,
                  ko := (remove_stone pos pos.last).ko_old } pc).n - 1,
            cap := (put_stone
              { remove_stone pos pos.last with
                  last := (remove_stone pos pos.last).last2,
                  last2 := (remove_stone pos pos.last).last3,
                  ko := (remove_stone pos pos.last).ko_old } pc).capX,
            capX := (put_stone
              { remove_stone pos pos.last with
                  last := (remove_stone pos pos.last).last2,
                  last2 := (remove_stone pos pos.last).last3,
                  ko := (remove_stone pos pos.last).ko_old } pc).cap - 1 } := by
  rw [undo_move]
  rw [if_pos h]

theorem env4_frame_out (p0 : Position) (c : Int) (hc : interiorP c) (q : Int)
    (hq : ¬ (0 ≤ q ∧ q < 211)) :
    ((put_stone p0 c).env4 q = p0.env4 q ∧ (put_stone p0 c).env4d q = p0.env4d q)
    ∧ ((remove_stone p0 c).env4 q = p0.env4 q
        ∧ (remove_stone p0 c).env4d q = p0.env4d q) := by
  obtain ⟨a, b, hcc⟩ := hc
  exact ⟨put_stone_env4_frame p0 c q (by omega) (by omega) (by omega) (by omega)
      (by omega) (by omega) (by omega) (by omega),
    remove_stone_env4_frame p0 c q (by omega) (by omega) (by omega) (by omega)
      (by omega) (by omega) (by omega) (by omega)⟩

/-- C2 (amended): a successful `play_move` capturing at most one stone
followed by `undo_move` restores every field of the position except
`last3` (which receives the old `last2`) and `ko_old` (which receives the
old `ko`).  (The byte-for-byte claim fails on those two fields: see
`play_undo_not_byte_for_byte`.) -/
theorem play_undo_restores (p : Position) (pt : Int)
    (hI : Inv p) (hdot : p.color pt = '.')
    (hok : (play_move p pt 0).msg = "")
    (hc1 : (play_move p pt 0).captured ≤ 1) :
    undo_move (play_move p pt 0).pos (play_move p pt 0).posCapture
      = { p with last3 := p.last2, ko_old := p.ko } := by
  have hpt : interiorP pt := interior_of_dot p pt hI.1 hdot
  have h14 : 14 ≤ pt ∧ pt < 197 := by
    obtain ⟨a, b, c⟩ := hpt
    constructor <;> omega
  have hI0 : Inv { p with ko_old := p.ko } := hI
  have hdot0 : ({ p with ko_old := p.ko } : Position).color pt = '.' := hdot
  have hI1 : Inv (put_stone { p with ko_old := p.ko } pt) :=
    put_stone_Inv _ pt hI0 hpt hdot0
  obtain ⟨hclI, hclpos, hcl0, hcl1, hclint, hcln, hclko, hclko2, hcll1, hcll2,
      hcll3, hclkomi, hclcap, hclcapX⟩ :=
    captureLoop_spec (put_stone { p with ko_old := p.ko } pt) pt hI1
  have hchars : ∀ q, p.color q = ' ' ∨ p.color q = '.' ∨ p.color q = 'X'
      ∨ p.color q = 'x' := by
    intro q
    by_cases hint : interiorP q
    · rcases hI.1.2 q hint with h | h | h
      · exact Or.inr (Or.inl h)
      · exact Or.inr (Or.inr (Or.inl h))
      · exact Or.inr (Or.inr (Or.inr h))
    · exact Or.inl (hI.1.1 q hint)
  by_cases hko : pt = p.ko
  · rw [play_move_eq_ko p pt 0 hko] at hok
    dsimp only at hok
    exact absurd hok (by decide)
  · have hEQ2 := play_move_eq_else p pt 0 hko
    obtain ⟨PS, hPSe⟩ : ∃ x, put_stone { p with ko_old := p.ko } pt = x := ⟨_, rfl⟩
    rw [hPSe] at hI1 hEQ2
    rw [hPSe] at hclI hclpos hcl0 hcl1 hclint hcln hclko hclko2
    rw [hPSe] at hcll1 hcll2 hcll3 hclkomi hclcap hclcapX
    obtain ⟨CL, hCLe⟩ : ∃ x, captureLoop PS pt = x := ⟨_, rfl⟩
    rw [hCLe] at hEQ2 hclI hclpos hcl0 hcl1 hclint hcln hclko
    rw [hCLe] at hclko2 hcll1 hcll2 hcll3 hclkomi hclcap hclcapX
    have hPSn : PS.n = p.n := by
      rw [← hPSe]
      exact put_stone_n _ pt
    have hPSko : PS.ko = p.ko := by
      rw [← hPSe]
      exact put_stone_ko _ pt
    have hPSko2 : PS.ko_old = p.ko := by
      rw [← hPSe]
      exact put_stone_ko_old _ pt
    have hPSl : PS.last = p.last ∧ PS.last2 = p.last2 ∧ PS.last3 = p.last3 := by
      rw [← hPSe]
      exact put_stone_last _ pt
    have hPSc : PS.cap = p.cap ∧ PS.capX = p.capX ∧ PS.komi = p.komi := by
      rw [← hPSe]
      exact put_stone_caps _ pt
    have hPScol : PS.color = Function.update p.color pt 'X' := by
      rw [← hPSe]
      exact put_stone_color _ pt
    by_cases hcap : 0 < CL.2.1
    · have hEQ3 : play_move p pt 0 = playFinish
          { CL.1 with
              ko := if CL.2.1 = 1 ∧ is_eyeish { p with ko_old := p.ko } pt ≠ Char.ofNat 0
                then CL.2.2 else 0 }
          pt CL.2.1 CL.2.2 := by
        rw [hEQ2, if_pos hcap]
      obtain ⟨hm, hcc, hpcv, hn, hkoF, hko2F, hl1, hl2, hl3, hcapF, hcapXF, hkomiF,
          he4F, he4dF, hcolF⟩ := playFinish_fields
        { CL.1 with
            ko := if CL.2.1 = 1 ∧ is_eyeish { p with ko_old := p.ko } pt ≠ Char.ofNat 0
              then CL.2.2 else 0 }
        pt CL.2.1 CL.2.2
      have hcapt1 : (play_move p pt 0).captured = CL.2.1 := by
        rw [hEQ3]
        exact hcc
      have hone : CL.2.1 = 1 := by
        rw [hcapt1] at hc1
        omega
      obtain ⟨nn, hnnk, hnni, hnnx, hCL1eq, hCL22⟩ := hcl1 hone
      have h14nn : 14 ≤ nn ∧ nn < 197 := by
        obtain ⟨a, b, c⟩ := hnni
        constructor <;> omega
      have hnnpt : nn ≠ pt := by
        intro he
        have h2 := hnnx
        rw [he, hPScol, Function.update_same] at h2
        exact absurd h2 (by decide)
      have hpnnx : p.color nn = 'x' := by
        have h2 := hnnx
        rw [hPScol, Function.update_noteq hnnpt] at h2
        exact h2
      have hCL1col : CL.1.color = Function.update PS.color nn '.' := by
        rw [hCL1eq]
        exact remove_stone_color _ _
      have hIR : Inv ({ CL.1 with
          ko := if CL.2.1 = 1 ∧ is_eyeish { p with ko_old := p.ko } pt ≠ Char.ofNat 0
            then CL.2.2 else 0 } : Position) := hclI
      have hIRP0 := playFinish_Inv
        { CL.1 with
            ko := if CL.2.1 = 1 ∧ is_eyeish { p with ko_old := p.ko } pt ≠ Char.ofNat 0
              then CL.2.2 else 0 }
        pt CL.2.1 CL.2.2 hIR
      obtain ⟨RP, hRPe⟩ : ∃ x, (playFinish
          { CL.1 with
              ko := if CL.2.1 = 1 ∧ is_eyeish { p with ko_old := p.ko } pt ≠ Char.ofNat 0
                then CL.2.2 else 0 }
          pt CL.2.1 CL.2.2).pos = x := ⟨_, rfl⟩
      rw [hRPe] at hn hkoF hko2F hl1 hl2 hl3 hcapF hcapXF hkomiF he4F he4dF hcolF hIRP0
      have hRn : RP.n = p.n + 1 := by
        rw [hn]
        show CL.1.n + 1 = p.n + 1
        rw [hcln, hPSn]
      have hRko2 : RP.ko_old = p.ko := by
        rw [hko2F]
        show CL.1.ko_old = p.ko
        rw [hclko2, hPSko2]
      have hRl1 : RP.last = pt := hl1
      have hRl2 : RP.last2 = p.last := by
        rw [hl2]
        show CL.1.last = p.last
        rw [hcll1, hPSl.1]
      have hRl3 : RP.last3 = p.last2 := by
        rw [hl3]
        show CL.1.last2 = p.last2
        rw [hcll2, hPSl.2.1]
      have hRcap : RP.cap = 1 + p.capX := by
        rw [hcapF]
        show CL.2.1 + CL.1.capX = 1 + p.capX
        rw [hone, hclcapX, hPSc.2.1]
      have hRcapX : RP.capX = p.cap := by
        rw [hcapXF]
        show CL.1.cap = p.cap
        rw [hclcap, hPSc.1]
      have hRkomi : RP.komi = p.komi := by
        rw [hkomiF]
        show CL.1.komi = p.komi
        rw [hclkomi, hPSc.2.2]
      have hRe4 : RP.env4 = CL.1.env4 := he4F
      have hRe4d : RP.env4d = CL.1.env4d := he4dF
      have hRcol : RP.color = (fun q =>
          if 14 ≤ q ∧ q < 197 then swapCase (CL.1.color q) else CL.1.color q) := hcolF
      rw [hEQ3, hRPe, hpcv, hCL22]
      have hnn0 : nn ≠ 0 := by
        obtain ⟨a, b, c⟩ := hnni
        omega
      rw [undo_move_eq_cap RP nn hnn0, hRl1]
      obtain ⟨U1, hU1e⟩ : ∃ x, remove_stone RP pt = x := ⟨_, rfl⟩
      rw [hU1e]
      obtain ⟨P3, hP3e⟩ :
          ∃ x, ({ U1 with last := U1.last2, last2 := U1.last3, ko := U1.ko_old } : Position) = x :=
        ⟨_, rfl⟩
      rw [hP3e]
      obtain ⟨Q, hQe⟩ : ∃ x, put_stone P3 nn = x := ⟨_, rfl⟩
      rw [hQe]
      have hU1col : U1.color = Function.update RP.color pt '.' := by
        rw [← hU1e]
        exact remove_stone_color _ _
      have hU1n : U1.n = p.n + 1 := by
        rw [← hU1e, remove_stone_n]
        exact hRn
      have hU1ko2 : U1.ko_old = p.ko := by
        rw [← hU1e, (remove_stone_ko RP pt).2]
        exact hRko2
      have hU1l2 : U1.last2 = p.last := by
        rw [← hU1e, (remove_stone_last RP pt).2.1]
        exact hRl2
      have hU1l3 : U1.last3 = p.last2 := by
        rw [← hU1e, (remove_stone_last RP pt).2.2]
        exact hRl3
      have hU1cap : U1.cap = 1 + p.capX := by
        rw [← hU1e, (remove_stone_caps RP pt).1]
        exact hRcap
      have hU1capX : U1.capX = p.cap := by
        rw [← hU1e, (remove_stone_caps RP pt).2.1]
        exact hRcapX
      have hU1komi : U1.komi = p.komi := by
        rw [← hU1e, (remove_stone_caps RP pt).2.2]
        exact hRkomi
      have hP3col : P3.color = U1.color := by rw [← hP3e]
      have hP3env4 : P3.env4 = U1.env4 := by rw [← hP3e]
      have hP3env4d : P3.env4d = U1.env4d := by rw [← hP3e]
      have hP3n : P3.n = p.n + 1 := by
        rw [← hP3e]
        exact hU1n
      have hP3ko : P3.ko = p.ko := by
        rw [← hP3e]
        exact hU1ko2
      have hP3ko2 : P3.ko_old = p.ko := by
        rw [← hP3e]
        exact hU1ko2
      have hP3last : P3.last = p.last := by
        rw [← hP3e]
        exact hU1l2
      have hP3l2 : P3.last2 = p.last2 := by
        rw [← hP3e]
        exact hU1l3
      have hP3l3 : P3.last3 = p.last2 := by
        rw [← hP3e]
        exact hU1l3
      have hP3cap : P3.cap = 1 + p.capX := by
        rw [← hP3e]
        exact hU1cap
      have hP3capX : P3.capX = p.cap := by
        rw [← hP3e]
        exact hU1capX
      have hP3komi : P3.komi = p.komi := by
        rw [← hP3e]
        exact hU1komi
      have hQcol : Q.color = Function.update P3.color nn 'X' := by
        rw [← hQe]
        exact put_stone_color _ _
      have hQn : Q.n = p.n + 1 := by
        rw [← hQe, put_stone_n]
        exact hP3n
      have hQko : Q.ko = p.ko := by
        rw [← hQe, put_stone_ko]
        exact hP3ko
      have hQko2 : Q.ko_old = p.ko := by
        rw [← hQe, put_stone_ko_old]
        exact hP3ko2
      have hQlast : Q.last = p.last := by
        rw [← hQe, (put_stone_last P3 nn).1]
        exact hP3last
      have hQl2 : Q.last2 = p.last2 := by
        rw [← hQe, (put_stone_last P3 nn).2.1]
        exact hP3l2
      have hQl3 : Q.last3 = p.last2 := by
        rw [← hQe, (put_stone_last P3 nn).2.2]
        exact hP3l3
      have hQcap : Q.cap = 1 + p.capX := by
        rw [← hQe, (put_stone_caps P3 nn).1]
        exact hP3cap
      have hQcapX : Q.capX = p.cap := by
        rw [← hQe, (put_stone_caps P3 nn).2.1]
        exact hP3capX
      have hQkomi : Q.komi = p.komi := by
        rw [← hQe, (put_stone_caps P3 nn).2.2]
        exact hP3komi
      have hRPx : RP.color pt = 'x' := by
        rw [hRcol]
        show (if 14 ≤ pt ∧ pt < 197 then swapCase (CL.1.color pt) else CL.1.color pt) = 'x'
        rw [if_pos h14, hCL1col, Function.update_noteq (Ne.symm hnnpt), hPScol,
          Function.update_same]
        rfl
      have hIU1 : Inv U1 := by
        rw [← hU1e]
        exact remove_stone_Inv RP pt hIRP0 hpt hRPx
      have hIP3 : Inv P3 := by
        rw [← hP3e]
        exact hIU1
      have hP3dot : P3.color nn = '.' := by
        rw [hP3col, hU1col, Function.update_noteq hnnpt, hRcol]
        show (if 14 ≤ nn ∧ nn < 197 then swapCase (CL.1.color nn) else CL.1.color nn) = '.'
        rw [if_pos h14nn, hCL1col, Function.update_same]
        rfl
      have hIQ : Inv Q := by
        rw [← hQe]
        exact put_stone_Inv P3 nn hIP3 hnni hP3dot
      have hExF : ExtInv (swap_color
          { Q with n := Q.n - 1, cap := Q.capX, capX := Q.cap - 1 }) :=
        swap_color_parity_ExtInv Q
          (swap_color { Q with n := Q.n - 1, cap := Q.capX, capX := Q.cap - 1 })
          rfl rfl rfl
          (by
            show (Q.n - 1) % 2 = 0 ↔ ¬ Q.n % 2 = 0
            constructor <;> intro h <;> omega)
          hIQ.1 hIQ.2
      have hwFcol : wfColor (swap_color
          { Q with n := Q.n - 1, cap := Q.capX, capX := Q.cap - 1 }).color :=
        wfColor_swap Q.color hIQ.1
      have hIF : Inv (swap_color
          { Q with n := Q.n - 1, cap := Q.capX, capX := Q.cap - 1 }) := ⟨hwFcol, hExF⟩
      have hITar : Inv ({ p with last3 := p.last2, ko_old := p.ko } : Position) := hI
      have hcolEq : ∀ q, (swap_color
          { Q with n := Q.n - 1, cap := Q.capX, capX := Q.cap - 1 }).color q
            = p.color q := by
        intro q
        show (if 14 ≤ q ∧ q < 197 then swapCase (Q.color q) else Q.color q) = p.color q
        by_cases hq1 : q = nn
        · subst hq1
          rw [if_pos h14nn, hQcol, Function.update_same, hpnnx]
          decide
        · by_cases hq2 : q = pt
          · subst hq2
            rw [if_pos h14, hQcol, Function.update_noteq (Ne.symm hnnpt), hP3col,
              hU1col, Function.update_same, hdot]
            decide
          · have hcl1q : CL.1.color q = p.color q := by
              rw [hCL1col, Function.update_noteq hq1, hPScol, Function.update_noteq hq2]
            have hQq : Q.color q
                = if 14 ≤ q ∧ q < 197 then swapCase (p.color q) else p.color q := by
              rw [hQcol, Function.update_noteq hq1, hP3col, hU1col,
                Function.update_noteq hq2, hRcol]
              show (if 14 ≤ q ∧ q < 197 then swapCase (CL.1.color q) else CL.1.color q) = _
              rw [hcl1q]
            rw [hQq]
            by_cases hq3 : 14 ≤ q ∧ q < 197
            · rw [if_pos hq3, if_pos hq3]
              exact swapCase_invol _ (hchars q)
            · rw [if_neg hq3, if_neg hq3]
      have hFn : (swap_color
          { Q with n := Q.n - 1, cap := Q.capX, capX := Q.cap - 1 }).n = p.n := by
        show Q.n - 1 = p.n
        rw [hQn]
        omega
      have henv : ∀ q : Int,
          (swap_color { Q with n := Q.n - 1, cap := Q.capX, capX := Q.cap - 1 }).env4 q
            = p.env4 q
          ∧ (swap_color { Q with n := Q.n - 1, cap := Q.capX, capX := Q.cap - 1 }).env4d q
            = p.env4d q := by
        intro q
        by_cases hqb : 0 ≤ q ∧ q < 211
        · exact ExtInv_determines
            (swap_color { Q with n := Q.n - 1, cap := Q.capX, capX := Q.cap - 1 })
            { p with last3 := p.last2, ko_old := p.ko }
            hIF.2 hITar.2 (fun r => hcolEq r) hFn q hqb.1 hqb.2
        · have hfQ := (env4_frame_out P3 nn hnni q hqb).1
          have hfU1 := (env4_frame_out RP pt hpt q hqb).2
          have hfCL := (env4_frame_out PS nn hnni q hqb).2
          have hfPS := (env4_frame_out { p with ko_old := p.ko } pt hpt q hqb).1
          constructor
          · show Q.env4 q = p.env4 q
            rw [← hQe, hfQ.1, hP3env4, ← hU1e, hfU1.1, hRe4, hCL1eq, hfCL.1,
              ← hPSe, hfPS.1]
          · show Q.env4d q = p.env4d q
            rw [← hQe, hfQ.2, hP3env4d, ← hU1e, hfU1.2, hRe4d, hCL1eq, hfCL.2,
              ← hPSe, hfPS.2]
      apply Position.ext
      · funext q
        exact hcolEq q
      · funext q
        exact (henv q).1
      · funext q
        exact (henv q).2
      · exact hFn
      · show Q.ko = p.ko
        exact hQko
      · show Q.ko_old = p.ko
        exact hQko2
      · show Q.last = p.last
        exact hQlast
      · show Q.last2 = p.last2
        exact hQl2
      · show Q.last3 = p.last2
        exact hQl3
      · show Q.komi = p.komi
        exact hQkomi
      · show Q.capX = p.cap
        exact hQcapX
      · show Q.cap - 1 = p.capX
        rw [hQcap]
        omega
    · have hc0 : CL.2.1 = 0 := by
        have := hclpos
        omega
      obtain ⟨hcleq, hclpc⟩ := hcl0 hc0
      by_cases hsui : (compute_block { CL.1 with ko := 0 } pt 1).2.length = 0
      · have hmsgE : (play_move p pt 0).msg = "Error Illegal move: suicide" := by
          rw [hEQ2, if_neg hcap, if_pos hsui]
        rw [hmsgE] at hok
        exact absurd hok (by decide)
      · have hEQ3 : play_move p pt 0
            = playFinish { CL.1 with ko := 0 } pt CL.2.1 CL.2.2 := by
          rw [hEQ2, if_neg hcap, if_neg hsui]
        obtain ⟨hm, hcc, hpcv, hn, hkoF, hko2F, hl1, hl2, hl3, hcapF, hcapXF, hkomiF,
            he4F, he4dF, hcolF⟩ := playFinish_fields
          { CL.1 with ko := 0 } pt CL.2.1 CL.2.2
        have hIR : Inv ({ CL.1 with ko := 0 } : Position) := hclI
        have hIRP0 := playFinish_Inv { CL.1 with ko := 0 } pt CL.2.1 CL.2.2 hIR
        obtain ⟨RP, hRPe⟩ : ∃ x,
            (playFinish { CL.1 with ko := 0 } pt CL.2.1 CL.2.2).pos = x := ⟨_, rfl⟩
        rw [hRPe] at hn hkoF hko2F hl1 hl2 hl3 hcapF hcapXF hkomiF he4F he4dF hcolF hIRP0
        have hRn : RP.n = p.n + 1 := by
          rw [hn]
          show CL.1.n + 1 = p.n + 1
          rw [hcln, hPSn]
        have hRko2 : RP.ko_old = p.ko := by
          rw [hko2F]
          show CL.1.ko_old = p.ko
          rw [hclko2, hPSko2]
        have hRl1 : RP.last = pt := hl1
        have hRl2 : RP.last2 = p.last := by
          rw [hl2]
          show CL.1.last = p.last
          rw [hcll1, hPSl.1]
        have hRl3 : RP.last3 = p.last2 := by
          rw [hl3]
          show CL.1.last2 = p.last2
          rw [hcll2, hPSl.2.1]
        have hRcap : RP.cap = p.capX := by
          rw [hcapF]
          show CL.2.1 + CL.1.capX = p.capX
          rw [hc0, hclcapX, hPSc.2.1]
          omega
        have hRcapX : RP.capX = p.cap := by
          rw [hcapXF]
          show CL.1.cap = p.cap
          rw [hclcap, hPSc.1]
        have hRkomi : RP.komi = p.komi := by
          rw [hkomiF]
          show CL.1.komi = p.komi
          rw [hclkomi, hPSc.2.2]
        have hRe4 : RP.env4 = CL.1.env4 := he4F
        have hRe4d : RP.env4d = CL.1.env4d := he4dF
        have hRcol : RP.color = (fun q =>
            if 14 ≤ q ∧ q < 197 then swapCase (CL.1.color q) else CL.1.color q) := hcolF
        have hCL1col : CL.1.color = Function.update p.color pt 'X' := by
          rw [hcleq, hPScol]
        rw [hEQ3, hRPe, hpcv, hclpc]
        rw [undo_move_eq_nocap RP, hRl1]
        obtain ⟨U1, hU1e⟩ : ∃ x, remove_stone RP pt = x := ⟨_, rfl⟩
        rw [hU1e]
        have hU1col : U1.color = Function.update RP.color pt '.' := by
          rw [← hU1e]
          exact remove_stone_color _ _
        have hU1n : U1.n = p.n + 1 := by
          rw [← hU1e, remove_stone_n]
          exact hRn
        have hU1ko2 : U1.ko_old = p.ko := by
          rw [← hU1e, (remove_stone_ko RP pt).2]
          exact hRko2
        have hU1l2 : U1.last2 = p.last := by
          rw [← hU1e, (remove_stone_last RP pt).2.1]
          exact hRl2
        have hU1l3 : U1.last3 = p.last2 := by
          rw [← hU1e, (remove_stone_last RP pt).2.2]
          exact hRl3
        have hU1cap : U1.cap = p.capX := by
          rw [← hU1e, (remove_stone_caps RP pt).1]
          exact hRcap
        have hU1capX : U1.capX = p.cap := by
          rw [← hU1e, (remove_stone_caps RP pt).2.1]
          exact hRcapX
        have hU1komi : U1.komi = p.komi := by
          rw [← hU1e, (remove_stone_caps RP pt).2.2]
          exact hRkomi
        have hRPx : RP.color pt = 'x' := by
          rw [hRcol]
          show (if 14 ≤ pt ∧ pt < 197 then swapCase (CL.1.color pt) else CL.1.color pt) = 'x'
          rw [if_pos h14, hCL1col, Function.update_same]
          rfl
        have hIU1 : Inv U1 := by
          rw [← hU1e]
          exact remove_stone_Inv RP pt hIRP0 hpt hRPx
        have hExF : ExtInv (swap_color
            { U1 with last := U1.last2, last2 := U1.last3, ko := U1.ko_old, n := U1.n - 1, cap := U1.capX, capX := U1.cap }) :=
          swap_color_parity_ExtInv U1
            (swap_color { U1 with last := U1.last2, last2 := U1.last3, ko := U1.ko_old, n := U1.n - 1, cap := U1.capX, capX := U1.cap })
            rfl rfl rfl
            (by
              show (U1.n - 1) % 2 = 0 ↔ ¬ U1.n % 2 = 0
              constructor <;> intro h <;> omega)
            hIU1.1 hIU1.2
        have hwFcol : wfColor (swap_color
            { U1 with last := U1.last2, last2 := U1.last3, ko := U1.ko_old, n := U1.n - 1, cap := U1.capX, capX := U1.cap }).color :=
          wfColor_swap U1.color hIU1.1
        have hIF : Inv (swap_color
            { U1 with last := U1.last2, last2 := U1.last3, ko := U1.ko_old, n := U1.n - 1, cap := U1.capX, capX := U1.cap }) := ⟨hwFcol, hExF⟩
        have hITar : Inv ({ p with last3 := p.last2, ko_old := p.ko } : Position) := hI
        have hcolEq : ∀ q, (swap_color
            { U1 with last := U1.last2, last2 := U1.last3, ko := U1.ko_old, n := U1.n - 1, cap := U1.capX, capX := U1.cap }).color q = p.color q := by
          intro q
          show (if 14 ≤ q ∧ q < 197 then swapCase (U1.color q) else U1.color q) = p.color q
          by_cases hq2 : q = pt
          · subst hq2
            rw [if_pos h14, hU1col, Function.update_same, hdot]
            decide
          · have hU1q : U1.color q
                = if 14 ≤ q ∧ q < 197 then swapCase (p.color q) else p.color q := by
              rw [hU1col, Function.update_noteq hq2, hRcol]
              show (if 14 ≤ q ∧ q < 197 then swapCase (CL.1.color q) else CL.1.color q) = _
              rw [hCL1col, Function.update_noteq hq2]
            rw [hU1q]
            by_cases hq3 : 14 ≤ q ∧ q < 197
            · rw [if_pos hq3, if_pos hq3]
              exact swapCase_invol _ (hchars q)
            · rw [if_neg hq3, if_neg hq3]
        have hFn : (swap_color
            { U1 with last := U1.last2, last2 := U1.last3, ko := U1.ko_old, n := U1.n - 1, cap := U1.capX, capX := U1.cap }).n = p.n := by
          show U1.n - 1 = p.n
          rw [hU1n]
          omega
        have henv : ∀ q : Int,
            (swap_color { U1 with last := U1.last2, last2 := U1.last3, ko := U1.ko_old, n := U1.n - 1, cap := U1.capX, capX := U1.cap }).env4 q = p.env4 q
            ∧ (swap_color { U1 with last := U1.last2, last2 := U1.last3, ko := U1.ko_old, n := U1.n - 1, cap := U1.capX, capX := U1.cap }).env4d q = p.env4d q := by
          intro q
          by_cases hqb : 0 ≤ q ∧ q < 211
          · exact ExtInv_determines
              (swap_color { U1 with last := U1.last2, last2 := U1.last3, ko := U1.ko_old, n := U1.n - 1, cap := U1.capX, capX := U1.cap })
              { p with last3 := p.last2, ko_old := p.ko }
              hIF.2 hITar.2 (fun r => hcolEq r) hFn q hqb.1 hqb.2
          · have hfU1 := (env4_frame_out RP pt hpt q hqb).2
            have hfPS := (env4_frame_out { p with ko_old := p.ko } pt hpt q hqb).1
            constructor
            · show U1.env4 q = p.env4 q
              rw [← hU1e, hfU1.1, hRe4, hcleq, ← hPSe, hfPS.1]
            · show U1.env4d q = p.env4d q
              rw [← hU1e, hfU1.2, hRe4d, hcleq, ← hPSe, hfPS.2]
        apply Position.ext
        · funext q
          exact hcolEq q
        · funext q
          exact (henv q).1
        · funext q
          exact (henv q).2
        · exact hFn
        · show U1.ko_old = p.ko
          exact hU1ko2
        · show U1.ko_old = p.ko
          exact hU1ko2
        · show U1.last2 = p.last
          exact hU1l2
        · show U1.last3 = p.last2
          exact hU1l3
        · show U1.last3 = p.last2
          exact hU1l3
        · show U1.komi = p.komi
          exact hU1komi
        · show U1.capX = p.cap
          exact hU1capX
        · show U1.cap = p.capX
          exact hU1cap

theorem play_undo_restores_witness :
    Inv emptyPos ∧ emptyPos.color 45 = '.'
    ∧ (play_move emptyPos 45 0).msg = ""
    ∧ (play_move emptyPos 45 0).captured ≤ 1
    ∧ undo_move (play_move emptyPos 45 0).pos (play_move emptyPos 45 0).posCapture
        = { emptyPos with last3 := emptyPos.last2, ko_old := emptyPos.ko } :=
  ⟨Inv_emptyPos, by decide, by decide, by decide,
    play_undo_restores emptyPos 45 Inv_emptyPos (by decide) (by decide) (by decide)⟩

/-! ## C7: the stored 8-bit capture counters -/

theorem runSeqCapB_append (l1 l2 : List Action) : ∀ (p : Position) (c cx t : Int),
    runSeqCapB p c cx t (l1 ++ l2)
      = match runSeqCapB p c cx t l1 with
        | some r => runSeqCapB r.1 r.2.1 r.2.2.1 r.2.2.2 l2
        | none => none := by
  induction l1 with
  | nil => intro p c cx t; rfl
  | cons a as ih =>
    intro p c cx t
    cases a with
    | pass =>
      simp only [List.cons_append, runSeqCapB]
      exact ih (pass_move p) cx c t
    | play pt =>
      simp only [List.cons_append, runSeqCapB]
      by_cases h : p.color pt = '.' ∧ (play_move p pt 0).msg = ""
      · rw [if_pos h, if_pos h]
        exact ih (play_move p pt 0).pos (sbyte ((play_move p pt 0).captured + cx)) c
          (t + (play_move p pt 0).captured)
      · rw [if_neg h, if_neg h]

theorem runSeqCapB_Inv : ∀ (acts : List Action) (p : Position) (c cx t : Int)
    (res : Position × Int × Int × Int),
    Inv p → runSeqCapB p c cx t acts = some res → Inv res.1 := by
  intro acts
  induction acts with
  | nil =>
    intro p c cx t res h hr
    simp only [runSeqCapB] at hr
    rw [← Option.some.inj hr]
    exact h
  | cons a as ih =>
    intro p c cx t res h hr
    cases a with
    | pass =>
      simp only [runSeqCapB] at hr
      exact ih (pass_move p) cx c t res (pass_move_Inv p h) hr
    | play pt =>
      simp only [runSeqCapB] at hr
      by_cases hcond : p.color pt = '.' ∧ (play_move p pt 0).msg = ""
      · rw [if_pos hcond] at hr
        exact ih (play_move p pt 0).pos _ c _ res
          ((play_move_success_spec p pt 0 h hcond.1 hcond.2).1) hr
      · rw [if_neg hcond] at hr
        exact absurd hr (by simp)

theorem runSeqCapB_tot_mono : ∀ (acts : List Action) (p : Position) (c cx t : Int)
    (res : Position × Int × Int × Int),
    Inv p → runSeqCapB p c cx t acts = some res → t ≤ res.2.2.2 := by
  intro acts
  induction acts with
  | nil =>
    intro p c cx t res h hr
    simp only [runSeqCapB] at hr
    rw [← Option.some.inj hr]
  | cons a as ih =>
    intro p c cx t res h hr
    cases a with
    | pass =>
      simp only [runSeqCapB] at hr
      exact ih (pass_move p) cx c t res (pass_move_Inv p h) hr
    | play pt =>
      simp only [runSeqCapB] at hr
      by_cases hcond : p.color pt = '.' ∧ (play_move p pt 0).msg = ""
      · rw [if_pos hcond] at hr
        have spec := play_move_success_spec p pt 0 h hcond.1 hcond.2
        have hc0 : 0 ≤ (play_move p pt 0).captured := spec.2.2.2.2.2.2.2.2.2.1
        have := ih (play_move p pt 0).pos _ c _ res spec.1 hr
        omega
      · rw [if_neg hcond] at hr
        exact absurd hr (by simp)

theorem runSeqCapB_komi : ∀ (acts : List Action) (p : Position) (c cx t : Int)
    (res : Position × Int × Int × Int),
    Inv p → runSeqCapB p c cx t acts = some res → res.1.komi = p.komi := by
  intro acts
  induction acts with
  | nil =>
    intro p c cx t res h hr
    simp only [runSeqCapB] at hr
    rw [← Option.some.inj hr]
  | cons a as ih =>
    intro p c cx t res h hr
    cases a with
    | pass =>
      simp only [runSeqCapB] at hr
      have := ih (pass_move p) cx c t res (pass_move_Inv p h) hr
      rw [this]
      exact (pass_move_fields p).2.2.2.2.2.2.2.2.1
    | play pt =>
      simp only [runSeqCapB] at hr
      by_cases hcond : p.color pt = '.' ∧ (play_move p pt 0).msg = ""
      · rw [if_pos hcond] at hr
        have spec := play_move_success_spec p pt 0 h hcond.1 hcond.2
        have := ih (play_move p pt 0).pos _ c _ res spec.1 hr
        rw [this]
        exact spec.2.2.2.2.2.2.1
      · rw [if_neg hcond] at hr
        exact absurd hr (by simp)

/-- A successful `play_move` that captures nothing leaves every cell
outside the board array untouched. -/
theorem play_out_frame (p : Position) (pt : Int)
    (hI : Inv p) (hdot : p.color pt = '.')
    (hok : (play_move p pt 0).msg = "")
    (hc0 : (play_move p pt 0).captured = 0) :
    ∀ q : Int, ¬ (0 ≤ q ∧ q < 211) →
      (play_move p pt 0).pos.color q = p.color q
      ∧ (play_move p pt 0).pos.env4 q = p.env4 q
      ∧ (play_move p pt 0).pos.env4d q = p.env4d q := by
  intro q hq
  have hpt : interiorP pt := interior_of_dot p pt hI.1 hdot
  have hI0 : Inv { p with ko_old := p.ko } := hI
  have hdot0 : ({ p with ko_old := p.ko } : Position).color pt = '.' := hdot
  have hI1 : Inv (put_stone { p with ko_old := p.ko } pt) :=
    put_stone_Inv _ pt hI0 hpt hdot0
  obtain ⟨hclI, hclpos, hcl0, hcl1, hclint, hcln, hclko, hclko2, hcll1, hcll2,
      hcll3, hclkomi, hclcap, hclcapX⟩ :=
    captureLoop_spec (put_stone { p with ko_old := p.ko } pt) pt hI1
  by_cases hko : pt = p.ko
  · rw [play_move_eq_ko p pt 0 hko] at hok
    dsimp only at hok
    exact absurd hok (by decide)
  · have hEQ2 := play_move_eq_else p pt 0 hko
    obtain ⟨PS, hPSe⟩ : ∃ x, put_stone { p with ko_old := p.ko } pt = x := ⟨_, rfl⟩
    rw [hPSe] at hI1 hEQ2
    rw [hPSe] at hclI hclpos hcl0 hcl1 hclint hcln hclko hclko2
    rw [hPSe] at hcll1 hcll2 hcll3 hclkomi hclcap hclcapX
    obtain ⟨CL, hCLe⟩ : ∃ x, captureLoop PS pt = x := ⟨_, rfl⟩
    rw [hCLe] at hEQ2 hclI hclpos hcl0 hcl1 hclint hcln hclko
    rw [hCLe] at hclko2 hcll1 hcll2 hcll3 hclkomi hclcap hclcapX
    have hPScol : PS.color = Function.update p.color pt 'X' := by
      rw [← hPSe]
      exact put_stone_color _ pt
    by_cases hcap : 0 < CL.2.1
    · have hEQ3 : play_move p pt 0 = playFinish
          { CL.1 with
              ko := if CL.2.1 = 1 ∧ is_eyeish { p with ko_old := p.ko } pt ≠ Char.ofNat 0
                then CL.2.2 else 0 }
          pt CL.2.1 CL.2.2 := by
        rw [hEQ2, if_pos hcap]
      have hcapt : (play_move p pt 0).captured = CL.2.1 := by
        rw [hEQ3]
        exact (playFinish_fields _ _ _ _).2.1
      rw [hcapt] at hc0
      omega
    · have hc00 : CL.2.1 = 0 := by
        have := hclpos
        omega
      obtain ⟨hcleq, hclpc⟩ := hcl0 hc00
      by_cases hsui : (compute_block { CL.1 with ko := 0 } pt 1).2.length = 0
      · have hmsgE : (play_move p pt 0).msg = "Error Illegal move: suicide" := by
          rw [hEQ2, if_neg hcap, if_pos hsui]
        rw [hmsgE] at hok
        exact absurd hok (by decide)
      · have hEQ3 : play_move p pt 0
            = playFinish { CL.1 with ko := 0 } pt CL.2.1 CL.2.2 := by
          rw [hEQ2, if_neg hcap, if_neg hsui]
        obtain ⟨hm, hcc, hpcv, hn, hkoF, hko2F, hl1, hl2, hl3, hcapF, hcapXF, hkomiF,
            he4F, he4dF, hcolF⟩ := playFinish_fields
          { CL.1 with ko := 0 } pt CL.2.1 CL.2.2
        have hnotr : ¬ (14 ≤ q ∧ q < 197) := by omega
        have hqpt : q ≠ pt := by
          obtain ⟨a, b, c⟩ := hpt
          omega
        have hfPS := (env4_frame_out { p with ko_old := p.ko } pt hpt q hq).1
        refine ⟨?_, ?_, ?_⟩
        · rw [hEQ3, hcolF]
          show (if 14 ≤ q ∧ q < 197
              then swapCase (({ CL.1 with ko := 0 } : Position).color q)
              else ({ CL.1 with ko := 0 } : Position).color q) = p.color q
          rw [if_neg hnotr]
          show CL.1.color q = p.color q
          rw [hcleq, hPScol, Function.update_noteq hqpt]
        · rw [hEQ3, he4F]
          show CL.1.env4 q = p.env4 q
          rw [hcleq, ← hPSe, hfPS.1]
        · rw [hEQ3, he4dF]
          show CL.1.env4d q = p.env4d q
          rw [hcleq, ← hPSe, hfPS.2]

/-- A capture-free legal sequence leaves every cell outside the board
array untouched. -/
theorem runSeqCapB_out_frame : ∀ (acts : List Action) (p : Position) (c cx t : Int)
    (res : Position × Int × Int × Int),
    Inv p → runSeqCapB p c cx t acts = some res → res.2.2.2 = t →
    ∀ q : Int, ¬ (0 ≤ q ∧ q < 211) →
      res.1.color q = p.color q ∧ res.1.env4 q = p.env4 q
        ∧ res.1.env4d q = p.env4d q := by
  intro acts
  induction acts with
  | nil =>
    intro p c cx t res h hr _ q hq
    simp only [runSeqCapB] at hr
    rw [← Option.some.inj hr]
    exact ⟨rfl, rfl, rfl⟩
  | cons a as ih =>
    intro p c cx t res h hr htot q hq
    cases a with
    | pass =>
      simp only [runSeqCapB] at hr
      have hrec := ih (pass_move p) cx c t res (pass_move_Inv p h) hr htot q hq
      have hnotr : ¬ (14 ≤ q ∧ q < 197) := by omega
      refine ⟨?_, ?_, ?_⟩
      · rw [hrec.1, (pass_move_fields p).2.2.2.2.2.2.2.2.2.2.2]
        show (if 14 ≤ q ∧ q < 197 then swapCase (p.color q) else p.color q) = p.color q
        rw [if_neg hnotr]
      · rw [hrec.2.1, (pass_move_fields p).2.2.2.2.2.2.2.2.2.1]
      · rw [hrec.2.2, (pass_move_fields p).2.2.2.2.2.2.2.2.2.2.1]
    | play pt =>
      simp only [runSeqCapB] at hr
      by_cases hcond : p.color pt = '.' ∧ (play_move p pt 0).msg = ""
      · rw [if_pos hcond] at hr
        have spec := play_move_success_spec p pt 0 h hcond.1 hcond.2
        have hcnn : 0 ≤ (play_move p pt 0).captured := spec.2.2.2.2.2.2.2.2.2.1
        have hmono := runSeqCapB_tot_mono as (play_move p pt 0).pos _ c _ res spec.1 hr
        have hc0 : (play_move p pt 0).captured = 0 := by omega
        have hstep := play_out_frame p pt h hcond.1 hcond.2 hc0 q hq
        have hrec := ih (play_move p pt 0).pos _ c _ res spec.1 hr (by omega) q hq
        exact ⟨hrec.1.trans hstep.1, hrec.2.1.trans hstep.2.1,
          hrec.2.2.trans hstep.2.2⟩
      · rw [if_neg hcond] at hr
        exact absurd hr (by simp)

set_option maxRecDepth 40000 in
theorem Inv_c7Mid : Inv c7Mid := by
  have d1 : ∀ k : Nat, k < 211 → (¬ (15 ≤ k ∧ k ≤ 195 ∧ k % 14 ≠ 0)) →
      c7MidStr.data.getD k ' ' = ' ' := by decide
  have d2 : ∀ k : Nat, k < 211 → (15 ≤ k ∧ k ≤ 195 ∧ k % 14 ≠ 0) →
      (c7MidStr.data.getD k ' ' = '.' ∨ c7MidStr.data.getD k ' ' = 'X'
        ∨ c7MidStr.data.getD k ' ' = 'x') := by decide
  constructor
  · constructor
    · intro q hni
      show (if 0 ≤ q ∧ q < 211 then c7MidStr.data.getD q.toNat ' ' else ' ') = ' '
      by_cases hq : 0 ≤ q ∧ q < 211
      · rw [if_pos hq]
        have hk : ((q.toNat : Nat) : Int) = q := Int.toNat_of_nonneg hq.1
        apply d1 q.toNat (by omega)
        intro hcN
        apply hni
        exact ⟨by omega, by omega, by omega⟩
      · rw [if_neg hq]
    · intro q hin
      obtain ⟨h1, h2, h3⟩ := hin
      have hq : 0 ≤ q ∧ q < 211 := by omega
      have hk : ((q.toNat : Nat) : Int) = q := Int.toNat_of_nonneg hq.1
      have hd := d2 q.toNat (by omega) ⟨by omega, by omega, by omega⟩
      show c7MidCol q = '.' ∨ c7MidCol q = 'X' ∨ c7MidCol q = 'x'
      unfold c7MidCol
      rw [if_pos hq]
      exact hd
  · intro q h0 h1
    constructor
    · show (if 0 ≤ q ∧ q < 211 then computeEnv4F c7MidCol 130 q 0
        else computeEnv4F emptyColor 0 q 0) = compute_env4 c7Mid q 0
      rw [if_pos ⟨h0, h1⟩, compute_env4_def]
      rfl
    · show (if 0 ≤ q ∧ q < 211 then computeEnv4F c7MidCol 130 q 4
        else computeEnv4F emptyColor 0 q 4) = compute_env4 c7Mid q 4
      rw [if_pos ⟨h0, h1⟩, compute_env4_def]
      rfl

set_option maxRecDepth 100000 in
set_option maxHeartbeats 16000000 in
theorem c7_chunk1 : runSeqCapB emptyPos 0 0 0 c7Acts1 = some (c7Mid, 0, 0, 0) := by
  have h0 : runSeqCapB emptyPos 0 0 0 c7Acts1 = some c7R1p := rfl
  have hS : c7R1p.2.1 = 0 ∧ c7R1p.2.2.1 = 0 ∧ c7R1p.2.2.2 = 0 ∧ c7R1p.1.n = 130
      ∧ c7R1p.1.ko = 0 ∧ c7R1p.1.ko_old = 0 ∧ c7R1p.1.last = 85
      ∧ c7R1p.1.last2 = 0 ∧ c7R1p.1.last3 = 86 ∧ c7R1p.1.cap = 0
      ∧ c7R1p.1.capX = 0
      ∧ ∀ k : Nat, k < 211 →
          c7R1p.1.color (k : Int) = c7MidStr.data.getD k ' ' := by decide
  obtain ⟨hcap1, hcapX1, htot1, hn1, hko1, hko2a, hl1a, hl2a, hl3a, hc1a, hcx1a,
    hcolN⟩ := hS
  have hIe : Inv c7R1p.1 :=
    runSeqCapB_Inv c7Acts1 emptyPos 0 0 0 c7R1p Inv_emptyPos h0
  have hkomi1 : c7R1p.1.komi = 15 / 2 := by
    rw [runSeqCapB_komi c7Acts1 emptyPos 0 0 0 c7R1p Inv_emptyPos h0]
    rfl
  have hofr := runSeqCapB_out_frame c7Acts1 emptyPos 0 0 0 c7R1p Inv_emptyPos h0 htot1
  have hcolAll : ∀ q : Int, c7R1p.1.color q = c7Mid.color q := by
    intro q
    by_cases hq : 0 ≤ q ∧ q < 211
    · have hk : ((q.toNat : Nat) : Int) = q := Int.toNat_of_nonneg hq.1
      have h2 := hcolN q.toNat (by omega)
      rw [hk] at h2
      rw [h2]
      show c7MidStr.data.getD q.toNat ' ' = c7MidCol q
      unfold c7MidCol
      rw [if_pos hq]
    · rw [(hofr q hq).1, emptyPos_color]
      show emptyColor q = c7MidCol q
      unfold emptyColor c7MidCol
      rw [if_neg hq, if_neg hq]
  have hnEq : c7R1p.1.n = c7Mid.n := hn1
  have hePos : ∀ q : Int, c7R1p.1.env4 q = c7Mid.env4 q
      ∧ c7R1p.1.env4d q = c7Mid.env4d q := by
    intro q
    by_cases hq : 0 ≤ q ∧ q < 211
    · exact ExtInv_determines c7R1p.1 c7Mid hIe.2 Inv_c7Mid.2 hcolAll hnEq q hq.1 hq.2
    · have h2 := hofr q hq
      constructor
      · rw [h2.2.1, emptyPos_env4]
        show computeEnv4F emptyColor 0 q 0
          = (if 0 ≤ q ∧ q < 211 then computeEnv4F c7MidCol 130 q 0
            else computeEnv4F emptyColor 0 q 0)
        rw [if_neg hq]
      · rw [h2.2.2, emptyPos_env4d]
        show computeEnv4F emptyColor 0 q 4
          = (if 0 ≤ q ∧ q < 211 then computeEnv4F c7MidCol 130 q 4
            else computeEnv4F emptyColor 0 q 4)
        rw [if_neg hq]
  have hPos : c7R1p.1 = c7Mid := by
    apply Position.ext
    · funext q
      exact hcolAll q
    · funext q
      exact (hePos q).1
    · funext q
      exact (hePos q).2
    · exact hnEq
    · exact hko1
    · exact hko2a
    · exact hl1a
    · exact hl2a
    · exact hl3a
    · exact hkomi1
    · exact hc1a
    · exact hcx1a
  rw [h0]
  have hP : c7R1p = (c7Mid, 0, 0, 0) := by
    have e1 : c7R1p = (c7R1p.1, c7R1p.2.1, c7R1p.2.2.1, c7R1p.2.2.2) := rfl
    rw [e1, hPos, hcap1, hcapX1, htot1]
  rw [hP]

set_option maxRecDepth 100000 in
set_option maxHeartbeats 16000000 in
theorem c7_chunk2 :
    (runSeqCapB c7Mid 0 0 0 c7Acts2).map
        (fun r => (r.2.1, r.2.2.1, r.2.2.2)) = some (-127, 0, 129) := by decide

/-- C7 counterexample: in the 259-action legal game `c7CexActs` the final
Black move captures 129 White stones at once.  The program stores the
`int` sum `captured + capX = 129` into the 8-bit `char cap`, which wraps
to `-127`, so the stored counters sum to `-127 ≠ 129`: the claimed
equality with the total number of captured stones fails. -/
theorem cap_counters_wrap_cex :
    ((runSeqCapB emptyPos 0 0 0 c7CexActs).map
        (fun r => (r.2.1, r.2.2.1, r.2.2.2)) = some (-127, 0, 129))
    ∧ ((-127 : Int) + 0 ≠ 129) := by
  constructor
  · show (runSeqCapB emptyPos 0 0 0 (c7Acts1 ++ c7Acts2)).map
        (fun r => (r.2.1, r.2.2.1, r.2.2.2)) = some (-127, 0, 129)
    rw [runSeqCapB_append c7Acts1 c7Acts2 emptyPos 0 0 0]
    rw [c7_chunk1]
    show (runSeqCapB c7Mid 0 0 0 c7Acts2).map
        (fun r => (r.2.1, r.2.2.1, r.2.2.2)) = some (-127, 0, 129)
    exact c7_chunk2
  · decide

theorem runSeqCapB_bounds : ∀ (acts : List Action) (p : Position) (c cx t : Int)
    (res : Position × Int × Int × Int),
    runSeqCapB p c cx t acts = some res →
    -128 ≤ c → c ≤ 127 → -128 ≤ cx → cx ≤ 127 →
    ((res.2.1 + res.2.2.1) % 256 = ((c + cx) + (res.2.2.2 - t)) % 256
      ∧ -128 ≤ res.2.1 ∧ res.2.1 ≤ 127 ∧ -128 ≤ res.2.2.1 ∧ res.2.2.1 ≤ 127) := by
  intro acts
  induction acts with
  | nil =>
    intro p c cx t res hr hc1 hc2 hcx1 hcx2
    simp only [runSeqCapB] at hr
    rw [← Option.some.inj hr]
    refine ⟨?_, hc1, hc2, hcx1, hcx2⟩
    show (c + cx) % 256 = ((c + cx) + (t - t)) % 256
    omega
  | cons a as ih =>
    intro p c cx t res hr hc1 hc2 hcx1 hcx2
    cases a with
    | pass =>
      simp only [runSeqCapB] at hr
      have hrec := ih (pass_move p) cx c t res hr hcx1 hcx2 hc1 hc2
      refine ⟨?_, hrec.2⟩
      have h3 := hrec.1
      rw [Int.add_comm cx c] at h3
      exact h3
    | play pt =>
      simp only [runSeqCapB] at hr
      by_cases hcond : p.color pt = '.' ∧ (play_move p pt 0).msg = ""
      · rw [if_pos hcond] at hr
        have hsb1 : -128 ≤ sbyte ((play_move p pt 0).captured + cx) := by
          unfold sbyte
          omega
        have hsb2 : sbyte ((play_move p pt 0).captured + cx) ≤ 127 := by
          unfold sbyte
          omega
        have hrec := ih (play_move p pt 0).pos
          (sbyte ((play_move p pt 0).captured + cx)) c
          (t + (play_move p pt 0).captured) res hr hsb1 hsb2 hc1 hc2
        refine ⟨?_, hrec.2⟩
        have h3 := hrec.1
        unfold sbyte at h3
        omega
      · rw [if_neg hcond] at hr
        exact absurd hr (by simp)

/-- C7 (amended): for every legal sequence of `play_move` and `pass_move`
calls starting from `empty_position`, the stored 8-bit capture counters
always lie in the signed-char range `[-128, 127]` and their sum is
congruent to the total number of captured stones modulo 256.  The exact
equality claimed originally fails once a counter store overflows the
`char` (see `cap_counters_wrap_cex`). -/
theorem cap_counters_total_byte (acts : List Action) (pos : Position)
    (cap capX tot : Int)
    (h : runSeqCapB emptyPos 0 0 0 acts = some (pos, cap, capX, tot)) :
    (cap + capX) % 256 = tot % 256
    ∧ -128 ≤ cap ∧ cap ≤ 127 ∧ -128 ≤ capX ∧ capX ≤ 127 := by
  have hb := runSeqCapB_bounds acts emptyPos 0 0 0 (pos, cap, capX, tot) h
    (by omega) (by omega) (by omega) (by omega)
  refine ⟨?_, hb.2.1, hb.2.2.1, hb.2.2.2.1, hb.2.2.2.2⟩
  have h1 := hb.1
  dsimp only at h1
  show (cap + capX) % 256 = tot % 256
  omega

/-- The byte-level counters after the short capture game `c7Acts`. -/
def c7ResB : Position × Int × Int × Int :=
  (runSeqCapB emptyPos 0 0 0 c7Acts).getD (emptyPos, 0, 0, 0)

theorem cap_counters_total_byte_witness :
    (runSeqCapB emptyPos 0 0 0 c7Acts
      = some (c7ResB.1, c7ResB.2.1, c7ResB.2.2.1, c7ResB.2.2.2))
    ∧ ((c7ResB.2.1 + c7ResB.2.2.1) % 256 = c7ResB.2.2.2 % 256
      ∧ -128 ≤ c7ResB.2.1 ∧ c7ResB.2.1 ≤ 127
      ∧ -128 ≤ c7ResB.2.2.1 ∧ c7ResB.2.2.1 ≤ 127) :=
  ⟨rfl, cap_counters_total_byte c7Acts c7ResB.1 c7ResB.2.1 c7ResB.2.2.1
    c7ResB.2.2.2 rfl⟩

end Michi
